import Mathlib

/-! Forecasting engine (`forecast/moving_average.go`)

A shallow embedding of `MovingAverageForecast`, `calculateTrend`, `calculateStdDev` and
`SimpleMovingAverage`, with the pure helpers `CalculateAlertLevels` (`pipeline/enrich.go`)
and `TruncateString` (`pipeline/standardize.go`) and the parameter selection of
`ForecastHandler` (`api/forecast.go`), and the properties of the forecasting engine's
specification.

Modelling conventions.

* `float64` is read in two ways.  In the exact reading it is an ordered field: the
  definitions are polymorphic in a `LinearOrderedField α` (they run on `ℚ`), and the
  theorems that need a square root are stated over `ℝ` with `Real.sqrt` standing for
  `math.Sqrt`; rounding, infinities and NaN are absent from it.  In the binary64 reading
  (`F64`, `binary64`) every operation rounds to the nearest `float64`, overflows to an
  infinity and produces NaN as IEEE 754 prescribes.  The forecaster is also defined over an
  arbitrary arithmetic (`FloatOps`), and is proved to be the exact definitions at the exact
  arithmetic; statements in the binary64 reading are about that definition at `binary64`.
* `int` is read as a mathematical integer (`Int`); slice lengths are `Nat`.
* `make([]T, 0, c)` panics at run time when `c` is negative; this is the `none` result of
  `MovingAverageForecast`.  Allocation limits are outside the model.
* A `for … range` loop is a structural recursion (or a left fold) over the slice, carrying
  the loop's local variables; `append` is list concatenation on the right.
* Slice and index expressions panic when out of range.  The `…Checked` definitions carry
  these checks as an `Option`; they are proved equal to the unchecked ones.
* A Go `string` is its sequence of bytes, a list over a type of bytes.
-/

namespace Forecast

/-- The record `ForecastResult`: a single forecast point. -/
structure ForecastResult (α : Type) where
  Period : String
  Predicted : α
  LowerBound : α
  UpperBound : α
  Historical : Bool

/-- The four running sums of the regression loop in `calculateTrend`. -/
structure TrendSums (α : Type) where
  sumX : α
  sumY : α
  sumXY : α
  sumX2 : α

/-- The loop `for i, y := range window` of `calculateTrend`, started at index `i` with
the running sums `s`. -/
def trendLoop {α : Type} [LinearOrderedField α] : List α → Nat → TrendSums α → TrendSums α
  | [], _, s => s
  | y :: rest, i, s =>
    let x : α := (i : α)
    trendLoop rest (i + 1)
      { sumX := s.sumX + x, sumY := s.sumY + y, sumXY := s.sumXY + x * y,
        sumX2 := s.sumX2 + x * x }

/-- The function `calculateTrend`: the linear trend from the last `windowSize` points. -/
def calculateTrend {α : Type} [LinearOrderedField α] (data : List α) (windowSize : Int) : α :=
  let windowSize := if (data.length : Int) < windowSize then (data.length : Int) else windowSize
  if windowSize < 2 then 0
  else
    let window := data.drop ((data.length : Int) - windowSize).toNat
    let n : α := (window.length : α)
    let s := trendLoop window 0 { sumX := 0, sumY := 0, sumXY := 0, sumX2 := 0 }
    let numerator := (n * s.sumXY) - (s.sumX * s.sumY)
    let denominator := (n * s.sumX2) - (s.sumX * s.sumX)
    if denominator = 0 then 0 else numerator / denominator

/-- The function `calculateStdDev`: the standard deviation of the last `windowSize` points;
`sqrt` stands for `math.Sqrt`. -/
def calculateStdDev {α : Type} [LinearOrderedField α] (sqrt : α → α) (data : List α)
    (windowSize : Int) : α :=
  let windowSize := if (data.length : Int) < windowSize then (data.length : Int) else windowSize
  if windowSize < 2 then 0
  else
    let window := data.drop ((data.length : Int) - windowSize).toNat
    let mean := window.foldl (fun mean value => mean + value) 0
    let mean := mean / (window.length : α)
    let variance := window.foldl (fun variance value =>
      let diff := value - mean
      variance + diff * diff) 0
    let variance := variance / (window.length : α)
    sqrt variance

/-- The body of the forecasting loop of `MovingAverageForecast` at step `i`: the point
that is appended. -/
def forecastStep {α : Type} [LinearOrderedField α] (lastValue trend stdDev : α) (i : Nat) :
    ForecastResult α :=
  let predicted := lastValue + (trend * (i : α))
  let confidenceMultiplier := 1.0 + ((i : α) * 0.2)
  let lowerBound := predicted - (stdDev * confidenceMultiplier)
  let upperBound := predicted + (stdDev * confidenceMultiplier)
  let lowerBound := if lowerBound < 0 then 0 else lowerBound
  let predicted := if predicted < 0 then 0 else predicted
  { Period := "", Predicted := predicted, LowerBound := lowerBound, UpperBound := upperBound,
    Historical := false }

/-- The function `MovingAverageForecast`.  The result is `none` exactly when the
`make` call panics on a negative capacity. -/
def MovingAverageForecast {α : Type} [LinearOrderedField α] (sqrt : α → α)
    (historical : List α) (periodsAhead : Int) (windowSize : Int) :
    Option (List (ForecastResult α)) :=
  if historical.length = 0 then some []
  else
    let windowSize :=
      if windowSize > (historical.length : Int) then (historical.length : Int) else windowSize
    let windowSize := if windowSize < 2 then 2 else windowSize
    if (historical.length : Int) + periodsAhead < 0 then none
    else
      let results : List (ForecastResult α) := []
      let results := historical.foldl (fun results value =>
        results ++ [{ Period := "", Predicted := value, LowerBound := value,
                      UpperBound := value, Historical := true }]) results
      let trend := calculateTrend historical windowSize
      let stdDev := calculateStdDev sqrt historical windowSize
      let lastValue := historical.getD (historical.length - 1) 0
      let results := (List.range' 1 periodsAhead.toNat).foldl (fun results i =>
        results ++ [forecastStep lastValue trend stdDev i]) results
      some results

/-! ## Reading the two loops of `MovingAverageForecast` as maps -/

/-- The forecast point that echoes a historical observation. -/
def echoPoint {α : Type} (value : α) : ForecastResult α :=
  { Period := "", Predicted := value, LowerBound := value, UpperBound := value,
    Historical := true }

/-- The window size after the two clamps at the head of `MovingAverageForecast`. -/
def clampWindow (len : Nat) (windowSize : Int) : Int :=
  max 2 (min windowSize (len : Int))

/-! ## Run-time checks made explicit

Slicing and indexing panic in Go when out of range.  The definitions below repeat
`calculateTrend`, `calculateStdDev` and `MovingAverageForecast` with every slice and index
expression checked (`none` is a panic); they are proved equal to the definitions above. -/

/-- The slice expression `data[lo:]`: a panic (`none`) unless `0 ≤ lo ≤ len(data)`. -/
def sliceFrom {β : Type} (data : List β) (lo : Int) : Option (List β) :=
  if 0 ≤ lo ∧ lo ≤ (data.length : Int) then some (data.drop lo.toNat) else none

/-- The slice expression `data[:hi]`: a panic (`none`) unless `0 ≤ hi ≤ len(data)`. -/
def sliceTo {β : Type} (data : List β) (hi : Int) : Option (List β) :=
  if 0 ≤ hi ∧ hi ≤ (data.length : Int) then some (data.take hi.toNat) else none

/-- The index expression `data[i]`: a panic (`none`) unless `0 ≤ i < len(data)`. -/
def indexAt {β : Type} (data : List β) (i : Int) : Option β :=
  if 0 ≤ i ∧ i < (data.length : Int) then data[i.toNat]? else none

/-- The function `calculateTrend` with its slice expression checked. -/
def calculateTrendChecked {α : Type} [LinearOrderedField α] (data : List α)
    (windowSize : Int) : Option α :=
  let windowSize := if (data.length : Int) < windowSize then (data.length : Int) else windowSize
  if windowSize < 2 then some 0
  else
    match sliceFrom data ((data.length : Int) - windowSize) with
    | none => none
    | some window =>
      let n : α := (window.length : α)
      let s := trendLoop window 0 { sumX := 0, sumY := 0, sumXY := 0, sumX2 := 0 }
      let numerator := (n * s.sumXY) - (s.sumX * s.sumY)
      let denominator := (n * s.sumX2) - (s.sumX * s.sumX)
      if denominator = 0 then some 0 else some (numerator / denominator)

/-- The function `calculateStdDev` with its slice expression checked. -/
def calculateStdDevChecked {α : Type} [LinearOrderedField α] (sqrt : α → α) (data : List α)
    (windowSize : Int) : Option α :=
  let windowSize := if (data.length : Int) < windowSize then (data.length : Int) else windowSize
  if windowSize < 2 then some 0
  else
    match sliceFrom data ((data.length : Int) - windowSize) with
    | none => none
    | some window =>
      let mean := window.foldl (fun mean value => mean + value) 0
      let mean := mean / (window.length : α)
      let variance := window.foldl (fun variance value =>
        let diff := value - mean
        variance + diff * diff) 0
      let variance := variance / (window.length : α)
      some (sqrt variance)

/-- The function `MovingAverageForecast` with the `make` call, the two helper calls and
the index expression `historical[len(historical)-1]` checked. -/
def MovingAverageForecastChecked {α : Type} [LinearOrderedField α] (sqrt : α → α)
    (historical : List α) (periodsAhead : Int) (windowSize : Int) :
    Option (List (ForecastResult α)) :=
  if historical.length = 0 then some []
  else
    let windowSize :=
      if windowSize > (historical.length : Int) then (historical.length : Int) else windowSize
    let windowSize := if windowSize < 2 then 2 else windowSize
    if (historical.length : Int) + periodsAhead < 0 then none
    else
      let results : List (ForecastResult α) := []
      let results := historical.foldl (fun results value =>
        results ++ [{ Period := "", Predicted := value, LowerBound := value,
                      UpperBound := value, Historical := true }]) results
      match calculateTrendChecked historical windowSize with
      | none => none
      | some trend =>
        match calculateStdDevChecked sqrt historical windowSize with
        | none => none
        | some stdDev =>
          match indexAt historical ((historical.length : Int) - 1) with
          | none => none
          | some lastValue =>
            let results := (List.range' 1 periodsAhead.toNat).foldl (fun results i =>
              results ++ [forecastStep lastValue trend stdDev i]) results
            some results

/-! ## The other pure helpers of the repository -/

/-- The loop `for i := …; i < len(data); i++ { sum += data[i] }` of `SimpleMovingAverage`,
at counter `i` with `count` iterations left. -/
def smaLoop {α : Type} [LinearOrderedField α] (data : List α) : Int → α → Nat → Option α
  | _, sum, 0 => some sum
  | i, sum, count + 1 =>
    match indexAt data i with
    | none => none
    | some value => smaLoop data (i + 1) (sum + value) count

/-- The function `SimpleMovingAverage` (`forecast/moving_average.go`); `none` is an index
out of range. -/
def SimpleMovingAverage {α : Type} [LinearOrderedField α] (data : List α) (windowSize : Int) :
    Option α :=
  if data.length = 0 then some 0
  else
    let windowSize :=
      if windowSize > (data.length : Int) then (data.length : Int) else windowSize
    match smaLoop data ((data.length : Int) - windowSize) 0
        ((data.length : Int) - ((data.length : Int) - windowSize)).toNat with
    | none => none
    | some sum => some (sum / ((windowSize : Int) : α))

/-- The function `CalculateAlertLevels` (`pipeline/enrich.go`). -/
def CalculateAlertLevels {α : Type} [LinearOrderedField α] (caseRate : α) (tripCount : Int) :
    String :=
  if caseRate > 300 ∨ tripCount > 1500 then "HIGH"
  else if caseRate > 100 ∨ tripCount > 500 then "MEDIUM"
  else "LOW"

/-- The function `TruncateString` (`pipeline/standardize.go`) on a string given as its
sequence of bytes; `none` is the panic of the slice expression `s[:maxLen]`. -/
def TruncateString {β : Type} (s : List β) (maxLen : Int) : Option (List β) :=
  if (s.length : Int) ≤ maxLen then some s
  else sliceTo s maxLen

/-- The choice of `periodsAhead` and `windowSize` in `ForecastHandler` (`api/forecast.go`)
from the request parameter `period` (the empty string defaults to `"d"`); `none` is the
`default` case of the `switch`, which replies HTTP 400 and returns before the forecaster is
called.  The SQL grouping clause chosen by the same `switch` is left out. -/
def ForecastHandlerParameters (period : String) : Option (Int × Int) :=
  let period := if period = "" then "d" else period
  if period = "d" ∨ period = "daily" then some (30, 14)
  else if period = "w" ∨ period = "weekly" then some (12, 8)
  else if period = "m" ∨ period = "monthly" then some (6, 6)
  else none

/-! ## The same functions over an arbitrary `float64` arithmetic

The definitions above read `float64` as an exact ordered field.  The definitions below repeat
`calculateTrend`, `calculateStdDev` and `MovingAverageForecast` with the arithmetic as a
parameter: at the exact arithmetic of a field they are the definitions above, and at the
arithmetic `binary64` they round every result to the nearest `float64`, overflow to an
infinity and produce NaN as IEEE 754 prescribes. -/

/-- The `float64` operations used by the forecaster: conversion of a constant or of an `int`
(given as a rational), the four arithmetic operations, `math.Sqrt`, `<` and `==`. -/
structure FloatOps (F : Type) where
  ofRat : ℚ → F
  add : F → F → F
  sub : F → F → F
  mul : F → F → F
  div : F → F → F
  sqrt : F → F
  lt : F → F → Bool
  eq : F → F → Bool

/-- The exact arithmetic of an ordered field, with a given square root. -/
def exactOps {α : Type} [LinearOrderedField α] (sqrt : α → α) : FloatOps α :=
  { ofRat := fun q => (q : α), add := fun a b => a + b, sub := fun a b => a - b,
    mul := fun a b => a * b, div := fun a b => a / b, sqrt := sqrt,
    lt := fun a b => decide (a < b), eq := fun a b => decide (a = b) }

/-- The loop of `calculateTrend` over the arithmetic `ops`. -/
def trendLoopF {F : Type} (ops : FloatOps F) : List F → Nat → TrendSums F → TrendSums F
  | [], _, s => s
  | y :: rest, i, s =>
    let x : F := ops.ofRat (i : ℚ)
    trendLoopF ops rest (i + 1)
      { sumX := ops.add s.sumX x, sumY := ops.add s.sumY y,
        sumXY := ops.add s.sumXY (ops.mul x y), sumX2 := ops.add s.sumX2 (ops.mul x x) }

/-- The function `calculateTrend` over the arithmetic `ops`. -/
def calculateTrendF {F : Type} (ops : FloatOps F) (data : List F) (windowSize : Int) : F :=
  let windowSize := if (data.length : Int) < windowSize then (data.length : Int) else windowSize
  if windowSize < 2 then ops.ofRat 0
  else
    let window := data.drop ((data.length : Int) - windowSize).toNat
    let n : F := ops.ofRat (window.length : ℚ)
    let s := trendLoopF ops window 0
      { sumX := ops.ofRat 0, sumY := ops.ofRat 0, sumXY := ops.ofRat 0, sumX2 := ops.ofRat 0 }
    let numerator := ops.sub (ops.mul n s.sumXY) (ops.mul s.sumX s.sumY)
    let denominator := ops.sub (ops.mul n s.sumX2) (ops.mul s.sumX s.sumX)
    if ops.eq denominator (ops.ofRat 0) then ops.ofRat 0 else ops.div numerator denominator

/-- The function `calculateStdDev` over the arithmetic `ops`. -/
def calculateStdDevF {F : Type} (ops : FloatOps F) (data : List F) (windowSize : Int) : F :=
  let windowSize := if (data.length : Int) < windowSize then (data.length : Int) else windowSize
  if windowSize < 2 then ops.ofRat 0
  else
    let window := data.drop ((data.length : Int) - windowSize).toNat
    let mean := window.foldl (fun mean value => ops.add mean value) (ops.ofRat 0)
    let mean := ops.div mean (ops.ofRat (window.length : ℚ))
    let variance := window.foldl (fun variance value =>
      let diff := ops.sub value mean
      ops.add variance (ops.mul diff diff)) (ops.ofRat 0)
    let variance := ops.div variance (ops.ofRat (window.length : ℚ))
    ops.sqrt variance

/-- The body of the forecasting loop over the arithmetic `ops`. -/
def forecastStepF {F : Type} (ops : FloatOps F) (lastValue trend stdDev : F) (i : Nat) :
    ForecastResult F :=
  let predicted := ops.add lastValue (ops.mul trend (ops.ofRat (i : ℚ)))
  let confidenceMultiplier :=
    ops.add (ops.ofRat 1.0) (ops.mul (ops.ofRat (i : ℚ)) (ops.ofRat 0.2))
  let lowerBound := ops.sub predicted (ops.mul stdDev confidenceMultiplier)
  let upperBound := ops.add predicted (ops.mul stdDev confidenceMultiplier)
  let lowerBound := if ops.lt lowerBound (ops.ofRat 0) then ops.ofRat 0 else lowerBound
  let predicted := if ops.lt predicted (ops.ofRat 0) then ops.ofRat 0 else predicted
  { Period := "", Predicted := predicted, LowerBound := lowerBound, UpperBound := upperBound,
    Historical := false }

/-- The function `MovingAverageForecast` over the arithmetic `ops`; `none` is the panic of
the `make` call on a negative capacity. -/
def MovingAverageForecastF {F : Type} (ops : FloatOps F)
    (historical : List F) (periodsAhead : Int) (windowSize : Int) :
    Option (List (ForecastResult F)) :=
  if historical.length = 0 then some []
  else
    let windowSize :=
      if windowSize > (historical.length : Int) then (historical.length : Int) else windowSize
    let windowSize := if windowSize < 2 then 2 else windowSize
    if (historical.length : Int) + periodsAhead < 0 then none
    else
      let results : List (ForecastResult F) := []
      let results := historical.foldl (fun results value =>
        results ++ [{ Period := "", Predicted := value, LowerBound := value,
                      UpperBound := value, Historical := true }]) results
      let trend := calculateTrendF ops historical windowSize
      let stdDev := calculateStdDevF ops historical windowSize
      let lastValue := historical.getD (historical.length - 1) (ops.ofRat 0)
      let results := (List.range' 1 periodsAhead.toNat).foldl (fun results i =>
        results ++ [forecastStepF ops lastValue trend stdDev i]) results
      some results

/-! ## The arithmetic of IEEE 754 binary64

A `float64` is a finite number (kept as the rational it denotes), an infinity or NaN.  The
result of an operation on finite numbers is the exact result rounded to the nearest number
with a 53 bit significand (ties to even, gradual underflow below `2^-1022`), and an infinity
when the rounded magnitude reaches `2^1024`.  The sign of a zero is not kept: it is not
observable through `<`, `==`, `+`, `-`, `*` or a division by a non-zero number. -/

/-- A `float64` value. -/
inductive F64 where
  | fin (q : ℚ)
  | inf (negative : Bool)
  | nan
deriving DecidableEq

deriving instance DecidableEq for ForecastResult

/-- The number of halvings that bring `n` below `2`, with `fuel` steps allowed. -/
def log2Loop : Nat → Nat → Nat
  | 0, _ => 0
  | fuel + 1, n => if n < 2 then 0 else log2Loop fuel (n / 2) + 1

/-- The integer part of the binary logarithm of `n` (`0` for `n = 0`). -/
def log2 (n : Nat) : Nat := log2Loop n n

/-- The integer part of the binary logarithm of `a / b`, for positive `a` and `b`. -/
def floorLog2 (a b : Nat) : Int :=
  let e0 : Int := (log2 a : Int) - (log2 b : Int)
  if (if 0 ≤ e0 then b * 2 ^ e0.toNat ≤ a else b ≤ a * 2 ^ (-e0).toNat) then e0 else e0 - 1

/-- The integer nearest to `n / d`, ties to even. -/
def roundQuot (n d : Nat) : Nat :=
  let f := n / d
  let r := n % d
  if 2 * r < d then f
  else if d < 2 * r then f + 1
  else if f % 2 = 0 then f else f + 1

/-- The power `2 ^ k` for an integer `k`. -/
def pow2 (k : Int) : ℚ :=
  if 0 ≤ k then ((2 ^ k.toNat : Nat) : ℚ) else 1 / ((2 ^ (-k).toNat : Nat) : ℚ)

/-- Rounding of a rational to the nearest binary64 number (exponent unbounded above). -/
def round64 (q : ℚ) : ℚ :=
  if q = 0 then 0
  else
    let a := q.num.natAbs
    let b := q.den
    let e := floorLog2 a b
    let k := max (e - 52) (-1074)
    let m := if 0 ≤ k then roundQuot a (b * 2 ^ k.toNat) else roundQuot (a * 2 ^ (-k).toNat) b
    let r := (m : ℚ) * pow2 k
    if q < 0 then -r else r

/-- The `float64` nearest to a rational: the conversion of a constant or of an `int`, and the
rounding of an exact result. -/
def F64.ofRat (q : ℚ) : F64 :=
  let r := round64 q
  if (2 : ℚ) ^ 1024 ≤ r then F64.inf false
  else if r ≤ -(2 : ℚ) ^ 1024 then F64.inf true
  else F64.fin r

/-- Negation. -/
def F64.neg : F64 → F64
  | F64.fin q => F64.fin (-q)
  | F64.inf s => F64.inf (!s)
  | F64.nan => F64.nan

/-- Addition. -/
def F64.add : F64 → F64 → F64
  | F64.nan, _ => F64.nan
  | _, F64.nan => F64.nan
  | F64.inf s, F64.inf t => if s = t then F64.inf s else F64.nan
  | F64.inf s, F64.fin _ => F64.inf s
  | F64.fin _, F64.inf t => F64.inf t
  | F64.fin a, F64.fin b => F64.ofRat (a + b)

/-- Subtraction. -/
def F64.sub (x y : F64) : F64 := F64.add x (F64.neg y)

/-- Multiplication. -/
def F64.mul : F64 → F64 → F64
  | F64.nan, _ => F64.nan
  | _, F64.nan => F64.nan
  | F64.inf s, F64.inf t => F64.inf (s != t)
  | F64.inf s, F64.fin b => if b = 0 then F64.nan else F64.inf (s != decide (b < 0))
  | F64.fin a, F64.inf t => if a = 0 then F64.nan else F64.inf (decide (a < 0) != t)
  | F64.fin a, F64.fin b => F64.ofRat (a * b)

/-- Division. -/
def F64.div : F64 → F64 → F64
  | F64.nan, _ => F64.nan
  | _, F64.nan => F64.nan
  | F64.inf _, F64.inf _ => F64.nan
  | F64.inf s, F64.fin b => F64.inf (s != decide (b < 0))
  | F64.fin _, F64.inf _ => F64.fin 0
  | F64.fin a, F64.fin b =>
    if b = 0 then (if a = 0 then F64.nan else F64.inf (decide (a < 0)))
    else F64.ofRat (a / b)

/-- The comparison `<`: false when an operand is NaN. -/
def F64.lt : F64 → F64 → Bool
  | F64.nan, _ => false
  | _, F64.nan => false
  | F64.inf s, F64.inf t => s && !t
  | F64.inf s, F64.fin _ => s
  | F64.fin _, F64.inf t => !t
  | F64.fin a, F64.fin b => decide (a < b)

/-- The comparison `==`: false when an operand is NaN. -/
def F64.beq : F64 → F64 → Bool
  | F64.nan, _ => false
  | _, F64.nan => false
  | F64.inf s, F64.inf t => s == t
  | F64.inf _, F64.fin _ => false
  | F64.fin _, F64.inf _ => false
  | F64.fin a, F64.fin b => decide (a = b)

/-- The comparison `<=`: false when an operand is NaN. -/
def F64.le (x y : F64) : Bool := F64.lt x y || F64.beq x y

/-- The search of the integer square root of `n`, bit `i - 1` downwards, from the root `r`
found so far. -/
def isqrtLoop (n : Nat) : Nat → Nat → Nat
  | 0, r => r
  | i + 1, r =>
    let c := r + 2 ^ i
    isqrtLoop n i (if c * c ≤ n then c else r)

/-- The integer part of the square root of `n`. -/
def isqrt (n : Nat) : Nat := isqrtLoop n (log2 n / 2 + 1) 0

/-- The integer nearest to the square root of `n / d`, ties to even. -/
def roundSqrt (n d : Nat) : Nat :=
  let m := isqrt (n / d)
  if 4 * n < (2 * m + 1) * (2 * m + 1) * d then m
  else if (2 * m + 1) * (2 * m + 1) * d < 4 * n then m + 1
  else if m % 2 = 0 then m else m + 1

/-- The binary64 number nearest to the square root of a rational `q ≥ 0`. -/
def sqrt64 (q : ℚ) : ℚ :=
  if q = 0 then 0
  else
    let a := q.num.natAbs
    let b := q.den
    let e := Int.fdiv (floorLog2 a b) 2
    let k := e - 52
    let m := if 0 ≤ k then roundSqrt a (b * 4 ^ k.toNat) else roundSqrt (a * 4 ^ (-k).toNat) b
    (m : ℚ) * pow2 k

/-- The function `math.Sqrt`. -/
def F64.sqrt : F64 → F64
  | F64.nan => F64.nan
  | F64.inf s => if s then F64.nan else F64.inf false
  | F64.fin q => if q < 0 then F64.nan else F64.fin (sqrt64 q)

/-- The arithmetic of `float64`. -/
def binary64 : FloatOps F64 :=
  { ofRat := F64.ofRat, add := F64.add, sub := F64.sub, mul := F64.mul, div := F64.div,
    sqrt := F64.sqrt, lt := F64.lt, eq := F64.beq }

theorem foldl_append_singleton {β γ : Type} (f : β → γ) (l : List β) (acc : List γ) :
    l.foldl (fun results v => results ++ [f v]) acc = acc ++ l.map f := by
  induction l generalizing acc with
  | nil => simp
  | cons b l ih => simp [ih]

/-- The closed form of `MovingAverageForecast` on a non-empty series whose `make` call
succeeds: the echoed observations followed by the projected points. -/
theorem MovingAverageForecast_eq {α : Type} [LinearOrderedField α] (sqrt : α → α)
    (historical : List α) (periodsAhead windowSize : Int) (hne : historical ≠ [])
    (hcap : 0 ≤ (historical.length : Int) + periodsAhead) :
    MovingAverageForecast sqrt historical periodsAhead windowSize =
      some (historical.map echoPoint ++
        (List.range' 1 periodsAhead.toNat).map
          (forecastStep (historical.getD (historical.length - 1) 0)
            (calculateTrend historical (clampWindow historical.length windowSize))
            (calculateStdDev sqrt historical (clampWindow historical.length windowSize)))) := by
  have hlen : historical.length ≠ 0 := by
    intro h; exact hne (List.length_eq_zero.mp h)
  have hw : (if (if windowSize > (historical.length : Int) then (historical.length : Int)
      else windowSize) < 2 then 2
      else (if windowSize > (historical.length : Int) then (historical.length : Int)
      else windowSize)) = clampWindow historical.length windowSize := by
    unfold clampWindow
    split_ifs <;> omega
  unfold MovingAverageForecast
  simp only [hlen, if_false, not_lt.mpr hcap, hw, foldl_append_singleton]
  rfl

theorem getD_last_eq_getLast {α : Type} (l : List α) (d : α) (hne : l ≠ []) :
    l.getD (l.length - 1) d = l.getLast hne := by
  have hpos : 0 < l.length := List.length_pos.mpr hne
  rw [List.getLast_eq_getElem, List.getD_eq_getElem l d (by omega)]

theorem clamp_eq_max {α : Type} [LinearOrderedField α] (x : α) :
    (if x < 0 then 0 else x) = max 0 x := by
  split_ifs with h
  · exact (max_eq_left (le_of_lt h)).symm
  · exact (max_eq_right (not_lt.mp h)).symm

theorem forecastStep_Historical {α : Type} [LinearOrderedField α] (lastValue trend stdDev : α)
    (i : Nat) : (forecastStep lastValue trend stdDev i).Historical = false := rfl

theorem forecastStep_Predicted {α : Type} [LinearOrderedField α] (lastValue trend stdDev : α)
    (i : Nat) :
    (forecastStep lastValue trend stdDev i).Predicted = max 0 (lastValue + trend * (i : α)) := by
  simp only [forecastStep, clamp_eq_max]

theorem forecastStep_LowerBound {α : Type} [LinearOrderedField α] (lastValue trend stdDev : α)
    (i : Nat) :
    (forecastStep lastValue trend stdDev i).LowerBound =
      max 0 (lastValue + trend * (i : α) - stdDev * (1 + 0.2 * (i : α))) := by
  simp only [forecastStep, clamp_eq_max]
  norm_num [mul_comm]

theorem forecastStep_UpperBound {α : Type} [LinearOrderedField α] (lastValue trend stdDev : α)
    (i : Nat) :
    (forecastStep lastValue trend stdDev i).UpperBound =
      lastValue + trend * (i : α) + stdDev * (1 + 0.2 * (i : α)) := by
  simp only [forecastStep]
  norm_num [mul_comm]

theorem forecastStep_eq {α : Type} [LinearOrderedField α] (lastValue trend stdDev : α)
    (i : Nat) :
    forecastStep lastValue trend stdDev i =
      { Period := ""
        Predicted := max 0 (lastValue + trend * (i : α))
        LowerBound := max 0 (lastValue + trend * (i : α) - stdDev * (1 + 0.2 * (i : α)))
        UpperBound := lastValue + trend * (i : α) + stdDev * (1 + 0.2 * (i : α))
        Historical := false } := by
  calc forecastStep lastValue trend stdDev i
      = { Period := ""
          Predicted := (forecastStep lastValue trend stdDev i).Predicted
          LowerBound := (forecastStep lastValue trend stdDev i).LowerBound
          UpperBound := (forecastStep lastValue trend stdDev i).UpperBound
          Historical := false } := rfl
    _ = _ := by
      rw [forecastStep_Predicted, forecastStep_LowerBound, forecastStep_UpperBound]

/-! ## Shape of the output -/

/-- C1: on a non-empty series and with `periodsAhead ≥ 0`, `MovingAverageForecast` returns
a list of exactly `len(historical) + periodsAhead` points, whatever the window size. -/
theorem MovingAverageForecast_length {α : Type} [LinearOrderedField α] (sqrt : α → α)
    (historical : List α) (periodsAhead windowSize : Int) (hne : historical ≠ [])
    (hp : 0 ≤ periodsAhead) :
    ∃ results, MovingAverageForecast sqrt historical periodsAhead windowSize = some results ∧
      (results.length : Int) = (historical.length : Int) + periodsAhead := by
  refine ⟨_, MovingAverageForecast_eq sqrt historical periodsAhead windowSize hne (by omega), ?_⟩
  simp only [List.length_append, List.length_map, List.length_range', Nat.cast_add]
  rw [Int.toNat_of_nonneg hp]

theorem MovingAverageForecast_length_witness :
    ([10, 12, 14] : List ℝ) ≠ [] ∧ (0 : Int) ≤ 3 ∧
      ∃ results, MovingAverageForecast Real.sqrt ([10, 12, 14] : List ℝ) 3 2 = some results ∧
        (results.length : Int) = ((([10, 12, 14] : List ℝ).length : Nat) : Int) + 3 :=
  ⟨by simp, by decide,
    MovingAverageForecast_length Real.sqrt [10, 12, 14] 3 2 (by simp) (by decide)⟩

/-- C2: on the empty series `MovingAverageForecast` returns the empty list, without
failing, for every `periodsAhead` and `windowSize` (zero and negative ones included). -/
theorem MovingAverageForecast_nil {α : Type} [LinearOrderedField α] (sqrt : α → α)
    (periodsAhead windowSize : Int) :
    MovingAverageForecast sqrt ([] : List α) periodsAhead windowSize = some [] := by
  simp [MovingAverageForecast]

/-- C3: on a non-empty series with `periodsAhead ≥ 0`, the point at each index
`k < len(historical)` is flagged historical and has predicted = lower = upper =
`historical[k]`; every point at an index `≥ len(historical)` is flagged non-historical; so
the historical-flagged points are exactly the echoed inputs, in order. -/
theorem MovingAverageForecast_historical {α : Type} [LinearOrderedField α] (sqrt : α → α)
    (historical : List α) (periodsAhead windowSize : Int) (hne : historical ≠ [])
    (hp : 0 ≤ periodsAhead) :
    ∃ results, MovingAverageForecast sqrt historical periodsAhead windowSize = some results ∧
      (∀ (k : Nat) (hk : k < historical.length), results[k]? =
        some { Period := "", Predicted := historical[k], LowerBound := historical[k],
               UpperBound := historical[k], Historical := true }) ∧
      (∀ (k : Nat) (r : ForecastResult α), historical.length ≤ k → results[k]? = some r →
        r.Historical = false) ∧
      results.filter (fun r => r.Historical) =
        historical.map (fun value => { Period := "", Predicted := value, LowerBound := value,
                                       UpperBound := value, Historical := true }) := by
  refine ⟨_, MovingAverageForecast_eq sqrt historical periodsAhead windowSize hne (by omega),
    ?_, ?_, ?_⟩
  · intro k hk
    rw [List.getElem?_append_left (by simpa using hk)]
    simp [List.getElem?_map, List.getElem?_eq_getElem hk, echoPoint]
  · intro k r hk hr
    rw [List.getElem?_append_right (by simpa using hk), List.getElem?_map] at hr
    cases hq : (List.range' 1 periodsAhead.toNat)[k - (List.map echoPoint historical).length]? with
    | none => rw [hq] at hr; simp at hr
    | some j =>
      rw [hq] at hr
      simp only [Option.map_some', Option.some.injEq] at hr
      rw [← hr]
      rfl
  · rw [List.filter_append]
    have h1 : (historical.map echoPoint).filter (fun r => r.Historical) =
        historical.map echoPoint := by
      rw [List.filter_eq_self]
      intro r hr
      obtain ⟨v, _, rfl⟩ := List.mem_map.mp hr
      rfl
    have h2 : ((List.range' 1 periodsAhead.toNat).map
        (forecastStep (historical.getD (historical.length - 1) 0)
          (calculateTrend historical (clampWindow historical.length windowSize))
          (calculateStdDev sqrt historical (clampWindow historical.length windowSize)))).filter
        (fun r => r.Historical) = [] := by
      rw [List.filter_eq_nil_iff]
      intro r hr
      obtain ⟨j, _, rfl⟩ := List.mem_map.mp hr
      simp [forecastStep_Historical]
    rw [h1, h2, List.append_nil]
    rfl

theorem MovingAverageForecast_historical_witness :
    ([-10, 12, 14] : List ℝ) ≠ [] ∧ (0 : Int) ≤ 3 ∧
    ∃ results, MovingAverageForecast Real.sqrt ([-10, 12, 14] : List ℝ) 3 2 = some results ∧
      (∀ (k : Nat) (hk : k < ([-10, 12, 14] : List ℝ).length), results[k]? =
        some { Period := "", Predicted := ([-10, 12, 14] : List ℝ)[k],
               LowerBound := ([-10, 12, 14] : List ℝ)[k],
               UpperBound := ([-10, 12, 14] : List ℝ)[k], Historical := true }) ∧
      (∀ (k : Nat) (r : ForecastResult ℝ), ([-10, 12, 14] : List ℝ).length ≤ k →
        results[k]? = some r → r.Historical = false) ∧
      results.filter (fun r => r.Historical) =
        ([-10, 12, 14] : List ℝ).map (fun value =>
          { Period := "", Predicted := value, LowerBound := value,
            UpperBound := value, Historical := true }) :=
  ⟨by simp, by decide,
    MovingAverageForecast_historical Real.sqrt [-10, 12, 14] 3 2 (by simp) (by decide)⟩

/-! ## The projected points -/

/-- C4: on a non-empty series with last value `L`, at each step `1 ≤ i ≤ periodsAhead` the
point at index `len(historical) + i - 1` is non-historical and has, with
`w = max(2, min(windowSize, len))`, `t = calculateTrend(historical, w)`,
`d = calculateStdDev(historical, w)` and `P = L + t*i`: predicted `max(0, P)`, lower bound
`max(0, P - d*(1 + 0.2*i))` and upper bound `P + d*(1 + 0.2*i)`; both bounds come from the
unclamped `P` and the upper bound is not clamped. -/
theorem MovingAverageForecast_projected {α : Type} [LinearOrderedField α] (sqrt : α → α)
    (historical : List α) (periodsAhead windowSize : Int) (hne : historical ≠ [])
    (i : Nat) (hi : 1 ≤ i) (hip : (i : Int) ≤ periodsAhead) :
    ∃ results, MovingAverageForecast sqrt historical periodsAhead windowSize = some results ∧
      results[historical.length + i - 1]? =
        some { Period := ""
               Predicted := max 0 (historical.getLast hne +
                 calculateTrend historical (max 2 (min windowSize historical.length)) * (i : α))
               LowerBound := max 0 (historical.getLast hne +
                 calculateTrend historical (max 2 (min windowSize historical.length)) * (i : α) -
                 calculateStdDev sqrt historical (max 2 (min windowSize historical.length)) *
                   (1 + 0.2 * (i : α)))
               UpperBound := historical.getLast hne +
                 calculateTrend historical (max 2 (min windowSize historical.length)) * (i : α) +
                 calculateStdDev sqrt historical (max 2 (min windowSize historical.length)) *
                   (1 + 0.2 * (i : α))
               Historical := false } := by
  refine ⟨_, MovingAverageForecast_eq sqrt historical periodsAhead windowSize hne (by omega), ?_⟩
  have hidx : historical.length + i - 1 - (historical.map echoPoint).length = i - 1 := by
    simp only [List.length_map]; omega
  have hlt : i - 1 < periodsAhead.toNat := by omega
  rw [List.getElem?_append_right (by simp only [List.length_map]; omega), hidx,
    List.getElem?_map, List.getElem?_eq_getElem (by simpa using hlt), List.getElem_range']
  have hi1 : 1 + 1 * (i - 1) = i := by omega
  simp only [Option.map_some', hi1, getD_last_eq_getLast historical 0 hne, forecastStep_eq,
    clampWindow]

theorem MovingAverageForecast_projected_witness :
    ∃ results, MovingAverageForecast Real.sqrt ([3, 0, 3, 0] : List ℝ) 3 4 = some results ∧
      results[([3, 0, 3, 0] : List ℝ).length + 2 - 1]? =
        some { Period := ""
               Predicted := max 0 (([3, 0, 3, 0] : List ℝ).getLast (by simp) +
                 calculateTrend ([3, 0, 3, 0] : List ℝ)
                   (max 2 (min 4 ([3, 0, 3, 0] : List ℝ).length)) * ((2 : Nat) : ℝ))
               LowerBound := max 0 (([3, 0, 3, 0] : List ℝ).getLast (by simp) +
                 calculateTrend ([3, 0, 3, 0] : List ℝ)
                   (max 2 (min 4 ([3, 0, 3, 0] : List ℝ).length)) * ((2 : Nat) : ℝ) -
                 calculateStdDev Real.sqrt ([3, 0, 3, 0] : List ℝ)
                   (max 2 (min 4 ([3, 0, 3, 0] : List ℝ).length)) * (1 + 0.2 * ((2 : Nat) : ℝ)))
               UpperBound := ([3, 0, 3, 0] : List ℝ).getLast (by simp) +
                 calculateTrend ([3, 0, 3, 0] : List ℝ)
                   (max 2 (min 4 ([3, 0, 3, 0] : List ℝ).length)) * ((2 : Nat) : ℝ) +
                 calculateStdDev Real.sqrt ([3, 0, 3, 0] : List ℝ)
                   (max 2 (min 4 ([3, 0, 3, 0] : List ℝ).length)) * (1 + 0.2 * ((2 : Nat) : ℝ))
               Historical := false } :=
  MovingAverageForecast_projected Real.sqrt [3, 0, 3, 0] 3 4 (by simp) 2 (by decide) (by decide)

/-- In exact arithmetic, for every input (negative observations, any `periodsAhead` and
`windowSize` included), every non-historical point that `MovingAverageForecast` returns has
`Predicted ≥ 0` and `LowerBound ≥ 0`; and a result is returned whenever the capacity
`len(historical) + periodsAhead` is not negative. -/
theorem MovingAverageForecast_clamped {α : Type} [LinearOrderedField α] (sqrt : α → α)
    (historical : List α) (periodsAhead windowSize : Int) :
    (0 ≤ (historical.length : Int) + periodsAhead →
      ∃ results, MovingAverageForecast sqrt historical periodsAhead windowSize = some results) ∧
    ∀ results, MovingAverageForecast sqrt historical periodsAhead windowSize = some results →
      ∀ r ∈ results, r.Historical = false → 0 ≤ r.Predicted ∧ 0 ≤ r.LowerBound := by
  by_cases hne : historical = []
  · subst hne
    simp [MovingAverageForecast]
  · constructor
    · intro hcap
      exact ⟨_, MovingAverageForecast_eq sqrt historical periodsAhead windowSize hne hcap⟩
    · intro results hres r hr hflag
      by_cases hcap : 0 ≤ (historical.length : Int) + periodsAhead
      · rw [MovingAverageForecast_eq sqrt historical periodsAhead windowSize hne hcap] at hres
        simp only [Option.some.injEq] at hres
        subst hres
        rcases List.mem_append.mp hr with h | h
        · obtain ⟨v, _, rfl⟩ := List.mem_map.mp h
          simp [echoPoint] at hflag
        · obtain ⟨j, _, rfl⟩ := List.mem_map.mp h
          rw [forecastStep_Predicted, forecastStep_LowerBound]
          exact ⟨le_max_left _ _, le_max_left _ _⟩
      · have hlen : historical.length ≠ 0 := fun h => hne (List.length_eq_zero.mp h)
        simp [MovingAverageForecast, hlen, not_le.mp hcap] at hres

theorem MovingAverageForecast_clamped_witness :
    ∃ results, MovingAverageForecast Real.sqrt ([-3, -5] : List ℝ) 2 2 = some results ∧
      ∀ r ∈ results, r.Historical = false → 0 ≤ r.Predicted ∧ 0 ≤ r.LowerBound := by
  obtain ⟨results, h⟩ :=
    (MovingAverageForecast_clamped Real.sqrt ([-3, -5] : List ℝ) 2 2).1 (by norm_num)
  exact ⟨results, h, (MovingAverageForecast_clamped Real.sqrt ([-3, -5] : List ℝ) 2 2).2 results h⟩

/-! ## The loops of `calculateTrend` and `calculateStdDev` as finite sums -/

theorem foldl_add_eq_sum {α : Type} [LinearOrderedField α] (f : α → α) (l : List α) (init : α) :
    l.foldl (fun acc v => acc + f v) init =
      init + ∑ k ∈ Finset.range l.length, f (l.getD k 0) := by
  induction l generalizing init with
  | nil => simp
  | cons v rest ih =>
    rw [List.foldl_cons, ih, List.length_cons, Finset.sum_range_succ']
    simp only [List.getD_cons_succ, List.getD_cons_zero]
    ring

theorem trendLoop_eq {α : Type} [LinearOrderedField α] (window : List α) (i : Nat)
    (s : TrendSums α) :
    trendLoop window i s =
      { sumX := s.sumX + ∑ k ∈ Finset.range window.length, ((i : α) + (k : α))
        sumY := s.sumY + ∑ k ∈ Finset.range window.length, window.getD k 0
        sumXY := s.sumXY + ∑ k ∈ Finset.range window.length,
          ((i : α) + (k : α)) * window.getD k 0
        sumX2 := s.sumX2 + ∑ k ∈ Finset.range window.length,
          ((i : α) + (k : α)) * ((i : α) + (k : α)) } := by
  induction window generalizing i s with
  | nil => simp [trendLoop]
  | cons y rest ih =>
    rw [trendLoop, ih]
    simp only [List.length_cons, Finset.sum_range_succ', List.getD_cons_succ,
      List.getD_cons_zero, Nat.cast_add, Nat.cast_one, Nat.cast_zero, add_zero]
    have e : ∀ k : Nat, ((i : α) + 1 + (k : α)) = (i : α) + ((k : α) + 1) := fun k => by ring
    simp only [e]
    rw [TrendSums.mk.injEq]
    refine ⟨?_, ?_, ?_, ?_⟩ <;> ring

theorem two_mul_sum_idx {α : Type} [LinearOrderedField α] (n : Nat) :
    2 * ∑ k ∈ Finset.range n, (k : α) = (n : α) * ((n : α) - 1) := by
  induction n with
  | zero => simp
  | succ m ih =>
    rw [Finset.sum_range_succ, mul_add, ih]
    push_cast
    ring

theorem six_mul_sum_idx_sq {α : Type} [LinearOrderedField α] (n : Nat) :
    6 * ∑ k ∈ Finset.range n, (k : α) * (k : α) =
      ((n : α) - 1) * (n : α) * (2 * (n : α) - 1) := by
  induction n with
  | zero => simp
  | succ m ih =>
    rw [Finset.sum_range_succ, mul_add, ih]
    push_cast
    ring

/-- The denominator of the slope is positive on a window of at least two points. -/
theorem slope_denominator_pos {α : Type} [LinearOrderedField α] (n : Nat) (hn : 2 ≤ n) :
    0 < (n : α) * (∑ k ∈ Finset.range n, (k : α) * (k : α)) -
      (∑ k ∈ Finset.range n, (k : α)) * (∑ k ∈ Finset.range n, (k : α)) := by
  have h1 := two_mul_sum_idx (α := α) n
  have h2 := six_mul_sum_idx_sq (α := α) n
  have hn2 : (2 : α) ≤ (n : α) := by exact_mod_cast hn
  have key : 12 * ((n : α) * (∑ k ∈ Finset.range n, (k : α) * (k : α)) -
      (∑ k ∈ Finset.range n, (k : α)) * (∑ k ∈ Finset.range n, (k : α))) =
      (n : α) * (n : α) * (((n : α) - 1) * ((n : α) + 1)) := by
    have e1 : 12 * ((n : α) * (∑ k ∈ Finset.range n, (k : α) * (k : α)) -
        (∑ k ∈ Finset.range n, (k : α)) * (∑ k ∈ Finset.range n, (k : α))) =
        2 * (n : α) * (6 * ∑ k ∈ Finset.range n, (k : α) * (k : α)) -
        3 * ((2 * ∑ k ∈ Finset.range n, (k : α)) * (2 * ∑ k ∈ Finset.range n, (k : α))) := by
      ring
    rw [e1, h1, h2]
    ring
  have hpos : 0 < (n : α) * (n : α) * (((n : α) - 1) * ((n : α) + 1)) := by
    have : (0 : α) < (n : α) := by linarith
    have : (0 : α) < (n : α) - 1 := by linarith
    positivity
  rw [← key] at hpos
  linarith

theorem length_drop_trailing {α : Type} (data : List α) (n : Nat) (hn : n ≤ data.length) :
    (data.drop (data.length - n)).length = n := by
  rw [List.length_drop]
  omega

/-- The function `calculateTrend` on a window of `n ≥ 2` points, with its loop summed. -/
theorem calculateTrend_unfold {α : Type} [LinearOrderedField α] (data : List α)
    (windowSize : Int) (n : Nat) (hn2 : 2 ≤ n) (hn : (n : Int) = min windowSize data.length) :
    calculateTrend data windowSize =
      ((n : α) * (∑ k ∈ Finset.range n, (k : α) * (data.drop (data.length - n)).getD k 0) -
        (∑ k ∈ Finset.range n, (k : α)) *
          (∑ k ∈ Finset.range n, (data.drop (data.length - n)).getD k 0)) /
      ((n : α) * (∑ k ∈ Finset.range n, (k : α) * (k : α)) -
        (∑ k ∈ Finset.range n, (k : α)) * (∑ k ∈ Finset.range n, (k : α))) := by
  have hle : n ≤ data.length := by omega
  have heff : (if (data.length : Int) < windowSize then (data.length : Int) else windowSize) =
      (n : Int) := by
    split_ifs <;> omega
  have hidx : ((data.length : Int) - (n : Int)).toNat = data.length - n := by omega
  have hD := slope_denominator_pos (α := α) n hn2
  unfold calculateTrend
  simp only [heff, hidx, trendLoop_eq, length_drop_trailing data n hle, Nat.cast_zero, zero_add]
  rw [if_neg (by omega), if_neg (ne_of_gt hD)]

theorem calculateTrend_small_window {α : Type} [LinearOrderedField α] (data : List α)
    (windowSize : Int) (h : min windowSize (data.length : Int) < 2) :
    calculateTrend data windowSize = 0 := by
  have heff : (if (data.length : Int) < windowSize then (data.length : Int) else windowSize) < 2 := by
    split_ifs <;> omega
  unfold calculateTrend
  simp only [heff, if_true]

/-- The residuals of a line that satisfies the two normal equations have the least sum of
squares among all lines. -/
theorem sum_sq_le_of_normal_equations {α : Type} [LinearOrderedField α] (n : Nat) (y : Nat → α)
    (a b a' b' : α)
    (h0 : ∑ k ∈ Finset.range n, (y k - a - b * (k : α)) = 0)
    (h1 : ∑ k ∈ Finset.range n, (k : α) * (y k - a - b * (k : α)) = 0) :
    ∑ k ∈ Finset.range n, (y k - a - b * (k : α)) ^ 2 ≤
      ∑ k ∈ Finset.range n, (y k - a' - b' * (k : α)) ^ 2 := by
  have key : ∑ k ∈ Finset.range n, (y k - a' - b' * (k : α)) ^ 2 =
      ∑ k ∈ Finset.range n, (y k - a - b * (k : α)) ^ 2 +
      ∑ k ∈ Finset.range n, ((a - a') + (b - b') * (k : α)) ^ 2 +
      2 * (a - a') * ∑ k ∈ Finset.range n, (y k - a - b * (k : α)) +
      2 * (b - b') * ∑ k ∈ Finset.range n, (k : α) * (y k - a - b * (k : α)) := by
    rw [Finset.mul_sum, Finset.mul_sum, ← Finset.sum_add_distrib, ← Finset.sum_add_distrib,
      ← Finset.sum_add_distrib]
    refine Finset.sum_congr rfl (fun k _ => ?_)
    ring
  have hnonneg : 0 ≤ ∑ k ∈ Finset.range n, ((a - a') + (b - b') * (k : α)) ^ 2 :=
    Finset.sum_nonneg (fun k _ => sq_nonneg _)
  rw [key, h0, h1]
  linarith

/-! ## The trend is the least-squares slope -/

/-- C8: for `len(data) ≥ 2` and `windowSize ≥ 2`, with `n = min(windowSize, len(data))` and
`y` the last `n` elements of `data` indexed from zero, `calculateTrend(data, windowSize)` is
`(n*Σ k*y_k - Σk * Σy_k) / (n*Σk² - (Σk)²)` (sums over `k = 0..n-1`), the denominator being
non-zero; and `calculateTrend` returns `0` whenever `min(windowSize, len(data)) < 2`. -/
theorem calculateTrend_slope_formula {α : Type} [LinearOrderedField α] (data : List α)
    (windowSize : Int) :
    (∀ n : Nat, 2 ≤ data.length → 2 ≤ windowSize → (n : Int) = min windowSize data.length →
      (n : α) * (∑ k ∈ Finset.range n, (k : α) ^ 2) - (∑ k ∈ Finset.range n, (k : α)) ^ 2 ≠ 0 ∧
      calculateTrend data windowSize =
        ((n : α) * (∑ k ∈ Finset.range n, (k : α) * (data.drop (data.length - n)).getD k 0) -
          (∑ k ∈ Finset.range n, (k : α)) *
            (∑ k ∈ Finset.range n, (data.drop (data.length - n)).getD k 0)) /
        ((n : α) * (∑ k ∈ Finset.range n, (k : α) ^ 2) -
          (∑ k ∈ Finset.range n, (k : α)) ^ 2)) ∧
    (min windowSize (data.length : Int) < 2 → calculateTrend data windowSize = 0) := by
  refine ⟨?_, calculateTrend_small_window data windowSize⟩
  intro n hlen hw hn
  have hn2 : 2 ≤ n := by omega
  simp only [sq]
  exact ⟨ne_of_gt (slope_denominator_pos n hn2), calculateTrend_unfold data windowSize n hn2 hn⟩

theorem calculateTrend_slope_formula_witness :
    (((4 : Nat) : ℝ) * (∑ k ∈ Finset.range 4, (k : ℝ) ^ 2) -
        (∑ k ∈ Finset.range 4, (k : ℝ)) ^ 2 ≠ 0 ∧
      calculateTrend ([3, 0, 3, 0] : List ℝ) 4 =
        (((4 : Nat) : ℝ) * (∑ k ∈ Finset.range 4, (k : ℝ) *
            (([3, 0, 3, 0] : List ℝ).drop (([3, 0, 3, 0] : List ℝ).length - 4)).getD k 0) -
          (∑ k ∈ Finset.range 4, (k : ℝ)) *
            (∑ k ∈ Finset.range 4,
              (([3, 0, 3, 0] : List ℝ).drop (([3, 0, 3, 0] : List ℝ).length - 4)).getD k 0)) /
        (((4 : Nat) : ℝ) * (∑ k ∈ Finset.range 4, (k : ℝ) ^ 2) -
          (∑ k ∈ Finset.range 4, (k : ℝ)) ^ 2)) ∧
    calculateTrend ([5] : List ℝ) 10 = 0 :=
  ⟨(calculateTrend_slope_formula ([3, 0, 3, 0] : List ℝ) 4).1 4 (by simp) (by decide) (by simp),
    (calculateTrend_slope_formula ([5] : List ℝ) 10).2 (by simp)⟩

/-- C9: on a window `y_0..y_{n-1}` of `n ≥ 2` points (the last `n = min(windowSize, len)`
elements of the series), with `b = calculateTrend` and `a = mean(y) - b*(n-1)/2`, the line
`a + b*k` has the least squared error: `Σ (y_k - a - b*k)² ≤ Σ (y_k - a' - b'*k)²` for all
`a'`, `b'`. -/
theorem calculateTrend_least_squares {α : Type} [LinearOrderedField α] (data : List α)
    (windowSize : Int) (n : Nat) (hlen : 2 ≤ data.length) (hw : 2 ≤ windowSize)
    (hn : (n : Int) = min windowSize data.length)
    (y : Nat → α) (hy : ∀ k, y k = (data.drop (data.length - n)).getD k 0)
    (a b : α) (hb : b = calculateTrend data windowSize)
    (ha : a = (∑ k ∈ Finset.range n, y k) / (n : α) - b * ((n : α) - 1) / 2)
    (a' b' : α) :
    ∑ k ∈ Finset.range n, (y k - a - b * (k : α)) ^ 2 ≤
      ∑ k ∈ Finset.range n, (y k - a' - b' * (k : α)) ^ 2 := by
  have hn2 : 2 ≤ n := by omega
  have hnpos : (0 : α) < (n : α) := by
    have : (2 : α) ≤ (n : α) := by exact_mod_cast hn2
    linarith
  have hn0 : (n : α) ≠ 0 := ne_of_gt hnpos
  have hD := slope_denominator_pos (α := α) n hn2
  have hSx := two_mul_sum_idx (α := α) n
  have hb2 : b * ((n : α) * (∑ k ∈ Finset.range n, (k : α) * (k : α)) -
        (∑ k ∈ Finset.range n, (k : α)) * (∑ k ∈ Finset.range n, (k : α))) =
      (n : α) * (∑ k ∈ Finset.range n, (k : α) * y k) -
        (∑ k ∈ Finset.range n, (k : α)) * (∑ k ∈ Finset.range n, y k) := by
    rw [hb, calculateTrend_unfold data windowSize n hn2 hn]
    simp only [← hy]
    exact div_mul_cancel₀ _ (ne_of_gt hD)
  have hna : (n : α) * a = (∑ k ∈ Finset.range n, y k) - b * (∑ k ∈ Finset.range n, (k : α)) := by
    have hSx2 : (∑ k ∈ Finset.range n, (k : α)) = (n : α) * ((n : α) - 1) / 2 := by linarith
    rw [ha, hSx2]
    field_simp
    ring
  have e0 : ∑ k ∈ Finset.range n, (y k - a - b * (k : α)) =
      (∑ k ∈ Finset.range n, y k) - (n : α) * a - b * (∑ k ∈ Finset.range n, (k : α)) := by
    simp only [Finset.sum_sub_distrib, Finset.sum_const, Finset.card_range, nsmul_eq_mul,
      Finset.mul_sum]
  have e1 : ∑ k ∈ Finset.range n, (k : α) * (y k - a - b * (k : α)) =
      (∑ k ∈ Finset.range n, (k : α) * y k) - a * (∑ k ∈ Finset.range n, (k : α)) -
        b * (∑ k ∈ Finset.range n, (k : α) * (k : α)) := by
    simp only [Finset.mul_sum, ← Finset.sum_sub_distrib]
    refine Finset.sum_congr rfl (fun k _ => ?_)
    ring
  have h0 : ∑ k ∈ Finset.range n, (y k - a - b * (k : α)) = 0 := by
    rw [e0, hna]; ring
  have h1 : ∑ k ∈ Finset.range n, (k : α) * (y k - a - b * (k : α)) = 0 := by
    rw [e1]
    have : (n : α) * ((∑ k ∈ Finset.range n, (k : α) * y k) -
        a * (∑ k ∈ Finset.range n, (k : α)) -
        b * (∑ k ∈ Finset.range n, (k : α) * (k : α))) = 0 := by
      linear_combination (-1 : α) * hb2 - (∑ k ∈ Finset.range n, (k : α)) * hna
    rcases mul_eq_zero.mp this with h | h
    · exact absurd h hn0
    · exact h
  exact sum_sq_le_of_normal_equations n y a b a' b' h0 h1

theorem calculateTrend_least_squares_witness :
    ∃ (y : Nat → ℝ) (a b : ℝ),
      (∀ k, y k = (([3, 0, 3, 0] : List ℝ).drop (([3, 0, 3, 0] : List ℝ).length - 4)).getD k 0) ∧
      b = calculateTrend ([3, 0, 3, 0] : List ℝ) 4 ∧
      a = (∑ k ∈ Finset.range 4, y k) / ((4 : Nat) : ℝ) - b * (((4 : Nat) : ℝ) - 1) / 2 ∧
      ∑ k ∈ Finset.range 4, (y k - a - b * (k : ℝ)) ^ 2 ≤
        ∑ k ∈ Finset.range 4, (y k - 1 - 0 * (k : ℝ)) ^ 2 :=
  ⟨_, _, _, fun _ => rfl, rfl, rfl,
    calculateTrend_least_squares ([3, 0, 3, 0] : List ℝ) 4 4 (by simp) (by decide) (by simp)
      _ (fun _ => rfl) _ _ rfl rfl 1 0⟩

/-! ## The dispersion is the population standard deviation -/

/-- The function `calculateStdDev` on a window of `n ≥ 2` points, with its loops summed. -/
theorem calculateStdDev_unfold {α : Type} [LinearOrderedField α] (sqrt : α → α) (data : List α)
    (windowSize : Int) (n : Nat) (hn2 : 2 ≤ n) (hn : (n : Int) = min windowSize data.length) :
    calculateStdDev sqrt data windowSize =
      sqrt ((∑ k ∈ Finset.range n,
        ((data.drop (data.length - n)).getD k 0 -
          (∑ j ∈ Finset.range n, (data.drop (data.length - n)).getD j 0) / (n : α)) *
        ((data.drop (data.length - n)).getD k 0 -
          (∑ j ∈ Finset.range n, (data.drop (data.length - n)).getD j 0) / (n : α))) /
        (n : α)) := by
  have hle : n ≤ data.length := by omega
  have heff : (if (data.length : Int) < windowSize then (data.length : Int) else windowSize) =
      (n : Int) := by
    split_ifs <;> omega
  have hidx : ((data.length : Int) - (n : Int)).toNat = data.length - n := by omega
  have hmean := foldl_add_eq_sum (fun v : α => v) (data.drop (data.length - n)) 0
  have hvar := fun mean : α => foldl_add_eq_sum (fun v : α => (v - mean) * (v - mean))
    (data.drop (data.length - n)) 0
  simp only [length_drop_trailing data n hle, zero_add] at hmean hvar
  unfold calculateStdDev
  simp only [heff, hidx, length_drop_trailing data n hle]
  rw [if_neg (by omega), hmean, hvar]

theorem calculateStdDev_small_window {α : Type} [LinearOrderedField α] (sqrt : α → α)
    (data : List α) (windowSize : Int) (h : min windowSize (data.length : Int) < 2) :
    calculateStdDev sqrt data windowSize = 0 := by
  have heff : (if (data.length : Int) < windowSize then (data.length : Int) else windowSize) < 2 := by
    split_ifs <;> omega
  unfold calculateStdDev
  simp only [heff, if_true]

/-- C10: for `len(data) ≥ 2` and `windowSize ≥ 2`, with `n = min(windowSize, len(data))`, `y`
the last `n` elements and `m = (1/n)*Σ y_k`, `calculateStdDev(data, windowSize)` is
non-negative and its square is `(1/n)*Σ (y_k - m)²` (divisor `n`); and `calculateStdDev`
returns `0` whenever `min(windowSize, len(data)) < 2`. -/
theorem calculateStdDev_population (data : List ℝ) (windowSize : Int) :
    (∀ n : Nat, 2 ≤ data.length → 2 ≤ windowSize → (n : Int) = min windowSize data.length →
      ∀ m : ℝ, m = (1 / (n : ℝ)) * ∑ k ∈ Finset.range n, (data.drop (data.length - n)).getD k 0 →
      0 ≤ calculateStdDev Real.sqrt data windowSize ∧
      (calculateStdDev Real.sqrt data windowSize) ^ 2 =
        (1 / (n : ℝ)) * ∑ k ∈ Finset.range n, ((data.drop (data.length - n)).getD k 0 - m) ^ 2) ∧
    (min windowSize (data.length : Int) < 2 → calculateStdDev Real.sqrt data windowSize = 0) := by
  refine ⟨?_, calculateStdDev_small_window Real.sqrt data windowSize⟩
  intro n hlen hw hn m hm
  have hn2 : 2 ≤ n := by omega
  have hnpos : (0 : ℝ) < (n : ℝ) := by
    have : (2 : ℝ) ≤ (n : ℝ) := by exact_mod_cast hn2
    linarith
  have hm2 : (∑ j ∈ Finset.range n, (data.drop (data.length - n)).getD j 0) / (n : ℝ) = m := by
    rw [hm]; ring
  rw [calculateStdDev_unfold Real.sqrt data windowSize n hn2 hn, hm2]
  have hV : 0 ≤ (∑ k ∈ Finset.range n,
      ((data.drop (data.length - n)).getD k 0 - m) *
        ((data.drop (data.length - n)).getD k 0 - m)) / (n : ℝ) :=
    div_nonneg (Finset.sum_nonneg (fun k _ => mul_self_nonneg _)) (le_of_lt hnpos)
  refine ⟨Real.sqrt_nonneg _, ?_⟩
  rw [Real.sq_sqrt hV]
  simp only [sq]
  ring

theorem calculateStdDev_population_witness :
    (∃ m : ℝ, m = (1 / ((4 : Nat) : ℝ)) * ∑ k ∈ Finset.range 4,
        (([3, 0, 3, 0] : List ℝ).drop (([3, 0, 3, 0] : List ℝ).length - 4)).getD k 0 ∧
      0 ≤ calculateStdDev Real.sqrt ([3, 0, 3, 0] : List ℝ) 4 ∧
      (calculateStdDev Real.sqrt ([3, 0, 3, 0] : List ℝ) 4) ^ 2 =
        (1 / ((4 : Nat) : ℝ)) * ∑ k ∈ Finset.range 4,
          ((([3, 0, 3, 0] : List ℝ).drop (([3, 0, 3, 0] : List ℝ).length - 4)).getD k 0 - m) ^ 2) ∧
    calculateStdDev Real.sqrt ([5] : List ℝ) 10 = 0 :=
  ⟨⟨_, rfl, (calculateStdDev_population ([3, 0, 3, 0] : List ℝ) 4).1 4 (by simp) (by decide)
      (by simp) _ rfl⟩,
    (calculateStdDev_population ([5] : List ℝ) 10).2 (by simp)⟩

/-! ## A window of equal values -/

theorem getD_trailing_eq {α : Type} [LinearOrderedField α] (l : List α) (c : α)
    (h : ∀ v ∈ l, v = c) (k : Nat) (hk : k < l.length) : l.getD k 0 = c := by
  rw [List.getD_eq_getElem l 0 hk]
  exact h _ (List.getElem_mem hk)

theorem calculateTrend_const {α : Type} [LinearOrderedField α] (data : List α)
    (windowSize : Int) (c : α)
    (h : ∀ v ∈ data.drop (data.length - windowSize.toNat), v = c) :
    calculateTrend data windowSize = 0 := by
  by_cases hsmall : min windowSize (data.length : Int) < 2
  · exact calculateTrend_small_window data windowSize hsmall
  · have hn2 : 2 ≤ (min windowSize (data.length : Int)).toNat := by omega
    have hn : (((min windowSize (data.length : Int)).toNat : Nat) : Int) =
        min windowSize data.length := by omega
    have hdrop : data.length - (min windowSize (data.length : Int)).toNat =
        data.length - windowSize.toNat := by omega
    have hlen : (data.drop (data.length - windowSize.toNat)).length =
        (min windowSize (data.length : Int)).toNat := by
      rw [← hdrop]
      exact length_drop_trailing data _ (by omega)
    rw [calculateTrend_unfold data windowSize _ hn2 hn, hdrop]
    have e1 : ∑ k ∈ Finset.range (min windowSize (data.length : Int)).toNat,
        (k : α) * (data.drop (data.length - windowSize.toNat)).getD k 0 =
        ∑ k ∈ Finset.range (min windowSize (data.length : Int)).toNat, (k : α) * c := by
      refine Finset.sum_congr rfl (fun k hk => ?_)
      rw [getD_trailing_eq _ c h k (by rw [hlen]; exact Finset.mem_range.mp hk)]
    have e2 : ∑ k ∈ Finset.range (min windowSize (data.length : Int)).toNat,
        (data.drop (data.length - windowSize.toNat)).getD k 0 =
        ∑ k ∈ Finset.range (min windowSize (data.length : Int)).toNat, c := by
      refine Finset.sum_congr rfl (fun k hk => ?_)
      rw [getD_trailing_eq _ c h k (by rw [hlen]; exact Finset.mem_range.mp hk)]
    rw [e1, e2, ← Finset.sum_mul, Finset.sum_const, Finset.card_range, nsmul_eq_mul]
    have hnum : ((((min windowSize (data.length : Int)).toNat : Nat) : α) *
        ((∑ k ∈ Finset.range (min windowSize (data.length : Int)).toNat, (k : α)) * c) -
        (∑ k ∈ Finset.range (min windowSize (data.length : Int)).toNat, (k : α)) *
          ((((min windowSize (data.length : Int)).toNat : Nat) : α) * c)) = 0 := by ring
    rw [hnum, zero_div]

theorem calculateStdDev_const {α : Type} [LinearOrderedField α] (sqrt : α → α)
    (hsqrt : sqrt 0 = 0) (data : List α) (windowSize : Int) (c : α)
    (h : ∀ v ∈ data.drop (data.length - windowSize.toNat), v = c) :
    calculateStdDev sqrt data windowSize = 0 := by
  by_cases hsmall : min windowSize (data.length : Int) < 2
  · exact calculateStdDev_small_window sqrt data windowSize hsmall
  · have hn2 : 2 ≤ (min windowSize (data.length : Int)).toNat := by omega
    have hn : (((min windowSize (data.length : Int)).toNat : Nat) : Int) =
        min windowSize data.length := by omega
    have hdrop : data.length - (min windowSize (data.length : Int)).toNat =
        data.length - windowSize.toNat := by omega
    have hlen : (data.drop (data.length - windowSize.toNat)).length =
        (min windowSize (data.length : Int)).toNat := by
      rw [← hdrop]
      exact length_drop_trailing data _ (by omega)
    have hnpos : (0 : α) < (((min windowSize (data.length : Int)).toNat : Nat) : α) := by
      have : (2 : α) ≤ (((min windowSize (data.length : Int)).toNat : Nat) : α) := by
        exact_mod_cast hn2
      linarith
    rw [calculateStdDev_unfold sqrt data windowSize _ hn2 hn, hdrop]
    have e2 : ∑ k ∈ Finset.range (min windowSize (data.length : Int)).toNat,
        (data.drop (data.length - windowSize.toNat)).getD k 0 =
        ∑ k ∈ Finset.range (min windowSize (data.length : Int)).toNat, c := by
      refine Finset.sum_congr rfl (fun k hk => ?_)
      rw [getD_trailing_eq _ c h k (by rw [hlen]; exact Finset.mem_range.mp hk)]
    have hmean : (∑ k ∈ Finset.range (min windowSize (data.length : Int)).toNat,
        (data.drop (data.length - windowSize.toNat)).getD k 0) /
        (((min windowSize (data.length : Int)).toNat : Nat) : α) = c := by
      rw [e2, Finset.sum_const, Finset.card_range, nsmul_eq_mul]
      field_simp
    rw [hmean]
    have e3 : ∑ k ∈ Finset.range (min windowSize (data.length : Int)).toNat,
        ((data.drop (data.length - windowSize.toNat)).getD k 0 - c) *
          ((data.drop (data.length - windowSize.toNat)).getD k 0 - c) = 0 := by
      refine Finset.sum_eq_zero (fun k hk => ?_)
      rw [getD_trailing_eq _ c h k (by rw [hlen]; exact Finset.mem_range.mp hk)]
      ring
    rw [e3, zero_div, hsqrt]

/-- In exact arithmetic, on a non-empty series of non-negative observations
whose trailing window (the last `max(2, min(windowSize, len))` observations, the whole
series when it is shorter) holds equal values, `calculateTrend` and `calculateStdDev` return
`0` (called with the clamped window as `MovingAverageForecast` does, and with `windowSize`
itself), and every projected point has predicted = lower = upper = the last observed
value. -/
theorem MovingAverageForecast_constant_window (historical : List ℝ)
    (periodsAhead windowSize : Int) (hne : historical ≠ [])
    (hnonneg : ∀ v ∈ historical, 0 ≤ v) (c : ℝ)
    (hconst : ∀ v ∈ historical.drop
      (historical.length - (max 2 (min windowSize (historical.length : Int))).toNat), v = c) :
    calculateTrend historical (max 2 (min windowSize (historical.length : Int))) = 0 ∧
    calculateStdDev Real.sqrt historical (max 2 (min windowSize (historical.length : Int))) = 0 ∧
    calculateTrend historical windowSize = 0 ∧
    calculateStdDev Real.sqrt historical windowSize = 0 ∧
    (0 ≤ (historical.length : Int) + periodsAhead →
      ∃ results, MovingAverageForecast Real.sqrt historical periodsAhead windowSize =
        some results) ∧
    ∀ results, MovingAverageForecast Real.sqrt historical periodsAhead windowSize = some results →
      ∀ r ∈ results, r.Historical = false →
        r.Predicted = historical.getLast hne ∧ r.LowerBound = historical.getLast hne ∧
          r.UpperBound = historical.getLast hne := by
  have ht := calculateTrend_const historical _ c hconst
  have hd := calculateStdDev_const Real.sqrt Real.sqrt_zero historical _ c hconst
  have hL : 0 ≤ historical.getLast hne := hnonneg _ (List.getLast_mem hne)
  refine ⟨ht, hd, ?_, ?_, ?_, ?_⟩
  · by_cases hsmall : min windowSize (historical.length : Int) < 2
    · exact calculateTrend_small_window historical windowSize hsmall
    · have e : historical.length - (max 2 (min windowSize (historical.length : Int))).toNat =
          historical.length - windowSize.toNat := by omega
      rw [e] at hconst
      exact calculateTrend_const historical windowSize c hconst
  · by_cases hsmall : min windowSize (historical.length : Int) < 2
    · exact calculateStdDev_small_window Real.sqrt historical windowSize hsmall
    · have e : historical.length - (max 2 (min windowSize (historical.length : Int))).toNat =
          historical.length - windowSize.toNat := by omega
      rw [e] at hconst
      exact calculateStdDev_const Real.sqrt Real.sqrt_zero historical windowSize c hconst
  · intro hcap
    exact ⟨_, MovingAverageForecast_eq Real.sqrt historical periodsAhead windowSize hne hcap⟩
  · intro results hres r hr hflag
    by_cases hcap : 0 ≤ (historical.length : Int) + periodsAhead
    · rw [MovingAverageForecast_eq Real.sqrt historical periodsAhead windowSize hne hcap] at hres
      simp only [Option.some.injEq] at hres
      subst hres
      rcases List.mem_append.mp hr with h | h
      · obtain ⟨v, _, rfl⟩ := List.mem_map.mp h
        simp [echoPoint] at hflag
      · obtain ⟨j, _, rfl⟩ := List.mem_map.mp h
        simp only [clampWindow] at *
        rw [ht, hd, getD_last_eq_getLast historical 0 hne, forecastStep_eq]
        simp only [zero_mul, add_zero, sub_zero, max_eq_right hL, and_self]
    · have hlen : historical.length ≠ 0 := fun h => hne (List.length_eq_zero.mp h)
      simp [MovingAverageForecast, hlen, not_le.mp hcap] at hres

theorem MovingAverageForecast_constant_window_witness :
    calculateTrend ([1, 7, 7, 7] : List ℝ) (max 2 (min 3 (([1, 7, 7, 7] : List ℝ).length : Int))) = 0 ∧
    calculateStdDev Real.sqrt ([1, 7, 7, 7] : List ℝ)
      (max 2 (min 3 (([1, 7, 7, 7] : List ℝ).length : Int))) = 0 ∧
    calculateTrend ([1, 7, 7, 7] : List ℝ) 3 = 0 ∧
    calculateStdDev Real.sqrt ([1, 7, 7, 7] : List ℝ) 3 = 0 ∧
    ((0 : Int) ≤ (([1, 7, 7, 7] : List ℝ).length : Int) + 2 →
      ∃ results, MovingAverageForecast Real.sqrt ([1, 7, 7, 7] : List ℝ) 2 3 = some results) ∧
    ∀ results, MovingAverageForecast Real.sqrt ([1, 7, 7, 7] : List ℝ) 2 3 = some results →
      ∀ r ∈ results, r.Historical = false →
        r.Predicted = ([1, 7, 7, 7] : List ℝ).getLast (by simp) ∧
        r.LowerBound = ([1, 7, 7, 7] : List ℝ).getLast (by simp) ∧
        r.UpperBound = ([1, 7, 7, 7] : List ℝ).getLast (by simp) :=
  MovingAverageForecast_constant_window ([1, 7, 7, 7] : List ℝ) 2 3 (by simp)
    (by intro v hv; simp at hv; rcases hv with rfl | rfl <;> norm_num) 7
    (by intro v hv; simp at hv; exact hv)

/-! ## Width of the projected interval -/

theorem calculateStdDev_nonneg (data : List ℝ) (windowSize : Int) :
    0 ≤ calculateStdDev Real.sqrt data windowSize := by
  unfold calculateStdDev
  simp only
  split_ifs <;> first | exact le_refl 0 | exact Real.sqrt_nonneg _

/-- The projected point of step `i`, read off the closed form of the output. -/
theorem projected_getElem? {α : Type} [LinearOrderedField α] (historical : List α)
    (periodsAhead : Int) (L t d : α) (i : Nat) (hi : 1 ≤ i) (hip : (i : Int) ≤ periodsAhead) :
    (historical.map echoPoint ++
      (List.range' 1 periodsAhead.toNat).map (forecastStep L t d))[historical.length + i - 1]? =
      some (forecastStep L t d i) := by
  have hidx : historical.length + i - 1 - (historical.map echoPoint).length = i - 1 := by
    simp only [List.length_map]; omega
  have hlt : i - 1 < periodsAhead.toNat := by omega
  rw [List.getElem?_append_right (by simp only [List.length_map]; omega), hidx,
    List.getElem?_map, List.getElem?_eq_getElem (by simpa using hlt), List.getElem_range']
  have hi1 : 1 + 1 * (i - 1) = i := by omega
  simp only [Option.map_some', hi1]

theorem width_arith (L t d q x y : ℝ) (hd0 : 0 ≤ d) (hq : 0 ≤ q) (hxy : x ≤ y)
    (hcond : 0 ≤ L + t * y - d * (1 + q * y) ∨ 0 ≤ t + q * d) :
    L + t * x + d * (1 + q * x) - max 0 (L + t * x - d * (1 + q * x)) ≤
      L + t * y + d * (1 + q * y) - max 0 (L + t * y - d * (1 + q * y)) := by
  have h1 : 0 ≤ d * q * (y - x) := mul_nonneg (mul_nonneg hd0 hq) (by linarith)
  have hli := le_max_right 0 (L + t * x - d * (1 + q * x))
  have hl0 := le_max_left 0 (L + t * x - d * (1 + q * x))
  rcases le_total 0 (L + t * y - d * (1 + q * y)) with hj | hj
  · rw [max_eq_right hj]
    linarith
  · rcases hcond with hc | hc
    · rw [max_eq_right hc]
      linarith
    · have h2 : 0 ≤ (t + q * d) * (y - x) := mul_nonneg hc (by linarith)
      rw [max_eq_left hj]
      linarith

theorem width_le_width (L t d : ℝ) (hd0 : 0 ≤ d) (i j : Nat) (hij : i < j)
    (hcond : 0 ≤ L + t * (j : ℝ) - d * (1 + 0.2 * (j : ℝ)) ∨ 0 ≤ t + 0.2 * d) :
    (forecastStep L t d i).UpperBound - (forecastStep L t d i).LowerBound ≤
      (forecastStep L t d j).UpperBound - (forecastStep L t d j).LowerBound := by
  rw [forecastStep_UpperBound, forecastStep_LowerBound, forecastStep_UpperBound,
    forecastStep_LowerBound]
  have hxy : (i : ℝ) ≤ (j : ℝ) := by exact_mod_cast le_of_lt hij
  exact width_arith L t d 0.2 i j hd0 (by norm_num) hxy hcond

theorem calculateTrend_example :
    calculateTrend ([3, 0, 3, 0] : List ℝ) 4 = -3 / 5 := by
  norm_num [calculateTrend, trendLoop]

theorem calculateStdDev_example :
    calculateStdDev Real.sqrt ([3, 0, 3, 0] : List ℝ) 4 = 3 / 2 := by
  have h9 : Real.sqrt 9 = 3 := by
    rw [show (9 : ℝ) = 3 ^ 2 by norm_num]
    exact Real.sqrt_sq (by norm_num)
  have h4 : Real.sqrt 4 = 2 := by
    rw [show (4 : ℝ) = 2 ^ 2 by norm_num]
    exact Real.sqrt_sq (by norm_num)
  norm_num [calculateStdDev, h9, h4]

/-- C6: on the non-negative series `[3, 0, 3, 0]` with `periodsAhead = 2` and
`windowSize = 4` (trend `-3/5`, dispersion `3/2`) both lower bounds are clamped to `0`, the
upper bounds are `6/5` and `9/10`, and the width `UpperBound - LowerBound` of the returned
interval falls from `6/5` at step 1 to `9/10` at step 2: the bounds narrow with the horizon. -/
theorem MovingAverageForecast_width_shrinks :
    ∃ results ri rj,
      (∀ v ∈ ([3, 0, 3, 0] : List ℝ), 0 ≤ v) ∧
      MovingAverageForecast Real.sqrt ([3, 0, 3, 0] : List ℝ) 2 4 = some results ∧
      results[([3, 0, 3, 0] : List ℝ).length + 1 - 1]? = some ri ∧
      results[([3, 0, 3, 0] : List ℝ).length + 2 - 1]? = some rj ∧
      ri.UpperBound - ri.LowerBound = 6 / 5 ∧
      rj.UpperBound - rj.LowerBound = 9 / 10 ∧
      ¬ (ri.UpperBound - ri.LowerBound ≤ rj.UpperBound - rj.LowerBound) := by
  have hw : clampWindow ([3, 0, 3, 0] : List ℝ).length 4 = 4 := by decide
  have hL : ([3, 0, 3, 0] : List ℝ).getD (([3, 0, 3, 0] : List ℝ).length - 1) 0 = 0 := by simp
  have h1 : (forecastStep (0 : ℝ) (-3 / 5) (3 / 2) 1).UpperBound -
      (forecastStep (0 : ℝ) (-3 / 5) (3 / 2) 1).LowerBound = 6 / 5 := by
    rw [forecastStep_UpperBound, forecastStep_LowerBound, max_eq_left (by norm_num)]
    norm_num
  have h2 : (forecastStep (0 : ℝ) (-3 / 5) (3 / 2) 2).UpperBound -
      (forecastStep (0 : ℝ) (-3 / 5) (3 / 2) 2).LowerBound = 9 / 10 := by
    rw [forecastStep_UpperBound, forecastStep_LowerBound, max_eq_left (by norm_num)]
    norm_num
  refine ⟨_, forecastStep (0 : ℝ) (-3 / 5) (3 / 2) 1, forecastStep (0 : ℝ) (-3 / 5) (3 / 2) 2,
    ?_, MovingAverageForecast_eq Real.sqrt ([3, 0, 3, 0] : List ℝ) 2 4 (by simp) (by norm_num),
    ?_, ?_, h1, h2, ?_⟩
  · intro v hv
    simp only [List.mem_cons, List.mem_singleton] at hv
    rcases hv with rfl | rfl | rfl | rfl | hv
    · norm_num
    · norm_num
    · norm_num
    · norm_num
    · simp at hv
  · rw [hw, hL, calculateTrend_example, calculateStdDev_example]
    exact projected_getElem? _ 2 _ _ _ 1 (by decide) (by decide)
  · rw [hw, hL, calculateTrend_example, calculateStdDev_example]
    exact projected_getElem? _ 2 _ _ _ 2 (by decide) (by decide)
  · rw [h1, h2]
    norm_num

/-- In exact arithmetic, on a non-empty series, for steps `1 ≤ i < j ≤ periodsAhead`, with
`L` the last value, `t` the trend and `d` the dispersion over the clamped window, the width
`UpperBound - LowerBound` at step `i` is at most the width at step `j` provided the lower
bound of step `j` is not clamped (`L + t*j - d*(1 + 0.2*j) ≥ 0`) or `t + 0.2*d ≥ 0`. -/
theorem MovingAverageForecast_width_mono (historical : List ℝ) (periodsAhead windowSize : Int)
    (hne : historical ≠ []) (i j : Nat) (hi : 1 ≤ i) (hij : i < j)
    (hjp : (j : Int) ≤ periodsAhead) (L t d : ℝ)
    (hL : L = historical.getLast hne)
    (ht : t = calculateTrend historical (max 2 (min windowSize (historical.length : Int))))
    (hd : d = calculateStdDev Real.sqrt historical
      (max 2 (min windowSize (historical.length : Int))))
    (hcond : 0 ≤ L + t * (j : ℝ) - d * (1 + 0.2 * (j : ℝ)) ∨ 0 ≤ t + 0.2 * d) :
    ∃ results ri rj,
      MovingAverageForecast Real.sqrt historical periodsAhead windowSize = some results ∧
      results[historical.length + i - 1]? = some ri ∧
      results[historical.length + j - 1]? = some rj ∧
      ri.UpperBound - ri.LowerBound ≤ rj.UpperBound - rj.LowerBound := by
  have hd0 : 0 ≤ d := by rw [hd]; exact calculateStdDev_nonneg _ _
  have heq := MovingAverageForecast_eq Real.sqrt historical periodsAhead windowSize hne
    (by omega)
  rw [getD_last_eq_getLast historical 0 hne, ← hL] at heq
  simp only [clampWindow] at heq
  rw [← ht, ← hd] at heq
  exact ⟨_, forecastStep L t d i, forecastStep L t d j, heq,
    projected_getElem? historical periodsAhead L t d i hi (by omega),
    projected_getElem? historical periodsAhead L t d j (by omega) hjp,
    width_le_width L t d hd0 i j hij hcond⟩

/-! ## The checked functions never panic on a slice or an index -/

theorem sliceFrom_window {β : Type} (data : List β) (w : Int) (h2 : ¬ w < 2)
    (hle : w ≤ (data.length : Int)) :
    sliceFrom data ((data.length : Int) - w) = some (data.drop ((data.length : Int) - w).toNat) := by
  unfold sliceFrom
  rw [if_pos]
  constructor <;> omega

theorem effective_window_le (len : Nat) (windowSize : Int) :
    (if (len : Int) < windowSize then (len : Int) else windowSize) ≤ (len : Int) := by
  split_ifs <;> omega

theorem calculateTrendChecked_eq {α : Type} [LinearOrderedField α] (data : List α)
    (windowSize : Int) :
    calculateTrendChecked data windowSize = some (calculateTrend data windowSize) := by
  have hle := effective_window_le data.length windowSize
  unfold calculateTrendChecked calculateTrend
  simp only []
  by_cases h2 : (if (data.length : Int) < windowSize then (data.length : Int) else windowSize) < 2
  · simp only [h2, if_true]
  · simp only [h2, if_false, sliceFrom_window data _ h2 hle]
    split_ifs <;> rfl

theorem calculateStdDevChecked_eq {α : Type} [LinearOrderedField α] (sqrt : α → α)
    (data : List α) (windowSize : Int) :
    calculateStdDevChecked sqrt data windowSize = some (calculateStdDev sqrt data windowSize) := by
  have hle := effective_window_le data.length windowSize
  unfold calculateStdDevChecked calculateStdDev
  simp only []
  by_cases h2 : (if (data.length : Int) < windowSize then (data.length : Int) else windowSize) < 2
  · simp only [h2, if_true]
  · simp only [h2, if_false, sliceFrom_window data _ h2 hle]

theorem indexAt_last {β : Type} (data : List β) (d : β) (hlen : data.length ≠ 0) :
    indexAt data ((data.length : Int) - 1) = some (data.getD (data.length - 1) d) := by
  have hidx : ((data.length : Int) - 1).toNat = data.length - 1 := by omega
  have hlt : data.length - 1 < data.length := by omega
  unfold indexAt
  rw [if_pos (by constructor <;> omega), hidx, List.getElem?_eq_getElem hlt,
    List.getD_eq_getElem data d hlt]

/-- The checked forecast is the forecast: the only panic is the `make` call. -/
theorem MovingAverageForecastChecked_eq {α : Type} [LinearOrderedField α] (sqrt : α → α)
    (historical : List α) (periodsAhead windowSize : Int) :
    MovingAverageForecastChecked sqrt historical periodsAhead windowSize =
      MovingAverageForecast sqrt historical periodsAhead windowSize := by
  unfold MovingAverageForecastChecked MovingAverageForecast
  by_cases hlen : historical.length = 0
  · simp only [hlen, if_true]
  · simp only [hlen, if_false, calculateTrendChecked_eq, calculateStdDevChecked_eq,
      indexAt_last historical 0 hlen]

theorem clampWindow_idem (len : Nat) (windowSize : Int) :
    clampWindow len (clampWindow len windowSize) = clampWindow len windowSize := by
  unfold clampWindow
  omega

/-- The forecast depends on `windowSize` only through the clamped window. -/
theorem MovingAverageForecast_congr_window {α : Type} [LinearOrderedField α] (sqrt : α → α)
    (historical : List α) (periodsAhead w1 w2 : Int)
    (h : clampWindow historical.length w1 = clampWindow historical.length w2) :
    MovingAverageForecast sqrt historical periodsAhead w1 =
      MovingAverageForecast sqrt historical periodsAhead w2 := by
  have hw : ∀ w : Int, (if (if w > (historical.length : Int) then (historical.length : Int)
      else w) < 2 then 2
      else (if w > (historical.length : Int) then (historical.length : Int)
      else w)) = clampWindow historical.length w := by
    intro w
    unfold clampWindow
    split_ifs <;> omega
  unfold MovingAverageForecast
  simp only [hw, h]

/-! ## Window clamping and the scenarios of the specification -/

/-- C11: on a non-empty series with `periodsAhead ≥ 0`, for every integer `windowSize`
(0, 1 and negative values included) `MovingAverageForecast` returns the same result as with
`max(2, min(windowSize, len))`; every `windowSize ≥ len` gives the result of
`windowSize = len` when `len ≥ 2`, and every `windowSize ≤ 2` gives the result of
`windowSize = 2`. -/
theorem MovingAverageForecast_window_clamp {α : Type} [LinearOrderedField α] (sqrt : α → α)
    (historical : List α) (periodsAhead windowSize : Int) (hne : historical ≠ [])
    (hp : 0 ≤ periodsAhead) :
    ∃ results, MovingAverageForecast sqrt historical periodsAhead windowSize = some results ∧
      MovingAverageForecast sqrt historical periodsAhead
        (max 2 (min windowSize (historical.length : Int))) = some results ∧
      (2 ≤ historical.length → (historical.length : Int) ≤ windowSize →
        MovingAverageForecast sqrt historical periodsAhead (historical.length : Int) =
          some results) ∧
      (windowSize ≤ 2 → MovingAverageForecast sqrt historical periodsAhead 2 = some results) := by
  have hlen : 0 < historical.length := List.length_pos.mpr hne
  refine ⟨_, MovingAverageForecast_eq sqrt historical periodsAhead windowSize hne (by omega),
    ?_, ?_, ?_⟩
  · rw [← MovingAverageForecast_eq sqrt historical periodsAhead windowSize hne (by omega)]
    exact MovingAverageForecast_congr_window sqrt historical periodsAhead _ _
      (clampWindow_idem historical.length windowSize)
  · intro h2 hw
    rw [← MovingAverageForecast_eq sqrt historical periodsAhead windowSize hne (by omega)]
    refine MovingAverageForecast_congr_window sqrt historical periodsAhead _ _ ?_
    unfold clampWindow
    omega
  · intro hw
    rw [← MovingAverageForecast_eq sqrt historical periodsAhead windowSize hne (by omega)]
    refine MovingAverageForecast_congr_window sqrt historical periodsAhead _ _ ?_
    unfold clampWindow
    omega

theorem MovingAverageForecast_window_clamp_witness :
    (∃ results, MovingAverageForecast Real.sqrt ([3, 0, 3, 0] : List ℝ) 2 9 = some results ∧
      MovingAverageForecast Real.sqrt ([3, 0, 3, 0] : List ℝ) 2
        (max 2 (min 9 (([3, 0, 3, 0] : List ℝ).length : Int))) = some results ∧
      MovingAverageForecast Real.sqrt ([3, 0, 3, 0] : List ℝ) 2
        (([3, 0, 3, 0] : List ℝ).length : Int) = some results) ∧
    (∃ results, MovingAverageForecast Real.sqrt ([3, 0, 3, 0] : List ℝ) 2 (-7) = some results ∧
      MovingAverageForecast Real.sqrt ([3, 0, 3, 0] : List ℝ) 2
        (max 2 (min (-7) (([3, 0, 3, 0] : List ℝ).length : Int))) = some results ∧
      MovingAverageForecast Real.sqrt ([3, 0, 3, 0] : List ℝ) 2 2 = some results) := by
  constructor
  · obtain ⟨results, h1, h2, h3, _⟩ :=
      MovingAverageForecast_window_clamp Real.sqrt ([3, 0, 3, 0] : List ℝ) 2 9 (by simp)
        (by decide)
    exact ⟨results, h1, h2, h3 (by simp) (by simp)⟩
  · obtain ⟨results, h1, h2, _, h4⟩ :=
      MovingAverageForecast_window_clamp Real.sqrt ([3, 0, 3, 0] : List ℝ) 2 (-7) (by simp)
        (by decide)
    exact ⟨results, h1, h2, h4 (by decide)⟩

theorem calculateTrend_scenario :
    calculateTrend ([10, 12, 14, 16, 18] : List ℝ) 5 = 2 := by
  norm_num [calculateTrend, trendLoop]

theorem calculateStdDev_scenario :
    calculateStdDev Real.sqrt ([10, 12, 14, 16, 18] : List ℝ) 5 = Real.sqrt 8 := by
  rw [calculateStdDev_unfold Real.sqrt _ 5 5 (by norm_num) (by simp)]
  congr 1
  norm_num [Finset.sum_range_succ]

/-- C12: `MovingAverageForecast([10, 12, 14, 16, 18], 3, 5)` returns 8 points; the trend is
exactly `2`, the dispersion `d` satisfies `d ≥ 0` and `d² = 8`, and the three projected
points have predicted `20, 22, 24`, lower bounds `20 - 1.2d, 22 - 1.4d, 24 - 1.6d` and upper
bounds `20 + 1.2d, 22 + 1.4d, 24 + 1.6d` (nothing is clamped). -/
theorem MovingAverageForecast_scenario :
    ∃ (d : ℝ) (results : List (ForecastResult ℝ)),
      d = calculateStdDev Real.sqrt ([10, 12, 14, 16, 18] : List ℝ) 5 ∧ 0 ≤ d ∧ d ^ 2 = 8 ∧
      calculateTrend ([10, 12, 14, 16, 18] : List ℝ) 5 = 2 ∧
      MovingAverageForecast Real.sqrt ([10, 12, 14, 16, 18] : List ℝ) 3 5 = some results ∧
      results.length = 8 ∧
      results =
        [{ Period := "", Predicted := 10, LowerBound := 10, UpperBound := 10, Historical := true },
         { Period := "", Predicted := 12, LowerBound := 12, UpperBound := 12, Historical := true },
         { Period := "", Predicted := 14, LowerBound := 14, UpperBound := 14, Historical := true },
         { Period := "", Predicted := 16, LowerBound := 16, UpperBound := 16, Historical := true },
         { Period := "", Predicted := 18, LowerBound := 18, UpperBound := 18, Historical := true },
         { Period := "", Predicted := 20, LowerBound := 20 - 1.2 * d, UpperBound := 20 + 1.2 * d,
           Historical := false },
         { Period := "", Predicted := 22, LowerBound := 22 - 1.4 * d, UpperBound := 22 + 1.4 * d,
           Historical := false },
         { Period := "", Predicted := 24, LowerBound := 24 - 1.6 * d, UpperBound := 24 + 1.6 * d,
           Historical := false }] := by
  have hd0 : (0 : ℝ) ≤ Real.sqrt 8 := Real.sqrt_nonneg 8
  have hd2 : Real.sqrt 8 ^ 2 = 8 := Real.sq_sqrt (by norm_num)
  have hd3 : Real.sqrt 8 ≤ 3 := by nlinarith
  have hw : clampWindow ([10, 12, 14, 16, 18] : List ℝ).length 5 = 5 := by decide
  have hL : ([10, 12, 14, 16, 18] : List ℝ).getD
      (([10, 12, 14, 16, 18] : List ℝ).length - 1) 0 = 18 := by simp
  have hr : List.range' 1 (3 : Int).toNat = [1, 2, 3] := by decide
  refine ⟨Real.sqrt 8, _, calculateStdDev_scenario.symm, hd0, hd2, calculateTrend_scenario,
    MovingAverageForecast_eq Real.sqrt _ 3 5 (by simp) (by norm_num), by simp, ?_⟩
  rw [hw, hL, calculateTrend_scenario, calculateStdDev_scenario, hr]
  simp only [List.map_cons, List.map_nil, List.cons_append, List.nil_append, echoPoint,
    forecastStep_eq]
  have e1 : max 0 (18 + 2 * ((1 : Nat) : ℝ)) = 20 := by norm_num
  have e2 : max 0 (18 + 2 * ((2 : Nat) : ℝ)) = 22 := by norm_num
  have e3 : max 0 (18 + 2 * ((3 : Nat) : ℝ)) = 24 := by norm_num
  have l1 : max 0 (18 + 2 * ((1 : Nat) : ℝ) - Real.sqrt 8 * (1 + 0.2 * ((1 : Nat) : ℝ))) =
      20 - 1.2 * Real.sqrt 8 := by
    rw [max_eq_right (by norm_num; linarith)]; norm_num; ring
  have l2 : max 0 (18 + 2 * ((2 : Nat) : ℝ) - Real.sqrt 8 * (1 + 0.2 * ((2 : Nat) : ℝ))) =
      22 - 1.4 * Real.sqrt 8 := by
    rw [max_eq_right (by norm_num; linarith)]; norm_num; ring
  have l3 : max 0 (18 + 2 * ((3 : Nat) : ℝ) - Real.sqrt 8 * (1 + 0.2 * ((3 : Nat) : ℝ))) =
      24 - 1.6 * Real.sqrt 8 := by
    rw [max_eq_right (by norm_num; linarith)]; norm_num; ring
  have u1 : 18 + 2 * ((1 : Nat) : ℝ) + Real.sqrt 8 * (1 + 0.2 * ((1 : Nat) : ℝ)) =
      20 + 1.2 * Real.sqrt 8 := by norm_num; ring
  have u2 : 18 + 2 * ((2 : Nat) : ℝ) + Real.sqrt 8 * (1 + 0.2 * ((2 : Nat) : ℝ)) =
      22 + 1.4 * Real.sqrt 8 := by norm_num; ring
  have u3 : 18 + 2 * ((3 : Nat) : ℝ) + Real.sqrt 8 * (1 + 0.2 * ((3 : Nat) : ℝ)) =
      24 + 1.6 * Real.sqrt 8 := by norm_num; ring
  rw [e1, e2, e3, l1, l2, l3, u1, u2, u3]

/-- C13: on a one-element series `[v]` with `v ≥ 0`, for every `periodsAhead ≥ 0` and every
integer `windowSize`, the trend and the dispersion used are `0` and `MovingAverageForecast`
returns the historical point followed by `periodsAhead` projected points with
predicted = lower = upper = `v`. -/
theorem MovingAverageForecast_single {α : Type} [LinearOrderedField α] (sqrt : α → α) (v : α)
    (periodsAhead windowSize : Int) (hv : 0 ≤ v) (hp : 0 ≤ periodsAhead) :
    calculateTrend [v] (max 2 (min windowSize (([v] : List α).length : Int))) = 0 ∧
    calculateStdDev sqrt [v] (max 2 (min windowSize (([v] : List α).length : Int))) = 0 ∧
    MovingAverageForecast sqrt [v] periodsAhead windowSize =
      some ({ Period := "", Predicted := v, LowerBound := v, UpperBound := v, Historical := true } ::
        List.replicate periodsAhead.toNat
          { Period := "", Predicted := v, LowerBound := v, UpperBound := v,
            Historical := false }) := by
  have ht : calculateTrend [v] (max 2 (min windowSize (([v] : List α).length : Int))) = 0 :=
    calculateTrend_small_window _ _ (by simp)
  have hd : calculateStdDev sqrt [v] (max 2 (min windowSize (([v] : List α).length : Int))) = 0 :=
    calculateStdDev_small_window sqrt _ _ (by simp)
  refine ⟨ht, hd, ?_⟩
  rw [MovingAverageForecast_eq sqrt [v] periodsAhead windowSize (by simp) (by simp; omega)]
  simp only [clampWindow]
  rw [ht, hd]
  simp only [List.map_cons, List.map_nil, List.singleton_append, echoPoint, Option.some.injEq,
    List.cons.injEq, true_and]
  rw [List.eq_replicate_iff]
  refine ⟨by simp, ?_⟩
  intro r hr
  obtain ⟨j, _, rfl⟩ := List.mem_map.mp hr
  rw [forecastStep_eq]
  simp [max_eq_right hv]

theorem MovingAverageForecast_single_witness :
    calculateTrend ([5] : List ℝ) (max 2 (min 10 (([5] : List ℝ).length : Int))) = 0 ∧
    calculateStdDev Real.sqrt ([5] : List ℝ) (max 2 (min 10 (([5] : List ℝ).length : Int))) = 0 ∧
    MovingAverageForecast Real.sqrt ([5] : List ℝ) 2 10 =
      some [{ Period := "", Predicted := 5, LowerBound := 5, UpperBound := 5, Historical := true },
        { Period := "", Predicted := 5, LowerBound := 5, UpperBound := 5, Historical := false },
        { Period := "", Predicted := 5, LowerBound := 5, UpperBound := 5, Historical := false }] :=
  MovingAverageForecast_single Real.sqrt (5 : ℝ) 2 10 (by norm_num) (by decide)

/-! ## Exact linear progressions -/

theorem calculateTrend_linear {α : Type} [LinearOrderedField α] (data : List α)
    (windowSize : Int) (n : Nat) (hn2 : 2 ≤ n) (hn : (n : Int) = min windowSize data.length)
    (a b : α)
    (hlin : ∀ k : Nat, k < n → (data.drop (data.length - n)).getD k 0 = a + b * (k : α)) :
    calculateTrend data windowSize = b := by
  have hD := slope_denominator_pos (α := α) n hn2
  have e1 : ∑ k ∈ Finset.range n, (k : α) * (data.drop (data.length - n)).getD k 0 =
      a * (∑ k ∈ Finset.range n, (k : α)) + b * (∑ k ∈ Finset.range n, (k : α) * (k : α)) := by
    rw [Finset.mul_sum, Finset.mul_sum, ← Finset.sum_add_distrib]
    refine Finset.sum_congr rfl (fun k hk => ?_)
    rw [hlin k (Finset.mem_range.mp hk)]
    ring
  have e2 : ∑ k ∈ Finset.range n, (data.drop (data.length - n)).getD k 0 =
      (n : α) * a + b * (∑ k ∈ Finset.range n, (k : α)) := by
    have hc : ∑ _k ∈ Finset.range n, a = (n : α) * a := by
      rw [Finset.sum_const, Finset.card_range, nsmul_eq_mul]
    rw [Finset.mul_sum, ← hc, ← Finset.sum_add_distrib]
    refine Finset.sum_congr rfl (fun k hk => ?_)
    rw [hlin k (Finset.mem_range.mp hk)]
  rw [calculateTrend_unfold data windowSize n hn2 hn, e1, e2, div_eq_iff (ne_of_gt hD)]
  ring

/-- C14: when the trailing window of `n ≥ 2` observations is `y_k = a + b*k`
(`k = 0..n-1`), `calculateTrend` returns exactly `b`; hence on such a series of non-negative
observations with `b ≥ 0` the projected point of step `i` has `Predicted = lastValue + b*i`. -/
theorem calculateTrend_linear_progression {α : Type} [LinearOrderedField α] (data : List α)
    (windowSize : Int) (n : Nat) (hne : data ≠ []) (hn2 : 2 ≤ n)
    (hn : (n : Int) = min windowSize data.length) (a b : α)
    (hlin : ∀ k : Nat, k < n → (data.drop (data.length - n)).getD k 0 = a + b * (k : α)) :
    calculateTrend data windowSize = b ∧
    ∀ (sqrt : α → α) (periodsAhead : Int) (i : Nat), (∀ v ∈ data, 0 ≤ v) → 0 ≤ b → 1 ≤ i →
      (i : Int) ≤ periodsAhead →
      ∃ results r, MovingAverageForecast sqrt data periodsAhead windowSize = some results ∧
        results[data.length + i - 1]? = some r ∧ r.Historical = false ∧
        r.Predicted = data.getLast hne + b * (i : α) := by
  refine ⟨calculateTrend_linear data windowSize n hn2 hn a b hlin, ?_⟩
  intro sqrt periodsAhead i hnonneg hb hi hip
  have hcw : clampWindow data.length windowSize = (n : Int) := by
    unfold clampWindow
    omega
  have ht : calculateTrend data (n : Int) = b :=
    calculateTrend_linear data (n : Int) n hn2 (by omega) a b hlin
  have hL : 0 ≤ data.getLast hne := hnonneg _ (List.getLast_mem hne)
  have hi0 : (0 : α) ≤ (i : α) := Nat.cast_nonneg i
  refine ⟨_, _, MovingAverageForecast_eq sqrt data periodsAhead windowSize hne (by omega),
    projected_getElem? data periodsAhead _ _ _ i hi hip, rfl, ?_⟩
  rw [forecastStep_Predicted, hcw, ht, getD_last_eq_getLast data 0 hne]
  exact max_eq_right (add_nonneg hL (mul_nonneg hb hi0))

theorem calculateTrend_linear_progression_witness :
    calculateTrend ([10, 12, 14, 16, 18] : List ℝ) 5 = 2 ∧
    ∃ results r, MovingAverageForecast Real.sqrt ([10, 12, 14, 16, 18] : List ℝ) 3 5 =
        some results ∧
      results[([10, 12, 14, 16, 18] : List ℝ).length + 3 - 1]? = some r ∧ r.Historical = false ∧
      r.Predicted = ([10, 12, 14, 16, 18] : List ℝ).getLast (by simp) + 2 * ((3 : Nat) : ℝ) := by
  have h := calculateTrend_linear_progression ([10, 12, 14, 16, 18] : List ℝ) 5 5 (by simp)
    (by decide) (by simp) 10 2 (by
      intro k hk
      interval_cases k <;> norm_num)
  exact ⟨h.1, h.2 Real.sqrt 3 3
    (by
      intro v hv
      simp only [List.mem_cons, List.mem_singleton] at hv
      rcases hv with rfl | rfl | rfl | rfl | rfl | hv
      · norm_num
      · norm_num
      · norm_num
      · norm_num
      · norm_num
      · simp at hv)
    (by norm_num) (by decide) (by decide)⟩

/-! ## Run-time failures -/

/-- C15: for every series, every `periodsAhead ≥ 0` and every integer `windowSize` (zero,
negative and larger than `len(historical)` included) the checked `MovingAverageForecast`
returns a result: the helpers never panic, the index `historical[len-1]` is in range on a
non-empty series, and whenever the slice `data[len(data)-windowSize:]` is reached
`0 ≤ len(data)-windowSize ≤ len(data)`. -/
theorem MovingAverageForecastChecked_total {α : Type} [LinearOrderedField α] (sqrt : α → α)
    (historical : List α) (periodsAhead windowSize : Int) (hp : 0 ≤ periodsAhead) :
    (∃ results,
      MovingAverageForecastChecked sqrt historical periodsAhead windowSize = some results) ∧
    (∀ (data : List α) (w : Int), ∃ trend, calculateTrendChecked data w = some trend) ∧
    (∀ (data : List α) (w : Int), ∃ stdDev, calculateStdDevChecked sqrt data w = some stdDev) ∧
    (historical ≠ [] →
      ∃ lastValue, indexAt historical ((historical.length : Int) - 1) = some lastValue) ∧
    (∀ (data : List α) (w weff : Int),
      weff = (if (data.length : Int) < w then (data.length : Int) else w) → ¬ weff < 2 →
      0 ≤ (data.length : Int) - weff ∧ (data.length : Int) - weff ≤ (data.length : Int) ∧
        ∃ window, sliceFrom data ((data.length : Int) - weff) = some window) := by
  refine ⟨?_, fun data w => ⟨_, calculateTrendChecked_eq data w⟩,
    fun data w => ⟨_, calculateStdDevChecked_eq sqrt data w⟩, ?_, ?_⟩
  · rw [MovingAverageForecastChecked_eq]
    by_cases hne : historical = []
    · subst hne
      exact ⟨[], by simp [MovingAverageForecast]⟩
    · exact ⟨_, MovingAverageForecast_eq sqrt historical periodsAhead windowSize hne (by omega)⟩
  · intro hne
    have hlen : historical.length ≠ 0 := fun h => hne (List.length_eq_zero.mp h)
    exact ⟨_, indexAt_last historical 0 hlen⟩
  · intro data w weff hweff h2
    have hle : weff ≤ (data.length : Int) := by
      rw [hweff]
      exact effective_window_le data.length w
    exact ⟨by omega, by omega, _, sliceFrom_window data weff h2 hle⟩

theorem MovingAverageForecastChecked_total_witness :
    (∃ results,
      MovingAverageForecastChecked Real.sqrt ([3, 0, 3, 0] : List ℝ) 2 (-7) = some results) ∧
    (∃ lastValue, indexAt ([3, 0, 3, 0] : List ℝ)
      ((([3, 0, 3, 0] : List ℝ).length : Int) - 1) = some lastValue) := by
  have h := MovingAverageForecastChecked_total Real.sqrt ([3, 0, 3, 0] : List ℝ) 2 (-7)
    (by decide)
  exact ⟨h.1, h.2.2.2.1 (by simp)⟩

/-- C16 as stated fails: on the non-empty series `[5]` with `periodsAhead = -2`, below
`-len(historical)`, the capacity of the `make` call is `-1` and the call panics: no result
is returned. -/
theorem MovingAverageForecast_negative_capacity :
    ([5] : List ℝ) ≠ [] ∧ (-2 : Int) < -((([5] : List ℝ).length : Nat) : Int) ∧
    MovingAverageForecastChecked Real.sqrt ([5] : List ℝ) (-2) 10 = none ∧
    MovingAverageForecast Real.sqrt ([5] : List ℝ) (-2) 10 = none ∧
    ¬ ∃ results, MovingAverageForecastChecked Real.sqrt ([5] : List ℝ) (-2) 10 = some results := by
  have h : MovingAverageForecast Real.sqrt ([5] : List ℝ) (-2) 10 = none := by
    simp [MovingAverageForecast]
  refine ⟨by simp, by decide, ?_, h, ?_⟩
  · rw [MovingAverageForecastChecked_eq, h]
  · rw [MovingAverageForecastChecked_eq, h]
    simp

/-- C16 (amended): on a non-empty series, for every integer `periodsAhead` with
`len(historical) + periodsAhead ≥ 0` (zero and negative values down to `-len(historical)`
included) and every `windowSize`, the checked `MovingAverageForecast` returns a result, and
when `periodsAhead ≤ 0` the result is exactly the `len(historical)` historical points. -/
theorem MovingAverageForecastChecked_nonneg_capacity {α : Type} [LinearOrderedField α]
    (sqrt : α → α) (historical : List α) (periodsAhead windowSize : Int)
    (hne : historical ≠ []) (hcap : 0 ≤ (historical.length : Int) + periodsAhead) :
    ∃ results,
      MovingAverageForecastChecked sqrt historical periodsAhead windowSize = some results ∧
      (periodsAhead ≤ 0 → results.length = historical.length ∧
        results = historical.map (fun value =>
          { Period := "", Predicted := value, LowerBound := value, UpperBound := value,
            Historical := true })) := by
  rw [MovingAverageForecastChecked_eq]
  refine ⟨_, MovingAverageForecast_eq sqrt historical periodsAhead windowSize hne hcap, ?_⟩
  intro hp
  have h0 : periodsAhead.toNat = 0 := by omega
  rw [h0]
  simp only [List.range'_zero, List.map_nil, List.append_nil, List.length_map, true_and]
  rfl

theorem MovingAverageForecastChecked_nonneg_capacity_witness :
    ∃ results,
      MovingAverageForecastChecked Real.sqrt ([3, 0, 3, 0] : List ℝ) (-4) 4 = some results ∧
      results.length = ([3, 0, 3, 0] : List ℝ).length ∧
      results = ([3, 0, 3, 0] : List ℝ).map (fun value =>
        { Period := "", Predicted := value, LowerBound := value, UpperBound := value,
          Historical := true }) := by
  obtain ⟨results, h1, h2⟩ :=
    MovingAverageForecastChecked_nonneg_capacity Real.sqrt ([3, 0, 3, 0] : List ℝ) (-4) 4
      (by simp) (by simp)
  exact ⟨results, h1, h2 (by decide)⟩

/-! ## The simple moving average -/

theorem indexAt_natCast {β : Type} (data : List β) (i : Nat) (hi : i < data.length) :
    indexAt data (i : Int) = some data[i] := by
  unfold indexAt
  rw [if_pos (by constructor <;> omega), Int.toNat_ofNat, List.getElem?_eq_getElem hi]

theorem smaLoop_eq {α : Type} [LinearOrderedField α] (data : List α) (count : Nat) :
    ∀ (i : Nat) (sum : α), i + count ≤ data.length →
      smaLoop data (i : Int) sum count = some (sum + ((data.drop i).take count).sum) := by
  induction count with
  | zero =>
    intro i sum _
    simp [smaLoop]
  | succ c ih =>
    intro i sum h
    have hi : i < data.length := by omega
    have hstep : ((i : Int) + 1) = ((i + 1 : Nat) : Int) := by push_cast; rfl
    rw [smaLoop, indexAt_natCast data i hi]
    simp only []
    rw [hstep, ih (i + 1) (sum + data[i]) (by omega), List.drop_eq_getElem_cons hi,
      List.take_succ_cons, List.sum_cons, add_assoc]

theorem drop_length_sub_one_eq {β : Type} (data : List β) (hne : data ≠ []) :
    data.drop (data.length - 1) = [data.getLast hne] := by
  have hpos : 0 < data.length := List.length_pos.mpr hne
  have hlt : data.length - 1 < data.length := by omega
  have hsucc : data.length - 1 + 1 = data.length := by omega
  rw [List.drop_eq_getElem_cons hlt, hsucc, List.drop_length, List.getLast_eq_getElem]

/-- The function `SimpleMovingAverage` on a non-empty series with a window of `m ≥ 0`
elements after the clamp. -/
theorem SimpleMovingAverage_eq {α : Type} [LinearOrderedField α] (data : List α)
    (windowSize : Int) (m : Nat) (hne : data ≠ []) (hm : (m : Int) = min windowSize data.length) :
    SimpleMovingAverage data windowSize =
      some ((data.drop (data.length - m)).sum / (m : α)) := by
  have hlen : data.length ≠ 0 := fun h => hne (List.length_eq_zero.mp h)
  have hle : m ≤ data.length := by omega
  have hw : (if windowSize > (data.length : Int) then (data.length : Int) else windowSize) =
      (m : Int) := by
    split_ifs <;> omega
  have hstart : (data.length : Int) - (m : Int) = ((data.length - m : Nat) : Int) := by omega
  have hcount : ((data.length : Int) - ((data.length - m : Nat) : Int)).toNat = m := by omega
  have htake : (data.drop (data.length - m)).take m = data.drop (data.length - m) :=
    List.take_of_length_le (by rw [List.length_drop]; omega)
  unfold SimpleMovingAverage
  simp only [hlen, if_false, hw, hstart, hcount]
  rw [smaLoop_eq data m (data.length - m) 0 (by omega), htake, zero_add]
  simp only [Int.cast_natCast]

/-- C17: for every series and every `windowSize ≥ 1`, `SimpleMovingAverage` returns `0` on
the empty series and otherwise the arithmetic mean of the last `m = min(windowSize, len)`
elements, `(data[len-m] + … + data[len-1]) / m`; a `windowSize` of `1` is not raised to `2`:
the result is then the last element. -/
theorem SimpleMovingAverage_mean {α : Type} [LinearOrderedField α] (data : List α)
    (windowSize : Int) (hw : 1 ≤ windowSize) :
    (data = [] → SimpleMovingAverage data windowSize = some 0) ∧
    (data ≠ [] → ∀ m : Nat, (m : Int) = min windowSize data.length →
      1 ≤ m ∧ SimpleMovingAverage data windowSize =
        some ((data.drop (data.length - m)).sum / (m : α))) ∧
    (∀ hne : data ≠ [], windowSize = 1 →
      SimpleMovingAverage data windowSize = some (data.getLast hne)) := by
  refine ⟨?_, ?_, ?_⟩
  · intro h
    subst h
    simp [SimpleMovingAverage]
  · intro hne m hm
    have hpos : 0 < data.length := List.length_pos.mpr hne
    exact ⟨by omega, SimpleMovingAverage_eq data windowSize m hne hm⟩
  · intro hne h1
    have hpos : 0 < data.length := List.length_pos.mpr hne
    rw [SimpleMovingAverage_eq data windowSize 1 hne (by omega),
      drop_length_sub_one_eq data hne]
    simp

theorem SimpleMovingAverage_mean_witness :
    SimpleMovingAverage ([] : List ℝ) 3 = some 0 ∧
    (1 ≤ 3 ∧ SimpleMovingAverage ([1, 2, 3, 4] : List ℝ) 3 =
      some ((([1, 2, 3, 4] : List ℝ).drop (([1, 2, 3, 4] : List ℝ).length - 3)).sum /
        ((3 : Nat) : ℝ))) ∧
    SimpleMovingAverage ([1, 2, 3, 4] : List ℝ) 1 =
      some (([1, 2, 3, 4] : List ℝ).getLast (by simp)) :=
  ⟨(SimpleMovingAverage_mean ([] : List ℝ) 3 (by decide)).1 rfl,
    (SimpleMovingAverage_mean ([1, 2, 3, 4] : List ℝ) 3 (by decide)).2.1 (by simp) 3 (by simp),
    (SimpleMovingAverage_mean ([1, 2, 3, 4] : List ℝ) 1 (by decide)).2.2 (by simp) rfl⟩

/-! ## Alert levels and string truncation -/

/-- C18: `CalculateAlertLevels` returns `"HIGH"` if and only if `caseRate > 300` or
`tripCount > 1500`. -/
theorem CalculateAlertLevels_high {α : Type} [LinearOrderedField α] (caseRate : α)
    (tripCount : Int) :
    CalculateAlertLevels caseRate tripCount = "HIGH" ↔ caseRate > 300 ∨ tripCount > 1500 := by
  unfold CalculateAlertLevels
  constructor
  · intro h
    by_contra hc
    rw [if_neg hc] at h
    split_ifs at h <;> exact absurd h (by decide)
  · intro h
    rw [if_pos h]

/-- C19: the code returns `"LOW"` exactly when `caseRate ≤ 100` and `tripCount ≤ 500`, so a
case rate of exactly `100` (with few trips) and a trip count of exactly `500` (with a low
case rate) give `"LOW"`, where the documented ranges put them in `"MEDIUM"`. -/
theorem CalculateAlertLevels_low_boundary :
    CalculateAlertLevels (100 : ℝ) 0 = "LOW" ∧ CalculateAlertLevels (0 : ℝ) 500 = "LOW" ∧
    ∀ (caseRate : ℝ) (tripCount : Int),
      CalculateAlertLevels caseRate tripCount = "LOW" ↔ caseRate ≤ 100 ∧ tripCount ≤ 500 := by
  have key : ∀ (caseRate : ℝ) (tripCount : Int),
      CalculateAlertLevels caseRate tripCount = "LOW" ↔ caseRate ≤ 100 ∧ tripCount ≤ 500 := by
    intro caseRate tripCount
    unfold CalculateAlertLevels
    constructor
    · intro h
      split_ifs at h with h1 h2
      · exact absurd h (by decide)
      · exact absurd h (by decide)
      · push_neg at h2
        exact h2
    · rintro ⟨hc, ht⟩
      have h1 : ¬ (caseRate > 300 ∨ tripCount > 1500) := by
        push_neg
        exact ⟨by linarith, by omega⟩
      have h2 : ¬ (caseRate > 100 ∨ tripCount > 500) := by
        push_neg
        exact ⟨hc, ht⟩
      rw [if_neg h1, if_neg h2]
  exact ⟨(key 100 0).mpr ⟨le_refl _, by decide⟩, (key 0 500).mpr ⟨by norm_num, le_refl _⟩, key⟩

/-- C20: for every string `s` and every `maxLen ≥ 0`, `TruncateString(s, maxLen)` is the
prefix of `s` made of its first `min(len(s), maxLen)` bytes; its length is at most `maxLen`,
it is `s` when `len(s) ≤ maxLen`, and truncating twice is truncating once. -/
theorem TruncateString_prefix {β : Type} (s : List β) (maxLen : Int) (hm : 0 ≤ maxLen) :
    TruncateString s maxLen = some (s.take (min s.length maxLen.toNat)) ∧
    ((s.take (min s.length maxLen.toNat)).length : Int) ≤ maxLen ∧
    s.take (min s.length maxLen.toNat) <+: s ∧
    ((s.length : Int) ≤ maxLen → TruncateString s maxLen = some s) ∧
    (TruncateString s maxLen).bind (fun t => TruncateString t maxLen) =
      TruncateString s maxLen := by
  have hlenle : ((s.take (min s.length maxLen.toNat)).length : Int) ≤ maxLen := by
    rw [List.length_take]
    omega
  have h1 : TruncateString s maxLen = some (s.take (min s.length maxLen.toNat)) := by
    unfold TruncateString
    by_cases h : (s.length : Int) ≤ maxLen
    · have hmin : min s.length maxLen.toNat = s.length := by omega
      rw [if_pos h, hmin, List.take_length]
    · have hmin : min s.length maxLen.toNat = maxLen.toNat := by omega
      rw [if_neg h, hmin]
      unfold sliceTo
      rw [if_pos (by constructor <;> omega)]
  refine ⟨h1, hlenle, List.take_prefix _ _, ?_, ?_⟩
  · intro h
    unfold TruncateString
    rw [if_pos h]
  · rw [h1, Option.some_bind]
    unfold TruncateString
    rw [if_pos hlenle]

theorem TruncateString_prefix_witness :
    (TruncateString "hello".toList 3 =
        some ("hello".toList.take (min "hello".toList.length (3 : Int).toNat)) ∧
      (("hello".toList.take (min "hello".toList.length (3 : Int).toNat)).length : Int) ≤ 3 ∧
      (TruncateString "hello".toList 3).bind (fun t => TruncateString t 3) =
        TruncateString "hello".toList 3) ∧
    TruncateString "hello".toList 7 = some "hello".toList := by
  have h3 := TruncateString_prefix "hello".toList 3 (by decide)
  have h7 := TruncateString_prefix "hello".toList 7 (by decide)
  exact ⟨⟨h3.1, h3.2.1, h3.2.2.2.2⟩, h7.2.2.2.1 (by decide)⟩

/-! ## The caller of the forecaster -/

/-- C21: in `ForecastHandler` the values `"d"`, `"daily"` and the empty string of `period`
select `periodsAhead = 30`, `windowSize = 14`; `"w"` and `"weekly"` select `12` and `8`;
`"m"` and `"monthly"` select `6` and `6`; every other value is rejected before the forecaster
is called; so every pair passed on has `periodsAhead ≥ 1` and `windowSize ≥ 2`. -/
theorem ForecastHandlerParameters_selection :
    (∀ period ∈ ["d", "daily", ""], ForecastHandlerParameters period = some (30, 14)) ∧
    (∀ period ∈ ["w", "weekly"], ForecastHandlerParameters period = some (12, 8)) ∧
    (∀ period ∈ ["m", "monthly"], ForecastHandlerParameters period = some (6, 6)) ∧
    (∀ period, period ∉ ["d", "daily", "", "w", "weekly", "m", "monthly"] →
      ForecastHandlerParameters period = none) ∧
    (∀ period periodsAhead windowSize,
      ForecastHandlerParameters period = some (periodsAhead, windowSize) →
      1 ≤ periodsAhead ∧ 2 ≤ windowSize) := by
  have hreject : ∀ period, period ∉ ["d", "daily", "", "w", "weekly", "m", "monthly"] →
      ForecastHandlerParameters period = none := by
    intro period h
    simp only [List.mem_cons, List.mem_singleton, List.not_mem_nil, or_false, not_or] at h
    obtain ⟨h1, h2, h3, h4, h5, h6, h7⟩ := h
    simp [ForecastHandlerParameters, h1, h2, h3, h4, h5, h6, h7]
  refine ⟨?_, ?_, ?_, hreject, ?_⟩
  · intro period h
    simp only [List.mem_cons, List.mem_singleton, List.not_mem_nil, or_false] at h
    rcases h with rfl | rfl | rfl <;> decide
  · intro period h
    simp only [List.mem_cons, List.mem_singleton, List.not_mem_nil, or_false] at h
    rcases h with rfl | rfl <;> decide
  · intro period h
    simp only [List.mem_cons, List.mem_singleton, List.not_mem_nil, or_false] at h
    rcases h with rfl | rfl <;> decide
  · intro period periodsAhead windowSize h
    by_cases hm : period ∈ ["d", "daily", "", "w", "weekly", "m", "monthly"]
    · simp only [List.mem_cons, List.mem_singleton, List.not_mem_nil, or_false] at hm
      rcases hm with rfl | rfl | rfl | rfl | rfl | rfl | rfl <;>
        · have hv : ForecastHandlerParameters _ = some (periodsAhead, windowSize) := h
          simp [ForecastHandlerParameters] at hv
          omega
    · rw [hreject period hm] at h
      exact absurd h (by simp)

theorem ForecastHandlerParameters_selection_witness :
    ForecastHandlerParameters "" = some (30, 14) ∧
    ForecastHandlerParameters "weekly" = some (12, 8) ∧
    ForecastHandlerParameters "m" = some (6, 6) ∧
    ForecastHandlerParameters "yearly" = none ∧
    ((1 : Int) ≤ 12 ∧ (2 : Int) ≤ 8) :=
  ⟨ForecastHandlerParameters_selection.1 "" (by simp),
    ForecastHandlerParameters_selection.2.1 "weekly" (by simp),
    ForecastHandlerParameters_selection.2.2.1 "m" (by simp),
    ForecastHandlerParameters_selection.2.2.2.1 "yearly" (by decide),
    ForecastHandlerParameters_selection.2.2.2.2 "w" 12 8 (by decide)⟩

/-! ## Order of the three values of a projected point -/

theorem calculateTrend_falling :
    calculateTrend ([10, 0] : List ℝ) 2 = -10 := by
  norm_num [calculateTrend, trendLoop]

theorem calculateStdDev_falling :
    calculateStdDev Real.sqrt ([10, 0] : List ℝ) 2 = 5 := by
  have h : Real.sqrt 25 = 5 := by
    rw [show (25 : ℝ) = 5 ^ 2 by norm_num]
    exact Real.sqrt_sq (by norm_num)
  rw [calculateStdDev_unfold Real.sqrt _ 2 2 (by norm_num) (by simp), ← h]
  congr 1
  norm_num [Finset.sum_range_succ]

/-- C22: on the non-negative series `[10, 0]` with `periodsAhead = 1` and `windowSize = 2`
(trend `-10`, dispersion `5`) the projected point has `Predicted = 0`, clamped from `-10`,
and `UpperBound = -10 + 5 * 1.2 = -4`: the upper bound is below the point estimate. -/
theorem MovingAverageForecast_upper_below_predicted :
    ∃ results r,
      (∀ v ∈ ([10, 0] : List ℝ), 0 ≤ v) ∧
      MovingAverageForecast Real.sqrt ([10, 0] : List ℝ) 1 2 = some results ∧
      results[([10, 0] : List ℝ).length + 1 - 1]? = some r ∧ r.Historical = false ∧
      r.Predicted = 0 ∧ r.UpperBound = -4 ∧ r.UpperBound < r.Predicted := by
  have hw : clampWindow ([10, 0] : List ℝ).length 2 = 2 := by decide
  have hL : ([10, 0] : List ℝ).getD (([10, 0] : List ℝ).length - 1) 0 = 0 := by simp
  have hP : (forecastStep (0 : ℝ) (-10) 5 1).Predicted = 0 := by
    rw [forecastStep_Predicted, max_eq_left (by norm_num)]
  have hU : (forecastStep (0 : ℝ) (-10) 5 1).UpperBound = -4 := by
    rw [forecastStep_UpperBound]
    norm_num
  refine ⟨_, forecastStep (0 : ℝ) (-10) 5 1, ?_,
    MovingAverageForecast_eq Real.sqrt ([10, 0] : List ℝ) 1 2 (by simp) (by norm_num),
    ?_, rfl, hP, hU, ?_⟩
  · intro v hv
    simp only [List.mem_cons, List.mem_singleton] at hv
    rcases hv with rfl | rfl | hv
    · norm_num
    · norm_num
    · simp at hv
  · rw [hw, hL, calculateTrend_falling, calculateStdDev_falling]
    exact projected_getElem? _ 1 _ _ _ 1 (by decide) (by decide)
  · rw [hP, hU]
    norm_num

theorem forecastStep_lower_le_predicted (L t d : ℝ) (hd0 : 0 ≤ d) (i : Nat) :
    (forecastStep L t d i).LowerBound ≤ (forecastStep L t d i).Predicted := by
  rw [forecastStep_LowerBound, forecastStep_Predicted]
  have hi : (0 : ℝ) ≤ (i : ℝ) := Nat.cast_nonneg i
  have hm : (0 : ℝ) ≤ 1 + 0.2 * (i : ℝ) := by positivity
  exact max_le_max (le_refl 0) (sub_le_self _ (mul_nonneg hd0 hm))

/-- In exact arithmetic, for every real series, `periodsAhead` and `windowSize`, every
projected point that `MovingAverageForecast` returns has `LowerBound ≤ Predicted` (the
dispersion is non-negative, the multiplier `1 + 0.2*i` is positive, and the two clamps keep
the order); a result is returned whenever the capacity `len(historical) + periodsAhead` is
not negative. -/
theorem MovingAverageForecast_lower_le_predicted (historical : List ℝ)
    (periodsAhead windowSize : Int) :
    (0 ≤ (historical.length : Int) + periodsAhead →
      ∃ results, MovingAverageForecast Real.sqrt historical periodsAhead windowSize =
        some results) ∧
    (0 ≤ calculateStdDev Real.sqrt historical
      (max 2 (min windowSize (historical.length : Int)))) ∧
    ∀ results, MovingAverageForecast Real.sqrt historical periodsAhead windowSize = some results →
      ∀ r ∈ results, r.Historical = false → r.LowerBound ≤ r.Predicted := by
  refine ⟨?_, calculateStdDev_nonneg _ _, ?_⟩
  · intro hcap
    by_cases hne : historical = []
    · subst hne
      exact ⟨[], by simp [MovingAverageForecast]⟩
    · exact ⟨_, MovingAverageForecast_eq Real.sqrt historical periodsAhead windowSize hne hcap⟩
  · intro results hres r hr hflag
    by_cases hne : historical = []
    · subst hne
      simp [MovingAverageForecast] at hres
      subst hres
      simp at hr
    · by_cases hcap : 0 ≤ (historical.length : Int) + periodsAhead
      · rw [MovingAverageForecast_eq Real.sqrt historical periodsAhead windowSize hne hcap]
          at hres
        simp only [Option.some.injEq] at hres
        subst hres
        rcases List.mem_append.mp hr with h | h
        · obtain ⟨v, _, rfl⟩ := List.mem_map.mp h
          simp [echoPoint] at hflag
        · obtain ⟨j, _, rfl⟩ := List.mem_map.mp h
          exact forecastStep_lower_le_predicted _ _ _ (calculateStdDev_nonneg _ _) j
      · have hlen : historical.length ≠ 0 := fun h => hne (List.length_eq_zero.mp h)
        simp [MovingAverageForecast, hlen, not_le.mp hcap] at hres

theorem MovingAverageForecast_lower_le_predicted_witness :
    ∃ results, MovingAverageForecast Real.sqrt ([-3, 5, -8] : List ℝ) 2 3 = some results ∧
      ∀ r ∈ results, r.Historical = false → r.LowerBound ≤ r.Predicted := by
  obtain ⟨results, h⟩ :=
    (MovingAverageForecast_lower_le_predicted ([-3, 5, -8] : List ℝ) 2 3).1 (by norm_num)
  exact ⟨results, h,
    (MovingAverageForecast_lower_le_predicted ([-3, 5, -8] : List ℝ) 2 3).2.2 results h⟩

/-! ## Only the trailing window matters -/

theorem getD_last_eq_window {β : Type} (data : List β) (d : β) (n : Nat) (hn1 : 1 ≤ n)
    (hle : n ≤ data.length) :
    data.getD (data.length - 1) d = (data.drop (data.length - n)).getD (n - 1) d := by
  have e : data.length - n + (n - 1) = data.length - 1 := by omega
  rw [List.getD_eq_getElem?_getD, List.getD_eq_getElem?_getD, List.getElem?_drop, e]

theorem MovingAverageForecast_some_capacity {α : Type} [LinearOrderedField α] (sqrt : α → α)
    (historical : List α) (periodsAhead windowSize : Int) (hne : historical ≠ [])
    (results : List (ForecastResult α))
    (hres : MovingAverageForecast sqrt historical periodsAhead windowSize = some results) :
    0 ≤ (historical.length : Int) + periodsAhead := by
  by_contra hcap
  have hlen : historical.length ≠ 0 := fun h => hne (List.length_eq_zero.mp h)
  simp [MovingAverageForecast, hlen, not_le.mp hcap] at hres

/-- C24: for `windowSize = w ≥ 2` and two series of length at least `w` whose last `w`
elements coincide, the trend, the dispersion and the last value agree, and the projected
parts of the two outputs (the points after the historical ones, equally the non-historical
points) are identical for every `periodsAhead`; each call returns when its capacity is not
negative. -/
theorem MovingAverageForecast_window_only {α : Type} [LinearOrderedField α] (sqrt : α → α)
    (h1 h2 : List α) (periodsAhead w : Int) (hw : 2 ≤ w) (hl1 : w ≤ (h1.length : Int))
    (hl2 : w ≤ (h2.length : Int))
    (hwin : h1.drop (h1.length - w.toNat) = h2.drop (h2.length - w.toNat)) :
    calculateTrend h1 w = calculateTrend h2 w ∧
    calculateStdDev sqrt h1 w = calculateStdDev sqrt h2 w ∧
    (0 ≤ (h1.length : Int) + periodsAhead →
      ∃ r1, MovingAverageForecast sqrt h1 periodsAhead w = some r1) ∧
    (0 ≤ (h2.length : Int) + periodsAhead →
      ∃ r2, MovingAverageForecast sqrt h2 periodsAhead w = some r2) ∧
    ∀ r1 r2, MovingAverageForecast sqrt h1 periodsAhead w = some r1 →
      MovingAverageForecast sqrt h2 periodsAhead w = some r2 →
      r1.drop h1.length = r2.drop h2.length ∧
      r1.filter (fun r => !r.Historical) = r2.filter (fun r => !r.Historical) := by
  have hne1 : h1 ≠ [] := by
    intro h; subst h; simp at hl1; omega
  have hne2 : h2 ≠ [] := by
    intro h; subst h; simp at hl2; omega
  have hn2 : 2 ≤ w.toNat := by omega
  have hn1 : (w.toNat : Int) = min w (h1.length : Int) := by omega
  have hn1' : (w.toNat : Int) = min w (h2.length : Int) := by omega
  have ht : calculateTrend h1 w = calculateTrend h2 w := by
    rw [calculateTrend_unfold h1 w w.toNat hn2 hn1, calculateTrend_unfold h2 w w.toNat hn2 hn1',
      hwin]
  have hd : calculateStdDev sqrt h1 w = calculateStdDev sqrt h2 w := by
    rw [calculateStdDev_unfold sqrt h1 w w.toNat hn2 hn1,
      calculateStdDev_unfold sqrt h2 w w.toNat hn2 hn1', hwin]
  have hL : h1.getD (h1.length - 1) 0 = h2.getD (h2.length - 1) 0 := by
    rw [getD_last_eq_window h1 0 w.toNat (by omega) (by omega),
      getD_last_eq_window h2 0 w.toNat (by omega) (by omega), hwin]
  have hc1 : clampWindow h1.length w = w := by unfold clampWindow; omega
  have hc2 : clampWindow h2.length w = w := by unfold clampWindow; omega
  refine ⟨ht, hd, fun hcap => ⟨_, MovingAverageForecast_eq sqrt h1 periodsAhead w hne1 hcap⟩,
    fun hcap => ⟨_, MovingAverageForecast_eq sqrt h2 periodsAhead w hne2 hcap⟩, ?_⟩
  intro r1 r2 hr1 hr2
  have hcap1 := MovingAverageForecast_some_capacity sqrt h1 periodsAhead w hne1 r1 hr1
  have hcap2 := MovingAverageForecast_some_capacity sqrt h2 periodsAhead w hne2 r2 hr2
  rw [MovingAverageForecast_eq sqrt h1 periodsAhead w hne1 hcap1, hc1] at hr1
  rw [MovingAverageForecast_eq sqrt h2 periodsAhead w hne2 hcap2, hc2, ← ht, ← hd, ← hL] at hr2
  simp only [Option.some.injEq] at hr1 hr2
  subst hr1
  subst hr2
  have hfe : ∀ h : List α, (h.map echoPoint).filter (fun r => !r.Historical) = [] := by
    intro h
    rw [List.filter_eq_nil_iff]
    intro r hr
    obtain ⟨v, _, rfl⟩ := List.mem_map.mp hr
    simp [echoPoint]
  constructor
  · rw [List.drop_left' (by simp), List.drop_left' (by simp)]
  · rw [List.filter_append, List.filter_append, hfe h1, hfe h2]

theorem MovingAverageForecast_window_only_witness :
    calculateTrend ([100, 7, 3, 5] : List ℝ) 3 = calculateTrend ([7, 3, 5] : List ℝ) 3 ∧
    calculateStdDev Real.sqrt ([100, 7, 3, 5] : List ℝ) 3 =
      calculateStdDev Real.sqrt ([7, 3, 5] : List ℝ) 3 ∧
    ∃ r1 r2, MovingAverageForecast Real.sqrt ([100, 7, 3, 5] : List ℝ) 2 3 = some r1 ∧
      MovingAverageForecast Real.sqrt ([7, 3, 5] : List ℝ) 2 3 = some r2 ∧
      r1.drop ([100, 7, 3, 5] : List ℝ).length = r2.drop ([7, 3, 5] : List ℝ).length ∧
      r1.filter (fun r => !r.Historical) = r2.filter (fun r => !r.Historical) := by
  have h := MovingAverageForecast_window_only Real.sqrt ([100, 7, 3, 5] : List ℝ)
    ([7, 3, 5] : List ℝ) 2 3 (by decide) (by simp) (by simp) (by simp)
  obtain ⟨r1, hr1⟩ := h.2.2.1 (by norm_num)
  obtain ⟨r2, hr2⟩ := h.2.2.2.1 (by norm_num)
  exact ⟨h.1, h.2.1, r1, r2, hr1, hr2, h.2.2.2.2 r1 r2 hr1 hr2⟩

/-! ## The regression denominator -/

/-- C27: for every window length `n ≥ 2`, `n*Σk² - (Σk)² = n²(n² - 1)/12 > 0` (sums over
`k < n`); so in `calculateTrend`, once the `windowSize < 2` return is passed, the
denominator computed by the loop is not zero and the result is the guarded quotient
`numerator / denominator`. -/
theorem calculateTrend_denominator_pos {α : Type} [LinearOrderedField α] :
    (∀ n : Nat, 2 ≤ n →
      (n : α) * (∑ k ∈ Finset.range n, (k : α) ^ 2) - (∑ k ∈ Finset.range n, (k : α)) ^ 2 =
        (n : α) ^ 2 * ((n : α) ^ 2 - 1) / 12 ∧
      0 < (n : α) * (∑ k ∈ Finset.range n, (k : α) ^ 2) -
        (∑ k ∈ Finset.range n, (k : α)) ^ 2) ∧
    (∀ (data : List α) (windowSize weff : Int),
      weff = (if (data.length : Int) < windowSize then (data.length : Int) else windowSize) →
      ¬ weff < 2 →
      ∀ (window : List α) (s : TrendSums α),
        window = data.drop ((data.length : Int) - weff).toNat →
        s = trendLoop window 0 { sumX := 0, sumY := 0, sumXY := 0, sumX2 := 0 } →
        0 < ((window.length : α) * s.sumX2) - (s.sumX * s.sumX) ∧
        calculateTrend data windowSize =
          ((window.length : α) * s.sumXY - s.sumX * s.sumY) /
            ((window.length : α) * s.sumX2 - s.sumX * s.sumX)) := by
  constructor
  · intro n hn2
    have hpos := slope_denominator_pos (α := α) n hn2
    have h1 := two_mul_sum_idx (α := α) n
    have h2 := six_mul_sum_idx_sq (α := α) n
    simp only [sq] at *
    refine ⟨?_, hpos⟩
    have hSx : (∑ k ∈ Finset.range n, (k : α)) = (n : α) * ((n : α) - 1) / 2 := by linarith
    have hSxx : (∑ k ∈ Finset.range n, (k : α) * (k : α)) =
        ((n : α) - 1) * (n : α) * (2 * (n : α) - 1) / 6 := by linarith
    rw [hSx, hSxx]
    ring
  · intro data windowSize weff hweff h2 window s hwindow hs
    have hle : weff ≤ (data.length : Int) := by
      rw [hweff]
      exact effective_window_le data.length windowSize
    have hn2 : 2 ≤ weff.toNat := by omega
    have hn : (weff.toNat : Int) = min windowSize (data.length : Int) := by
      rw [hweff]
      split_ifs <;> omega
    have hidx : ((data.length : Int) - weff).toNat = data.length - weff.toNat := by omega
    have hlen : window.length = weff.toNat := by
      rw [hwindow, hidx]
      exact length_drop_trailing data _ (by omega)
    have hD := slope_denominator_pos (α := α) weff.toNat hn2
    rw [calculateTrend_unfold data windowSize weff.toNat hn2 hn, hs, trendLoop_eq, hlen]
    simp only [Nat.cast_zero, zero_add]
    rw [hwindow, hidx]
    exact ⟨hD, rfl⟩

theorem calculateTrend_denominator_pos_witness :
    (((4 : Nat) : ℝ) * (∑ k ∈ Finset.range 4, (k : ℝ) ^ 2) -
        (∑ k ∈ Finset.range 4, (k : ℝ)) ^ 2 = ((4 : Nat) : ℝ) ^ 2 * (((4 : Nat) : ℝ) ^ 2 - 1) / 12 ∧
      0 < ((4 : Nat) : ℝ) * (∑ k ∈ Finset.range 4, (k : ℝ) ^ 2) -
        (∑ k ∈ Finset.range 4, (k : ℝ)) ^ 2) ∧
    ∃ (window : List ℝ) (s : TrendSums ℝ),
      window = ([3, 0, 3, 0] : List ℝ).drop ((([3, 0, 3, 0] : List ℝ).length : Int) - 4).toNat ∧
      s = trendLoop window 0 { sumX := 0, sumY := 0, sumXY := 0, sumX2 := 0 } ∧
      0 < ((window.length : ℝ) * s.sumX2) - (s.sumX * s.sumX) ∧
      calculateTrend ([3, 0, 3, 0] : List ℝ) 9 =
        ((window.length : ℝ) * s.sumXY - s.sumX * s.sumY) /
          ((window.length : ℝ) * s.sumX2 - s.sumX * s.sumX) :=
  ⟨(calculateTrend_denominator_pos (α := ℝ)).1 4 (by decide),
    _, _, rfl, rfl,
    (calculateTrend_denominator_pos (α := ℝ)).2 ([3, 0, 3, 0] : List ℝ) 9 4 (by simp)
      (by decide) _ _ rfl rfl⟩

/-! ## Sign of the trend -/

theorem slope_numerator_nonneg {α : Type} [LinearOrderedField α] (n : Nat) (y : Nat → α)
    (hmono : ∀ i j : Nat, i ≤ j → j < n → y i ≤ y j) :
    0 ≤ (n : α) * (∑ k ∈ Finset.range n, (k : α) * y k) -
      (∑ k ∈ Finset.range n, (k : α)) * (∑ k ∈ Finset.range n, y k) := by
  have hmv : MonovaryOn (fun k : Nat => (k : α)) y (Finset.range n) := by
    intro i hi j hj hlt
    by_contra hcon
    have hji : j ≤ i := by
      have : ((j : α) < (i : α)) := not_le.mp hcon
      exact le_of_lt (by exact_mod_cast this)
    have := hmono j i hji (Finset.mem_range.mp hi)
    exact absurd hlt (not_lt.mpr this)
  have h := hmv.sum_mul_sum_le_card_mul_sum
  rw [Finset.card_range] at h
  linarith

theorem slope_numerator_nonpos {α : Type} [LinearOrderedField α] (n : Nat) (y : Nat → α)
    (hanti : ∀ i j : Nat, i ≤ j → j < n → y j ≤ y i) :
    (n : α) * (∑ k ∈ Finset.range n, (k : α) * y k) -
      (∑ k ∈ Finset.range n, (k : α)) * (∑ k ∈ Finset.range n, y k) ≤ 0 := by
  have hav : AntivaryOn (fun k : Nat => (k : α)) y (Finset.range n) := by
    intro i hi j hj hlt
    by_contra hcon
    have hij : i ≤ j := by
      have : ((i : α) < (j : α)) := not_le.mp hcon
      exact le_of_lt (by exact_mod_cast this)
    have := hanti i j hij (Finset.mem_range.mp hj)
    exact absurd hlt (not_lt.mpr this)
  have h := hav.card_mul_sum_le_sum_mul_sum
  rw [Finset.card_range] at h
  linarith

/-- C25: when the trailing window of `n ≥ 2` observations is non-decreasing `calculateTrend`
returns a value `≥ 0`, and when it is non-increasing a value `≤ 0`; hence on a non-negative
series with a non-decreasing window no projected `Predicted` is below the last observed
value. -/
theorem calculateTrend_sign {α : Type} [LinearOrderedField α] (data : List α)
    (windowSize : Int) (n : Nat) (hne : data ≠ []) (hn2 : 2 ≤ n)
    (hn : (n : Int) = min windowSize data.length) :
    ((∀ i j : Nat, i ≤ j → j < n →
        (data.drop (data.length - n)).getD i 0 ≤ (data.drop (data.length - n)).getD j 0) →
      0 ≤ calculateTrend data windowSize) ∧
    ((∀ i j : Nat, i ≤ j → j < n →
        (data.drop (data.length - n)).getD j 0 ≤ (data.drop (data.length - n)).getD i 0) →
      calculateTrend data windowSize ≤ 0) ∧
    ((∀ v ∈ data, 0 ≤ v) →
      (∀ i j : Nat, i ≤ j → j < n →
        (data.drop (data.length - n)).getD i 0 ≤ (data.drop (data.length - n)).getD j 0) →
      ∀ (sqrt : α → α) (periodsAhead : Int),
        (0 ≤ (data.length : Int) + periodsAhead →
          ∃ results, MovingAverageForecast sqrt data periodsAhead windowSize = some results) ∧
        ∀ results, MovingAverageForecast sqrt data periodsAhead windowSize = some results →
          ∀ r ∈ results, r.Historical = false → data.getLast hne ≤ r.Predicted) := by
  have hD := slope_denominator_pos (α := α) n hn2
  have hpos : ∀ w : Int, (n : Int) = min w data.length →
      (∀ i j : Nat, i ≤ j → j < n →
        (data.drop (data.length - n)).getD i 0 ≤ (data.drop (data.length - n)).getD j 0) →
      0 ≤ calculateTrend data w := by
    intro w hw hmono
    rw [calculateTrend_unfold data w n hn2 hw]
    exact div_nonneg (slope_numerator_nonneg n _ hmono) (le_of_lt hD)
  refine ⟨hpos windowSize hn, ?_, ?_⟩
  · intro hanti
    rw [calculateTrend_unfold data windowSize n hn2 hn]
    exact div_nonpos_of_nonpos_of_nonneg (slope_numerator_nonpos n _ hanti) (le_of_lt hD)
  · intro _ hmono sqrt periodsAhead
    have hcw : clampWindow data.length windowSize = (n : Int) := by
      unfold clampWindow
      omega
    have ht : 0 ≤ calculateTrend data (n : Int) := hpos (n : Int) (by omega) hmono
    refine ⟨fun hcap => ⟨_, MovingAverageForecast_eq sqrt data periodsAhead windowSize hne hcap⟩,
      ?_⟩
    intro results hres r hr hflag
    have hcap := MovingAverageForecast_some_capacity sqrt data periodsAhead windowSize hne
      results hres
    rw [MovingAverageForecast_eq sqrt data periodsAhead windowSize hne hcap, hcw] at hres
    simp only [Option.some.injEq] at hres
    subst hres
    rcases List.mem_append.mp hr with h | h
    · obtain ⟨v, _, rfl⟩ := List.mem_map.mp h
      simp [echoPoint] at hflag
    · obtain ⟨j, _, rfl⟩ := List.mem_map.mp h
      rw [forecastStep_Predicted, getD_last_eq_getLast data 0 hne]
      have hj : (0 : α) ≤ (j : α) := Nat.cast_nonneg j
      exact le_trans (le_add_of_nonneg_right (mul_nonneg ht hj)) (le_max_right _ _)

theorem calculateTrend_sign_witness :
    0 ≤ calculateTrend ([9, 1, 4, 4, 6] : List ℝ) 4 ∧
    calculateTrend ([1, 8, 5, 5, 2] : List ℝ) 4 ≤ 0 ∧
    ∃ results, MovingAverageForecast Real.sqrt ([9, 1, 4, 4, 6] : List ℝ) 2 4 = some results ∧
      ∀ r ∈ results, r.Historical = false →
        ([9, 1, 4, 4, 6] : List ℝ).getLast (by simp) ≤ r.Predicted := by
  have hup : ∀ i j : Nat, i ≤ j → j < 4 →
      (([9, 1, 4, 4, 6] : List ℝ).drop (([9, 1, 4, 4, 6] : List ℝ).length - 4)).getD i 0 ≤
        (([9, 1, 4, 4, 6] : List ℝ).drop (([9, 1, 4, 4, 6] : List ℝ).length - 4)).getD j 0 := by
    intro i j hij hj
    interval_cases j <;> interval_cases i <;> norm_num
  have hdown : ∀ i j : Nat, i ≤ j → j < 4 →
      (([1, 8, 5, 5, 2] : List ℝ).drop (([1, 8, 5, 5, 2] : List ℝ).length - 4)).getD j 0 ≤
        (([1, 8, 5, 5, 2] : List ℝ).drop (([1, 8, 5, 5, 2] : List ℝ).length - 4)).getD i 0 := by
    intro i j hij hj
    interval_cases j <;> interval_cases i <;> norm_num
  have hnn : ∀ v ∈ ([9, 1, 4, 4, 6] : List ℝ), 0 ≤ v := by
    intro v hv
    simp only [List.mem_cons, List.mem_singleton] at hv
    rcases hv with rfl | rfl | rfl | rfl | rfl | hv
    · norm_num
    · norm_num
    · norm_num
    · norm_num
    · norm_num
    · simp at hv
  have h1 := calculateTrend_sign ([9, 1, 4, 4, 6] : List ℝ) 4 4 (by simp) (by decide) (by simp)
  have h2 := calculateTrend_sign ([1, 8, 5, 5, 2] : List ℝ) 4 4 (by simp) (by decide) (by simp)
  obtain ⟨results, hres⟩ := (h1.2.2 hnn hup Real.sqrt 2).1 (by norm_num)
  exact ⟨h1.1 hup, h2.2.1 hdown, results, hres, (h1.2.2 hnn hup Real.sqrt 2).2 results hres⟩

/-! ## Shifting and scaling the data -/

theorem getD_drop_map {α : Type} [LinearOrderedField α] (f : α → α) (data : List α)
    (m k : Nat) (hk : k < (data.drop m).length) :
    ((data.map f).drop m).getD k 0 = f ((data.drop m).getD k 0) := by
  rw [← List.map_drop, List.getD_eq_getElem _ 0 (by simpa using hk),
    List.getD_eq_getElem _ 0 hk, List.getElem_map]

/-- The trend of an affinely transformed series `s*v + c` is `s` times the trend. -/
theorem calculateTrend_map_affine {α : Type} [LinearOrderedField α] (data : List α)
    (windowSize : Int) (f : α → α) (s c : α) (hf : ∀ v, f v = s * v + c) :
    calculateTrend (data.map f) windowSize = s * calculateTrend data windowSize := by
  by_cases hsmall : min windowSize (data.length : Int) < 2
  · rw [calculateTrend_small_window data windowSize hsmall,
      calculateTrend_small_window (data.map f) windowSize (by simpa using hsmall), mul_zero]
  · have hn2 : 2 ≤ (min windowSize (data.length : Int)).toNat := by omega
    have hn : (((min windowSize (data.length : Int)).toNat : Nat) : Int) =
        min windowSize data.length := by omega
    have hlen : (data.drop (data.length - (min windowSize (data.length : Int)).toNat)).length =
        (min windowSize (data.length : Int)).toNat :=
      length_drop_trailing data _ (by omega)
    rw [calculateTrend_unfold data windowSize _ hn2 hn,
      calculateTrend_unfold (data.map f) windowSize _ hn2 (by simpa using hn), List.length_map]
    have e1 : ∑ k ∈ Finset.range (min windowSize (data.length : Int)).toNat, (k : α) *
        ((data.map f).drop (data.length - (min windowSize (data.length : Int)).toNat)).getD k 0 =
        s * (∑ k ∈ Finset.range (min windowSize (data.length : Int)).toNat, (k : α) *
          (data.drop (data.length - (min windowSize (data.length : Int)).toNat)).getD k 0) +
        c * (∑ k ∈ Finset.range (min windowSize (data.length : Int)).toNat, (k : α)) := by
      rw [Finset.mul_sum, Finset.mul_sum, ← Finset.sum_add_distrib]
      refine Finset.sum_congr rfl (fun k hk => ?_)
      rw [getD_drop_map f data _ k (by rw [hlen]; exact Finset.mem_range.mp hk), hf]
      ring
    have e2 : ∑ k ∈ Finset.range (min windowSize (data.length : Int)).toNat,
        ((data.map f).drop (data.length - (min windowSize (data.length : Int)).toNat)).getD k 0 =
        s * (∑ k ∈ Finset.range (min windowSize (data.length : Int)).toNat,
          (data.drop (data.length - (min windowSize (data.length : Int)).toNat)).getD k 0) +
        (((min windowSize (data.length : Int)).toNat : Nat) : α) * c := by
      have hc : ∑ _k ∈ Finset.range (min windowSize (data.length : Int)).toNat, c =
          (((min windowSize (data.length : Int)).toNat : Nat) : α) * c := by
        rw [Finset.sum_const, Finset.card_range, nsmul_eq_mul]
      rw [Finset.mul_sum, ← hc, ← Finset.sum_add_distrib]
      refine Finset.sum_congr rfl (fun k hk => ?_)
      rw [getD_drop_map f data _ k (by rw [hlen]; exact Finset.mem_range.mp hk), hf]
    rw [e1, e2, ← mul_div_assoc]
    congr 1
    ring

theorem sum_sq_dev_affine (n : Nat) (hn : 0 < n) (y z : Nat → ℝ) (s c : ℝ)
    (hz : ∀ k : Nat, k < n → z k = s * y k + c) :
    ∑ k ∈ Finset.range n, (z k - (∑ j ∈ Finset.range n, z j) / (n : ℝ)) *
        (z k - (∑ j ∈ Finset.range n, z j) / (n : ℝ)) =
      (s * s) * ∑ k ∈ Finset.range n, (y k - (∑ j ∈ Finset.range n, y j) / (n : ℝ)) *
        (y k - (∑ j ∈ Finset.range n, y j) / (n : ℝ)) := by
  have hn0 : (n : ℝ) ≠ 0 := by
    have : (0 : ℝ) < (n : ℝ) := by exact_mod_cast hn
    exact ne_of_gt this
  have hsum : ∑ j ∈ Finset.range n, z j = s * (∑ j ∈ Finset.range n, y j) + (n : ℝ) * c := by
    have hc : ∑ _k ∈ Finset.range n, c = (n : ℝ) * c := by
      rw [Finset.sum_const, Finset.card_range, nsmul_eq_mul]
    rw [Finset.mul_sum (Finset.range n) (fun j => y j) s, ← hc, ← Finset.sum_add_distrib]
    exact Finset.sum_congr rfl (fun k hk => hz k (Finset.mem_range.mp hk))
  have hmean : (∑ j ∈ Finset.range n, z j) / (n : ℝ) =
      s * ((∑ j ∈ Finset.range n, y j) / (n : ℝ)) + c := by
    rw [hsum]
    field_simp
    ring
  rw [hmean, Finset.mul_sum (Finset.range n) _ (s * s)]
  refine Finset.sum_congr rfl (fun k hk => ?_)
  rw [hz k (Finset.mem_range.mp hk)]
  ring

/-- The dispersion of an affinely transformed series `s*v + c` is `|s|` times the
dispersion. -/
theorem calculateStdDev_map_affine (data : List ℝ) (windowSize : Int) (f : ℝ → ℝ) (s c : ℝ)
    (hf : ∀ v, f v = s * v + c) :
    calculateStdDev Real.sqrt (data.map f) windowSize =
      |s| * calculateStdDev Real.sqrt data windowSize := by
  by_cases hsmall : min windowSize (data.length : Int) < 2
  · rw [calculateStdDev_small_window Real.sqrt data windowSize hsmall,
      calculateStdDev_small_window Real.sqrt (data.map f) windowSize (by simpa using hsmall),
      mul_zero]
  · have hn2 : 2 ≤ (min windowSize (data.length : Int)).toNat := by omega
    have hn : (((min windowSize (data.length : Int)).toNat : Nat) : Int) =
        min windowSize data.length := by omega
    have hlen : (data.drop (data.length - (min windowSize (data.length : Int)).toNat)).length =
        (min windowSize (data.length : Int)).toNat :=
      length_drop_trailing data _ (by omega)
    rw [calculateStdDev_unfold Real.sqrt data windowSize _ hn2 hn,
      calculateStdDev_unfold Real.sqrt (data.map f) windowSize _ hn2 (by simpa using hn),
      List.length_map]
    rw [sum_sq_dev_affine (min windowSize (data.length : Int)).toNat (by omega)
      (fun k => (data.drop (data.length - (min windowSize (data.length : Int)).toNat)).getD k 0)
      (fun k => ((data.map f).drop
        (data.length - (min windowSize (data.length : Int)).toNat)).getD k 0) s c
      (fun k hk => by
        simp only []
        rw [getD_drop_map f data _ k (by rw [hlen]; exact hk), hf])]
    rw [mul_div_assoc, Real.sqrt_mul (mul_self_nonneg s), Real.sqrt_mul_self_eq_abs]

/-- C26: adding a constant `c` to every element of `data` leaves `calculateTrend` and
`calculateStdDev` unchanged, and multiplying every element by `s` multiplies
`calculateTrend` by `s` and `calculateStdDev` by `|s|`, for every series and every
`windowSize`. -/
theorem calculateTrend_calculateStdDev_shift_scale (data : List ℝ) (windowSize : Int)
    (c s : ℝ) :
    calculateTrend (data.map (fun v => v + c)) windowSize = calculateTrend data windowSize ∧
    calculateStdDev Real.sqrt (data.map (fun v => v + c)) windowSize =
      calculateStdDev Real.sqrt data windowSize ∧
    calculateTrend (data.map (fun v => s * v)) windowSize =
      s * calculateTrend data windowSize ∧
    calculateStdDev Real.sqrt (data.map (fun v => s * v)) windowSize =
      |s| * calculateStdDev Real.sqrt data windowSize := by
  refine ⟨?_, ?_, ?_, ?_⟩
  · rw [calculateTrend_map_affine data windowSize (fun v => v + c) 1 c (fun v => by ring),
      one_mul]
  · rw [calculateStdDev_map_affine data windowSize (fun v => v + c) 1 c (fun v => by ring),
      abs_one, one_mul]
  · exact calculateTrend_map_affine data windowSize (fun v => s * v) s 0 (fun v => by ring)
  · exact calculateStdDev_map_affine data windowSize (fun v => s * v) s 0 (fun v => by ring)

/-! ## The generic functions at the exact arithmetic -/

theorem trendLoopF_exact {α : Type} [LinearOrderedField α] (sqrt : α → α) (window : List α) :
    ∀ (i : Nat) (s : TrendSums α),
      trendLoopF (exactOps sqrt) window i s = trendLoop window i s := by
  induction window with
  | nil => intro i s; rfl
  | cons y rest ih =>
    intro i s
    rw [trendLoopF, trendLoop, ih]
    simp [exactOps]

theorem calculateTrendF_exact {α : Type} [LinearOrderedField α] (sqrt : α → α)
    (data : List α) (windowSize : Int) :
    calculateTrendF (exactOps sqrt) data windowSize = calculateTrend data windowSize := by
  unfold calculateTrendF calculateTrend
  simp only [trendLoopF_exact]
  simp [exactOps]

theorem calculateStdDevF_exact {α : Type} [LinearOrderedField α] (sqrt : α → α)
    (data : List α) (windowSize : Int) :
    calculateStdDevF (exactOps sqrt) data windowSize = calculateStdDev sqrt data windowSize := by
  unfold calculateStdDevF calculateStdDev
  simp [exactOps]

theorem forecastStepF_exact {α : Type} [LinearOrderedField α] (sqrt : α → α)
    (lastValue trend stdDev : α) (i : Nat) :
    forecastStepF (exactOps sqrt) lastValue trend stdDev i =
      forecastStep lastValue trend stdDev i := by
  unfold forecastStepF forecastStep
  simp only [exactOps, Rat.cast_natCast, Rat.cast_zero, decide_eq_true_eq]
  norm_num

/-- At the exact arithmetic the generic forecaster is `MovingAverageForecast`. -/
theorem MovingAverageForecastF_exact {α : Type} [LinearOrderedField α] (sqrt : α → α)
    (historical : List α) (periodsAhead windowSize : Int) :
    MovingAverageForecastF (exactOps sqrt) historical periodsAhead windowSize =
      MovingAverageForecast sqrt historical periodsAhead windowSize := by
  unfold MovingAverageForecastF MovingAverageForecast
  simp only [calculateTrendF_exact, calculateStdDevF_exact, forecastStepF_exact]
  simp [exactOps]

/-! ## Overflow in binary64: a NaN passes the clamp -/

/-- C5: in binary64, on the finite non-negative series `[0, 1.7e308]` with `periodsAhead = 1`
and `windowSize = 2`, the trend and the dispersion overflow to `+Inf`, the lower bound is
`Inf - Inf = NaN`, the test `lowerBound < 0` is false on NaN, and the projected point is
returned with `Predicted = +Inf` and `LowerBound = NaN`, which is not `≥ 0`. -/
theorem MovingAverageForecastF_lower_bound_nan :
    F64.ofRat (17 * 10 ^ 307) = F64.fin (round64 (17 * 10 ^ 307)) ∧
    calculateTrendF binary64 [F64.ofRat 0, F64.ofRat (17 * 10 ^ 307)] 2 = F64.inf false ∧
    calculateStdDevF binary64 [F64.ofRat 0, F64.ofRat (17 * 10 ^ 307)] 2 = F64.inf false ∧
    MovingAverageForecastF binary64 [F64.ofRat 0, F64.ofRat (17 * 10 ^ 307)] 1 2 =
      some [{ Period := "", Predicted := F64.ofRat 0, LowerBound := F64.ofRat 0,
              UpperBound := F64.ofRat 0, Historical := true },
            { Period := "", Predicted := F64.ofRat (17 * 10 ^ 307),
              LowerBound := F64.ofRat (17 * 10 ^ 307),
              UpperBound := F64.ofRat (17 * 10 ^ 307), Historical := true },
            { Period := "", Predicted := F64.inf false, LowerBound := F64.nan,
              UpperBound := F64.inf false, Historical := false }] ∧
    F64.lt F64.nan (F64.ofRat 0) = false ∧
    F64.le (F64.ofRat 0) F64.nan = false := by
  decide!

/-- C23: in binary64, on `[0, 1.7e308]` with `periodsAhead = 1` and `windowSize = 2`, the
projected point has `LowerBound = NaN` and `Predicted = +Inf`, so `LowerBound ≤ Predicted`
is false. -/
theorem MovingAverageForecastF_lower_not_le_predicted :
    (MovingAverageForecastF binary64 [F64.ofRat 0, F64.ofRat (17 * 10 ^ 307)] 1 2).map
        (fun results => (results.drop 2).map
          (fun r => (r.Historical, r.LowerBound, r.Predicted, F64.le r.LowerBound r.Predicted))) =
      some [(false, F64.nan, F64.inf false, false)] := by
  decide!

/-! ## Rounding in binary64: a constant window -/

/-- C7 as stated fails in binary64: on the series of five observations `0.7` with
`periodsAhead = 3` and `windowSize = 5`, `calculateTrend` returns `-2^-106 * 5764607523034235`
(about `-1.42e-16`) and the three predictions are below `0.7`; on three observations `0.1`
with `windowSize = 3`, `calculateStdDev` returns `2^-56` (about `1.39e-17`) and the lower and
upper bounds differ. -/
theorem MovingAverageForecastF_constant_window_rounding :
    (F64.ofRat 0.7 = F64.fin (3152519739159347 / 4503599627370496) ∧
      F64.le (F64.ofRat 0) (F64.ofRat 0.7) = true ∧
      calculateTrendF binary64 (List.replicate 5 (F64.ofRat 0.7)) 5 =
        F64.fin (-5764607523034235 / 40564819207303340847894502572032) ∧
      (MovingAverageForecastF binary64 (List.replicate 5 (F64.ofRat 0.7)) 3 5).map
          (fun results => (results.drop 5).map
            (fun r => (r.Historical, r.Predicted, F64.lt r.Predicted (F64.ofRat 0.7)))) =
        some [(false, F64.fin (6305039478318693 / 9007199254740992), true),
              (false, F64.fin (6305039478318691 / 9007199254740992), true),
              (false, F64.fin (3152519739159345 / 4503599627370496), true)]) ∧
    (F64.ofRat 0.1 = F64.fin (3602879701896397 / 36028797018963968) ∧
      F64.le (F64.ofRat 0) (F64.ofRat 0.1) = true ∧
      calculateStdDevF binary64 (List.replicate 3 (F64.ofRat 0.1)) 3 =
        F64.fin (1 / 72057594037927936) ∧
      (MovingAverageForecastF binary64 (List.replicate 3 (F64.ofRat 0.1)) 2 3).map
          (fun results => (results.drop 3).map
            (fun r => (r.Historical, r.LowerBound, r.Predicted, r.UpperBound))) =
        some [(false, F64.fin (7205759403792793 / 72057594037927936),
                F64.fin (3602879701896397 / 36028797018963968),
                F64.fin (7205759403792795 / 72057594037927936)),
              (false, F64.fin (7205759403792793 / 72057594037927936),
                F64.fin (3602879701896397 / 36028797018963968),
                F64.fin (7205759403792795 / 72057594037927936))]) := by
  decide!

/-- On a window of equal small integers nothing is rounded: in binary64, on `[1, 7, 7, 7]`
with `periodsAhead = 2` and `windowSize = 3`, the trend and the dispersion are `0` and both
projected points are `7` three times. -/
theorem MovingAverageForecastF_constant_integer_window :
    calculateTrendF binary64 [F64.ofRat 1, F64.ofRat 7, F64.ofRat 7, F64.ofRat 7] 3 =
      F64.fin 0 ∧
    calculateStdDevF binary64 [F64.ofRat 1, F64.ofRat 7, F64.ofRat 7, F64.ofRat 7] 3 =
      F64.fin 0 ∧
    (MovingAverageForecastF binary64
        [F64.ofRat 1, F64.ofRat 7, F64.ofRat 7, F64.ofRat 7] 2 3).map
        (fun results => (results.drop 4).map
          (fun r => (r.Historical, r.LowerBound, r.Predicted, r.UpperBound))) =
      some [(false, F64.fin 7, F64.fin 7, F64.fin 7), (false, F64.fin 7, F64.fin 7, F64.fin 7)] := by
  decide!

theorem MovingAverageForecast_width_mono_witness :
    ∃ results ri rj,
      MovingAverageForecast Real.sqrt ([10, 12, 14, 16, 18] : List ℝ) 3 5 = some results ∧
      results[([10, 12, 14, 16, 18] : List ℝ).length + 1 - 1]? = some ri ∧
      results[([10, 12, 14, 16, 18] : List ℝ).length + 3 - 1]? = some rj ∧
      ri.UpperBound - ri.LowerBound ≤ rj.UpperBound - rj.LowerBound :=
  MovingAverageForecast_width_mono ([10, 12, 14, 16, 18] : List ℝ) 3 5 (by simp) 1 3
    (by decide) (by decide) (by decide) _ _ _ rfl rfl rfl
    (Or.inr (by
      have h5 : max 2 (min (5 : Int) ((([10, 12, 14, 16, 18] : List ℝ).length : Nat) : Int)) =
          5 := by decide
      have hd := calculateStdDev_nonneg ([10, 12, 14, 16, 18] : List ℝ) 5
      rw [h5, calculateTrend_scenario]
      linarith))

/-- In binary64 the same narrowing is returned on `[3, 0, 3, 0]` with `periodsAhead = 2` and
`windowSize = 4`: both lower bounds are `0` and the upper bound falls from
`1.2000000000000002` to `0.9000000000000001`. -/
theorem MovingAverageForecastF_interval_narrows :
    (MovingAverageForecastF binary64
        [F64.ofRat 3, F64.ofRat 0, F64.ofRat 3, F64.ofRat 0] 2 4).map
        (fun results => (results.drop 4).map
          (fun r => (r.Historical, r.LowerBound, r.UpperBound))) =
      some [(false, F64.fin 0, F64.fin (2702159776422297 / 2251799813685248)),
            (false, F64.fin 0, F64.fin (4053239664633445 / 4503599627370496))] ∧
    F64.lt (F64.fin (4053239664633445 / 4503599627370496))
      (F64.fin (2702159776422297 / 2251799813685248)) = true := by
  decide!

/-! ## Whole-number windows in binary64

Whole numbers below `2 ^ 53` are binary64 numbers, and a sum or product of whole numbers that
stays below `2 ^ 53` is computed without rounding.  On a trailing window of equal whole
numbers the sums of `calculateTrend` and `calculateStdDev` are such numbers, so the zeros of
the exact reading are the zeros of the `float64` code. -/

theorem log2Loop_spec : ∀ (fuel n : Nat), 1 ≤ n → n ≤ fuel →
    2 ^ log2Loop fuel n ≤ n ∧ n < 2 ^ (log2Loop fuel n + 1) := by
  intro fuel
  induction fuel with
  | zero => intro n h1 h2; omega
  | succ f ih =>
    intro n h1 h2
    unfold log2Loop
    by_cases hn : n < 2
    · rw [if_pos hn]
      have : n = 1 := by omega
      subst this
      simp
    · rw [if_neg hn]
      obtain ⟨hlo, hhi⟩ := ih (n / 2) (by omega) (by omega)
      rw [pow_succ] at hhi
      constructor
      · rw [pow_succ]; omega
      · rw [pow_succ, pow_succ]; omega

theorem log2_spec (n : Nat) (h1 : 1 ≤ n) : 2 ^ log2 n ≤ n ∧ n < 2 ^ (log2 n + 1) :=
  log2Loop_spec n n h1 (le_refl n)

theorem log2_lt (n z : Nat) (h1 : 1 ≤ n) (hz : n < 2 ^ z) : log2 n < z := by
  have h := (log2_spec n h1).1
  exact (Nat.pow_lt_pow_iff_right (by norm_num : 1 < 2)).mp (lt_of_le_of_lt h hz)

theorem roundQuot_one (n : Nat) : roundQuot n 1 = n := by
  simp [roundQuot, Nat.mod_one]

theorem pow2_eq_zpow (k : Int) : pow2 k = (2 : ℚ) ^ k := by
  unfold pow2
  split_ifs with h
  · obtain ⟨m, rfl⟩ := Int.eq_ofNat_of_zero_le h
    simp
  · obtain ⟨m, hm⟩ := Int.eq_ofNat_of_zero_le (show 0 ≤ -k by omega)
    have hk : k = -(m : Int) := by omega
    subst hk
    simp

theorem round64_zero : round64 0 = 0 := by
  simp [round64]

theorem F64.ofRat_zero : F64.ofRat 0 = F64.fin 0 := by
  unfold F64.ofRat
  rw [round64_zero]
  norm_num

theorem round64_natCast (z : Nat) (hz : z < 2 ^ 53) : round64 (z : ℚ) = (z : ℚ) := by
  by_cases h0 : z = 0
  · subst h0
    simpa using round64_zero
  · have h1 : 1 ≤ z := by omega
    have hl := log2_spec z h1
    have hl53 : log2 z < 53 := log2_lt z 53 h1 hz
    have hfl : floorLog2 z 1 = (log2 z : Int) := by
      have h11 : log2 1 = 0 := by decide
      unfold floorLog2
      simp only [h11, Nat.cast_zero, sub_zero, Int.natCast_nonneg, if_true, Int.toNat_ofNat,
        one_mul]
      rw [if_pos hl.1]
    have hz0 : (z : ℚ) ≠ 0 := by exact_mod_cast h0
    have hzneg : ¬ ((z : ℚ) < 0) := not_lt.mpr (Nat.cast_nonneg z)
    unfold round64
    simp only [hz0, if_false, Rat.num_natCast, Int.natAbs_ofNat, Rat.den_natCast, hfl, hzneg]
    have hk : max ((log2 z : Int) - 52) (-1074) = (log2 z : Int) - 52 := by omega
    rw [hk]
    by_cases hk0 : 0 ≤ (log2 z : Int) - 52
    · have h52 : log2 z = 52 := by omega
      simp [h52, roundQuot_one, pow2_eq_zpow]
    · rw [if_neg hk0, roundQuot_one, pow2_eq_zpow]
      have hn : (-((log2 z : Int) - 52)).toNat = 52 - log2 z := by omega
      have hk2 : ((log2 z : Int) - 52) = -((52 - log2 z : Nat) : Int) := by omega
      rw [hn, hk2, zpow_neg, zpow_natCast]
      push_cast
      field_simp

theorem F64.ofRat_natCast (z : Nat) (hz : z < 2 ^ 53) : F64.ofRat (z : ℚ) = F64.fin (z : ℚ) := by
  have hzq : (z : ℚ) < 2 ^ 53 := by exact_mod_cast hz
  have h1 : ¬ ((2 : ℚ) ^ 1024 ≤ (z : ℚ)) := by
    have : (2 : ℚ) ^ 53 ≤ 2 ^ 1024 := pow_le_pow_right₀ (by norm_num) (by norm_num)
    intro h
    linarith
  have h2 : ¬ ((z : ℚ) ≤ -(2 : ℚ) ^ 1024) := by
    have : (0 : ℚ) < 2 ^ 1024 := by positivity
    have : (0 : ℚ) ≤ (z : ℚ) := Nat.cast_nonneg z
    intro h
    linarith
  unfold F64.ofRat
  simp only [round64_natCast z hz, h1, h2, if_false]

theorem F64.add_natCast (a b : Nat) (h : a + b < 2 ^ 53) :
    F64.add (F64.fin (a : ℚ)) (F64.fin (b : ℚ)) = F64.fin ((a + b : Nat) : ℚ) := by
  have := F64.ofRat_natCast (a + b) h
  simpa [F64.add] using this

theorem F64.mul_natCast (a b : Nat) (h : a * b < 2 ^ 53) :
    F64.mul (F64.fin (a : ℚ)) (F64.fin (b : ℚ)) = F64.fin ((a * b : Nat) : ℚ) := by
  have := F64.ofRat_natCast (a * b) h
  simpa [F64.mul] using this

theorem F64.sub_fin (a b : ℚ) : F64.sub (F64.fin a) (F64.fin b) = F64.ofRat (a - b) := by
  simp [F64.sub, F64.add, F64.neg, sub_eq_add_neg]

theorem F64.sub_self_fin (a : ℚ) : F64.sub (F64.fin a) (F64.fin a) = F64.fin 0 := by
  rw [F64.sub_fin, sub_self, F64.ofRat_zero]

theorem F64.div_zero_fin (d : ℚ) (hd : d ≠ 0) : F64.div (F64.fin 0) (F64.fin d) = F64.fin 0 := by
  simp [F64.div, hd, F64.ofRat_zero]

theorem F64.div_mul_natCast (n c : Nat) (hn : n ≠ 0) (hc : c < 2 ^ 53) :
    F64.div (F64.fin ((n * c : Nat) : ℚ)) (F64.fin (n : ℚ)) = F64.fin (c : ℚ) := by
  have hnq : (n : ℚ) ≠ 0 := by exact_mod_cast hn
  have e : (((n * c : Nat) : ℚ)) / (n : ℚ) = (c : ℚ) := by
    push_cast
    field_simp
  simp only [F64.div, hnq, if_false, e]
  exact F64.ofRat_natCast c hc

theorem sum_range_shift (f : Nat → Nat) (m i : Nat) :
    ∑ k ∈ Finset.range (m + 1), f (i + k) = f i + ∑ k ∈ Finset.range m, f (i + 1 + k) := by
  rw [Finset.sum_range_succ', add_zero, add_comm]
  congr 1
  refine Finset.sum_congr rfl (fun k _ => ?_)
  congr 1
  omega

theorem trendLoopF_const (c : Nat) : ∀ (m i X Y X2 : Nat),
    X + ∑ k ∈ Finset.range m, (i + k) < 2 ^ 53 →
    Y + m * c < 2 ^ 53 →
    c * (X + ∑ k ∈ Finset.range m, (i + k)) < 2 ^ 53 →
    X2 + ∑ k ∈ Finset.range m, (i + k) * (i + k) < 2 ^ 53 →
    trendLoopF binary64 (List.replicate m (F64.fin (c : ℚ))) i
        { sumX := F64.fin (X : ℚ), sumY := F64.fin (Y : ℚ),
          sumXY := F64.fin ((c * X : Nat) : ℚ), sumX2 := F64.fin (X2 : ℚ) } =
      { sumX := F64.fin ((X + ∑ k ∈ Finset.range m, (i + k) : Nat) : ℚ),
        sumY := F64.fin ((Y + m * c : Nat) : ℚ),
        sumXY := F64.fin ((c * (X + ∑ k ∈ Finset.range m, (i + k)) : Nat) : ℚ),
        sumX2 := F64.fin ((X2 + ∑ k ∈ Finset.range m, (i + k) * (i + k) : Nat) : ℚ) } := by
  intro m
  induction m with
  | zero =>
    intro i X Y X2 _ _ _ _
    simp [trendLoopF]
  | succ m ih =>
    intro i X Y X2 hX hY hXY hX2
    have e1 := sum_range_shift (fun k => k) m i
    have e2 := sum_range_shift (fun k => k * k) m i
    simp only [] at e1 e2
    rw [e1] at hX hXY
    rw [e2] at hX2
    rw [Nat.succ_mul] at hY
    have hi : i < 2 ^ 53 := by omega
    have hci : c * i ≤ c * (X + (i + ∑ k ∈ Finset.range m, (i + 1 + k))) :=
      Nat.mul_le_mul_left c (by omega)
    have hic : i * c < 2 ^ 53 := by rw [Nat.mul_comm]; omega
    have hii : i * i < 2 ^ 53 := by omega
    have hcX : c * X ≤ c * (X + (i + ∑ k ∈ Finset.range m, (i + 1 + k))) :=
      Nat.mul_le_mul_left c (by omega)
    have hsum : c * X + i * c = c * (X + i) := by ring
    have hcXi : c * (X + i) ≤ c * (X + (i + ∑ k ∈ Finset.range m, (i + 1 + k))) :=
      Nat.mul_le_mul_left c (by omega)
    rw [List.replicate_succ, trendLoopF]
    simp only [binary64]
    rw [F64.ofRat_natCast i hi, F64.add_natCast X i (by omega), F64.add_natCast Y c (by omega),
      F64.mul_natCast i c hic, F64.add_natCast (c * X) (i * c) (by omega),
      F64.mul_natCast i i hii, F64.add_natCast X2 (i * i) (by omega), hsum]
    have h := ih (i + 1) (X + i) (Y + c) (X2 + i * i) (by omega) (by omega)
      (by
        have : c * (X + i + ∑ k ∈ Finset.range m, (i + 1 + k)) =
            c * (X + (i + ∑ k ∈ Finset.range m, (i + 1 + k))) := by
          congr 1; omega
        omega)
      (by omega)
    simp only [binary64] at h
    rw [h, e1, e2, Nat.succ_mul]
    have a1 : X + i + ∑ k ∈ Finset.range m, (i + 1 + k) =
        X + (i + ∑ k ∈ Finset.range m, (i + 1 + k)) := by omega
    have a2 : Y + c + m * c = Y + (m * c + c) := by omega
    have a3 : X2 + i * i + ∑ k ∈ Finset.range m, (i + 1 + k) * (i + 1 + k) =
        X2 + (i * i + ∑ k ∈ Finset.range m, (i + 1 + k) * (i + 1 + k)) := by omega
    rw [a1, a2, a3]

theorem binary64_ofRat : binary64.ofRat = F64.ofRat := rfl

theorem binary64_add : binary64.add = F64.add := rfl

theorem binary64_sub : binary64.sub = F64.sub := rfl

theorem binary64_mul : binary64.mul = F64.mul := rfl

theorem binary64_div : binary64.div = F64.div := rfl

theorem binary64_sqrt : binary64.sqrt = F64.sqrt := rfl

theorem binary64_lt : binary64.lt = F64.lt := rfl

theorem binary64_eq : binary64.eq = F64.beq := rfl

theorem sum_idx_le (n : Nat) : ∑ k ∈ Finset.range n, k ≤ n * n := by
  calc ∑ k ∈ Finset.range n, k ≤ ∑ _k ∈ Finset.range n, n :=
        Finset.sum_le_sum (fun k hk => le_of_lt (Finset.mem_range.mp hk))
    _ = n * n := by simp

theorem sum_idx_sq_le (n : Nat) : ∑ k ∈ Finset.range n, k * k ≤ n * (n * n) := by
  calc ∑ k ∈ Finset.range n, k * k ≤ ∑ _k ∈ Finset.range n, n * n :=
        Finset.sum_le_sum (fun k hk =>
          Nat.mul_le_mul (le_of_lt (Finset.mem_range.mp hk)) (le_of_lt (Finset.mem_range.mp hk)))
    _ = n * (n * n) := by simp

theorem sum_idx_sq_gap (n : Nat) (hn2 : 2 ≤ n) :
    (∑ k ∈ Finset.range n, k) * (∑ k ∈ Finset.range n, k) <
      n * ∑ k ∈ Finset.range n, k * k := by
  have h := slope_denominator_pos (α := ℚ) n hn2
  have h' : (((∑ k ∈ Finset.range n, k) * (∑ k ∈ Finset.range n, k) : Nat) : ℚ) <
      ((n * ∑ k ∈ Finset.range n, k * k : Nat) : ℚ) := by
    push_cast
    linarith
  exact_mod_cast h'

/-- The sizes that the sums of a constant window of `n` observations `c` can reach. -/
theorem window_bounds (c n : Nat) (hn1 : 1 ≤ n) (hB : (c + 1) * n ^ 4 < 2 ^ 53) :
    n < 2 ^ 53 ∧ c < 2 ^ 53 ∧ n * c < 2 ^ 53 ∧ n * n < 2 ^ 53 ∧ n * (n * n) < 2 ^ 53 ∧
    c * (n * n) < 2 ^ 53 ∧ n * (c * (n * n)) < 2 ^ 53 ∧ n * (n * (n * n)) < 2 ^ 53 := by
  have h1 : n ≤ n ^ 4 := by
    calc n = n ^ 1 := (pow_one n).symm
      _ ≤ n ^ 4 := Nat.pow_le_pow_right hn1 (by norm_num)
  have h2 : n * n ≤ n ^ 4 := by
    calc n * n = n ^ 2 := by ring
      _ ≤ n ^ 4 := Nat.pow_le_pow_right hn1 (by norm_num)
  have h3 : n * (n * n) ≤ n ^ 4 := by
    calc n * (n * n) = n ^ 3 := by ring
      _ ≤ n ^ 4 := Nat.pow_le_pow_right hn1 (by norm_num)
  have h4 : n * (n * (n * n)) = n ^ 4 := by ring
  have hpos : 1 ≤ n ^ 4 := Nat.one_le_pow _ _ hn1
  have e : (c + 1) * n ^ 4 = c * n ^ 4 + n ^ 4 := by ring
  have c1 : c * n ≤ c * n ^ 4 := Nat.mul_le_mul_left c h1
  have c2 : c * (n * n) ≤ c * n ^ 4 := Nat.mul_le_mul_left c h2
  have c3 : c * (n * (n * n)) ≤ c * n ^ 4 := Nat.mul_le_mul_left c h3
  have c0 : c ≤ c * n ^ 4 := Nat.le_mul_of_pos_right c hpos
  have e1 : n * c = c * n := Nat.mul_comm n c
  have e3 : n * (c * (n * n)) = c * (n * (n * n)) := by ring
  refine ⟨by omega, by omega, by omega, by omega, by omega, by omega, by omega, by omega⟩

theorem calculateTrendF_const (data : List F64) (windowSize : Int) (n c : Nat) (hn2 : 2 ≤ n)
    (hn : (n : Int) = min windowSize data.length)
    (hwin : data.drop (data.length - n) = List.replicate n (F64.fin (c : ℚ)))
    (hB : (c + 1) * n ^ 4 < 2 ^ 53) :
    calculateTrendF binary64 data windowSize = F64.fin 0 := by
  obtain ⟨b1, b2, b3, b4, b5, b6, b7, b8⟩ := window_bounds c n (by omega) hB
  have hSX := sum_idx_le n
  have hSX2 := sum_idx_sq_le n
  have hgap := sum_idx_sq_gap n hn2
  have heff : (if (data.length : Int) < windowSize then (data.length : Int) else windowSize) =
      (n : Int) := by
    split_ifs <;> omega
  have hidx : ((data.length : Int) - (n : Int)).toNat = data.length - n := by omega
  have hs0 : ∑ k ∈ Finset.range n, (0 + k) = ∑ k ∈ Finset.range n, k := by simp
  have hs2 : ∑ k ∈ Finset.range n, (0 + k) * (0 + k) = ∑ k ∈ Finset.range n, k * k := by simp
  have hcS : c * ∑ k ∈ Finset.range n, k ≤ c * (n * n) := Nat.mul_le_mul_left c hSX
  have hncS : n * (c * ∑ k ∈ Finset.range n, k) ≤ n * (c * (n * n)) :=
    Nat.mul_le_mul_left n hcS
  have hnS2 : n * ∑ k ∈ Finset.range n, k * k ≤ n * (n * (n * n)) :=
    Nat.mul_le_mul_left n hSX2
  have hloop := trendLoopF_const c n 0 0 0 0 (by simp only [Nat.zero_add]; omega) (by omega)
    (by simp only [Nat.zero_add]; omega) (by simp only [Nat.zero_add]; omega)
  simp only [Nat.zero_add, Nat.mul_zero, Nat.cast_zero] at hloop
  have hcomm : (∑ k ∈ Finset.range n, k) * (n * c) = n * (c * ∑ k ∈ Finset.range n, k) := by
    ring
  unfold calculateTrendF
  simp only [heff, hidx, hwin, List.length_replicate]
  rw [if_neg (by omega)]
  rw [binary64_ofRat, binary64_sub, binary64_mul, binary64_div, binary64_eq, F64.ofRat_zero]
  rw [hloop, F64.ofRat_natCast n b1,
    F64.mul_natCast n (c * ∑ k ∈ Finset.range n, k) (by omega),
    F64.mul_natCast (∑ k ∈ Finset.range n, k) (n * c) (by rw [hcomm]; omega),
    F64.mul_natCast n (∑ k ∈ Finset.range n, k * k) (by omega),
    F64.mul_natCast (∑ k ∈ Finset.range n, k) (∑ k ∈ Finset.range n, k) (by omega),
    hcomm, F64.sub_self_fin, F64.sub_fin, ← Nat.cast_sub (le_of_lt hgap),
    F64.ofRat_natCast _ (by omega)]
  have hD : ((n * ∑ k ∈ Finset.range n, k * k -
      (∑ k ∈ Finset.range n, k) * ∑ k ∈ Finset.range n, k : Nat) : ℚ) ≠ 0 := by
    have : n * ∑ k ∈ Finset.range n, k * k -
        (∑ k ∈ Finset.range n, k) * ∑ k ∈ Finset.range n, k ≠ 0 := by omega
    exact_mod_cast this
  have hbeq : F64.beq (F64.fin ((n * ∑ k ∈ Finset.range n, k * k -
      (∑ k ∈ Finset.range n, k) * ∑ k ∈ Finset.range n, k : Nat) : ℚ)) (F64.fin 0) = false := by
    simp only [F64.beq, decide_eq_false_iff_not]
    exact hD
  rw [hbeq, if_neg (by decide)]
  exact F64.div_zero_fin _ hD

theorem foldl_add_const (c : Nat) : ∀ (m Y : Nat), Y + m * c < 2 ^ 53 →
    (List.replicate m (F64.fin (c : ℚ))).foldl (fun mean value => F64.add mean value)
        (F64.fin (Y : ℚ)) = F64.fin ((Y + m * c : Nat) : ℚ) := by
  intro m
  induction m with
  | zero => intro Y _; simp
  | succ m ih =>
    intro Y hY
    rw [Nat.succ_mul] at hY
    rw [List.replicate_succ, List.foldl_cons, F64.add_natCast Y c (by omega),
      ih (Y + c) (by omega), Nat.succ_mul]
    congr 2
    omega

theorem foldl_sq_dev_const (c : ℚ) : ∀ (m : Nat),
    (List.replicate m (F64.fin c)).foldl (fun variance value =>
        F64.add variance (F64.mul (F64.sub value (F64.fin c)) (F64.sub value (F64.fin c))))
        (F64.fin 0) = F64.fin 0 := by
  intro m
  induction m with
  | zero => simp
  | succ m ih =>
    have e : F64.add (F64.fin 0) (F64.mul (F64.fin 0) (F64.fin 0)) = F64.fin 0 := by
      simp [F64.add, F64.mul, F64.ofRat_zero]
    rw [List.replicate_succ, List.foldl_cons, F64.sub_self_fin, e, ih]

theorem sqrt64_zero : sqrt64 0 = 0 := by
  simp [sqrt64]

theorem calculateStdDevF_const (data : List F64) (windowSize : Int) (n c : Nat) (hn2 : 2 ≤ n)
    (hn : (n : Int) = min windowSize data.length)
    (hwin : data.drop (data.length - n) = List.replicate n (F64.fin (c : ℚ)))
    (hB : (c + 1) * n ^ 4 < 2 ^ 53) :
    calculateStdDevF binary64 data windowSize = F64.fin 0 := by
  obtain ⟨b1, b2, b3, _, _, _, _, _⟩ := window_bounds c n (by omega) hB
  have heff : (if (data.length : Int) < windowSize then (data.length : Int) else windowSize) =
      (n : Int) := by
    split_ifs <;> omega
  have hidx : ((data.length : Int) - (n : Int)).toNat = data.length - n := by omega
  have hmean := foldl_add_const c n 0 (by omega)
  simp only [Nat.zero_add, Nat.cast_zero] at hmean
  have hnq : (n : ℚ) ≠ 0 := by
    have : n ≠ 0 := by omega
    exact_mod_cast this
  unfold calculateStdDevF
  simp only [heff, hidx, hwin, List.length_replicate]
  rw [if_neg (by omega)]
  rw [binary64_ofRat, binary64_add, binary64_sub, binary64_mul, binary64_div, binary64_sqrt,
    F64.ofRat_zero, hmean, F64.ofRat_natCast n b1, F64.div_mul_natCast n c (by omega) b2,
    foldl_sq_dev_const, F64.div_zero_fin _ hnq]
  simp [F64.sqrt, sqrt64_zero]

/-! ### The size of a rounded number -/

theorem roundQuot_le (n d : Nat) : roundQuot n d ≤ n / d + 1 := by
  unfold roundQuot
  simp only
  split_ifs <;> omega

theorem roundQuot_cast_le (n d : Nat) : (roundQuot n d : ℚ) ≤ (n : ℚ) / (d : ℚ) + 1 := by
  have h1 : ((roundQuot n d : Nat) : ℚ) ≤ ((n / d + 1 : Nat) : ℚ) := by
    exact_mod_cast roundQuot_le n d
  have h2 : ((n / d : Nat) : ℚ) ≤ (n : ℚ) / (d : ℚ) := Nat.cast_div_le
  push_cast at h1
  linarith

theorem floorLog2_le (a b : Nat) (ha : 1 ≤ a) (hb : 1 ≤ b) :
    (2 : ℚ) ^ (floorLog2 a b) ≤ (a : ℚ) / (b : ℚ) := by
  have hA : (2 : ℚ) ^ (log2 a) ≤ (a : ℚ) := by exact_mod_cast (log2_spec a ha).1
  have hB : (b : ℚ) ≤ (2 : ℚ) ^ (log2 b + 1) := by
    exact_mod_cast le_of_lt (log2_spec b hb).2
  have hbq : (0 : ℚ) < (b : ℚ) := by exact_mod_cast hb
  have haq : (0 : ℚ) ≤ (a : ℚ) := Nat.cast_nonneg a
  have hlow : (2 : ℚ) ^ ((log2 a : Int) - (log2 b : Int) - 1) ≤ (a : ℚ) / (b : ℚ) := by
    have e : (log2 a : Int) - (log2 b : Int) - 1 =
        (log2 a : Int) - ((log2 b + 1 : Nat) : Int) := by
      push_cast
      ring
    rw [e, zpow_sub₀ (by norm_num : (2 : ℚ) ≠ 0), zpow_natCast, zpow_natCast]
    exact div_le_div₀ haq hA hbq hB
  unfold floorLog2
  simp only
  by_cases h0 : 0 ≤ (log2 a : Int) - (log2 b : Int)
  · simp only [h0, if_true]
    split_ifs with hc
    · obtain ⟨t, ht⟩ := Int.eq_ofNat_of_zero_le h0
      rw [ht] at hc ⊢
      simp only [Int.toNat_ofNat] at hc
      have hc' : (b : ℚ) * (2 : ℚ) ^ t ≤ (a : ℚ) := by exact_mod_cast hc
      rw [zpow_natCast, le_div_iff₀ hbq]
      linarith
    · exact hlow
  · simp only [h0, if_false]
    split_ifs with hc
    · obtain ⟨t, ht⟩ := Int.eq_ofNat_of_zero_le
        (show 0 ≤ -((log2 a : Int) - (log2 b : Int)) by omega)
      have ht' : (log2 a : Int) - (log2 b : Int) = -(t : Int) := by omega
      rw [ht] at hc
      rw [ht']
      simp only [Int.toNat_ofNat] at hc
      have hc' : (b : ℚ) ≤ (a : ℚ) * (2 : ℚ) ^ t := by exact_mod_cast hc
      have hp : (0 : ℚ) < (2 : ℚ) ^ t := by positivity
      rw [zpow_neg, zpow_natCast, le_div_iff₀ hbq, inv_mul_le_iff₀ hp]
      linarith
    · exact hlow

theorem roundQuot_scaled_le (A B : Nat) (hB : 0 < B) (k : Int) :
    ((if 0 ≤ k then roundQuot A (B * 2 ^ k.toNat)
      else roundQuot (A * 2 ^ (-k).toNat) B : Nat) : ℚ) * pow2 k ≤
      (A : ℚ) / (B : ℚ) + pow2 k := by
  have hbq : (0 : ℚ) < (B : ℚ) := by exact_mod_cast hB
  split_ifs with h0
  · have hm := roundQuot_cast_le A (B * 2 ^ k.toNat)
    have hp : (0 : ℚ) < (2 : ℚ) ^ k.toNat := by positivity
    have hpk : pow2 k = (2 : ℚ) ^ k.toNat := by
      unfold pow2
      rw [if_pos h0]
      push_cast
      rfl
    rw [hpk]
    push_cast at hm
    have e : ((A : ℚ) / ((B : ℚ) * (2 : ℚ) ^ k.toNat) + 1) * (2 : ℚ) ^ k.toNat =
        (A : ℚ) / (B : ℚ) + (2 : ℚ) ^ k.toNat := by
      field_simp
      ring
    calc _ ≤ ((A : ℚ) / ((B : ℚ) * (2 : ℚ) ^ k.toNat) + 1) * (2 : ℚ) ^ k.toNat :=
          mul_le_mul_of_nonneg_right hm (le_of_lt hp)
      _ = _ := e
  · have hm := roundQuot_cast_le (A * 2 ^ (-k).toNat) B
    have hp : (0 : ℚ) < (2 : ℚ) ^ (-k).toNat := by positivity
    have hpk : pow2 k = 1 / (2 : ℚ) ^ (-k).toNat := by
      unfold pow2
      rw [if_neg h0]
      push_cast
      rfl
    rw [hpk]
    push_cast at hm
    have e : ((A : ℚ) * (2 : ℚ) ^ (-k).toNat / (B : ℚ) + 1) *
        (1 / (2 : ℚ) ^ (-k).toNat) = (A : ℚ) / (B : ℚ) + 1 / (2 : ℚ) ^ (-k).toNat := by
      field_simp
    calc _ ≤ ((A : ℚ) * (2 : ℚ) ^ (-k).toNat / (B : ℚ) + 1) *
          (1 / (2 : ℚ) ^ (-k).toNat) :=
          mul_le_mul_of_nonneg_right hm (by positivity)
      _ = _ := e

/-- A positive number rounds to a number between `0` and `2 * q + 1`. -/
theorem round64_bound (q : ℚ) (hq : 0 < q) : 0 ≤ round64 q ∧ round64 q ≤ 2 * q + 1 := by
  have hnum : 0 < q.num := Rat.num_pos.mpr hq
  have ha : 1 ≤ q.num.natAbs := by omega
  have hb : 1 ≤ q.den := q.den_pos
  have hqab : (q.num.natAbs : ℚ) / (q.den : ℚ) = q := by
    have h1 : ((q.num.natAbs : Int) : ℚ) = (q.num : ℚ) := by
      rw [Int.natAbs_of_nonneg (le_of_lt hnum)]
    have h2 : ((q.num.natAbs : Int) : ℚ) = (q.num.natAbs : ℚ) := Int.cast_natCast _
    rw [← h2, h1]
    exact Rat.num_div_den q
  have he := floorLog2_le q.num.natAbs q.den ha hb
  rw [hqab] at he
  have hk : pow2 (max (floorLog2 q.num.natAbs q.den - 52) (-1074)) ≤ q + 1 := by
    rw [pow2_eq_zpow]
    rcases max_cases (floorLog2 q.num.natAbs q.den - 52) (-1074) with ⟨h, _⟩ | ⟨h, _⟩
    · rw [h]
      have : (2 : ℚ) ^ (floorLog2 q.num.natAbs q.den - 52) ≤
          (2 : ℚ) ^ (floorLog2 q.num.natAbs q.den) :=
        zpow_le_zpow_right₀ (by norm_num) (by omega)
      linarith
    · rw [h]
      have : (2 : ℚ) ^ (-1074 : Int) ≤ (2 : ℚ) ^ (0 : Int) :=
        zpow_le_zpow_right₀ (by norm_num) (by omega)
      rw [zpow_zero] at this
      linarith
  have hk0 : 0 ≤ pow2 (max (floorLog2 q.num.natAbs q.den - 52) (-1074)) := by
    rw [pow2_eq_zpow]
    positivity
  have hr := roundQuot_scaled_le q.num.natAbs q.den hb
    (max (floorLog2 q.num.natAbs q.den - 52) (-1074))
  rw [hqab] at hr
  unfold round64
  simp only
  rw [if_neg (ne_of_gt hq), if_neg (not_lt.mpr (le_of_lt hq))]
  constructor
  · exact mul_nonneg (Nat.cast_nonneg _) hk0
  · linarith

/-- A number between `0` and `2 ^ 70` rounds to a finite `float64` between `0` and
`2 * q + 1`. -/
theorem F64.ofRat_fin_of_le (q : ℚ) (h0 : 0 ≤ q) (hq : q ≤ 2 ^ 70) :
    ∃ r, F64.ofRat q = F64.fin r ∧ 0 ≤ r ∧ r ≤ 2 * q + 1 := by
  rcases eq_or_lt_of_le h0 with h | h
  · subst h
    exact ⟨0, F64.ofRat_zero, le_refl 0, by norm_num⟩
  · obtain ⟨hr0, hr⟩ := round64_bound q h
    refine ⟨round64 q, ?_, hr0, hr⟩
    have hbig : (2 : ℚ) * 2 ^ 70 + 1 < 2 ^ 1024 := by
      have h1 : (2 : ℚ) ^ 72 ≤ 2 ^ 1024 := pow_le_pow_right₀ (by norm_num) (by norm_num)
      have h2 : (2 : ℚ) * 2 ^ 70 + 1 < 2 ^ 72 := by norm_num
      linarith
    have hpos : (0 : ℚ) < 2 ^ 1024 := by positivity
    unfold F64.ofRat
    simp only
    rw [if_neg (by linarith), if_neg (by linarith)]

theorem F64.mul_zero_fin (y : ℚ) : F64.mul (F64.fin 0) (F64.fin y) = F64.fin 0 := by
  simp [F64.mul, F64.ofRat_zero]

theorem F64.add_zero_natCast (c : Nat) (hc : c < 2 ^ 53) :
    F64.add (F64.fin (c : ℚ)) (F64.fin 0) = F64.fin (c : ℚ) := by
  have := F64.ofRat_natCast c hc
  simpa [F64.add] using this

theorem F64.sub_zero_natCast (c : Nat) (hc : c < 2 ^ 53) :
    F64.sub (F64.fin (c : ℚ)) (F64.fin 0) = F64.fin (c : ℚ) := by
  rw [F64.sub_fin, sub_zero]
  exact F64.ofRat_natCast c hc

/-- With trend `0` and dispersion `0` the projected point of a step `i` within the range of
`int` is the last observation, a whole number below `2 ^ 53`. -/
theorem forecastStepF_const (c i : Nat) (hc : c < 2 ^ 53) (hi : i < 2 ^ 63) :
    forecastStepF binary64 (F64.fin (c : ℚ)) (F64.fin 0) (F64.fin 0) i =
      { Period := "", Predicted := F64.fin (c : ℚ), LowerBound := F64.fin (c : ℚ),
        UpperBound := F64.fin (c : ℚ), Historical := false } := by
  have hiq : (i : ℚ) ≤ 2 ^ 63 := by exact_mod_cast le_of_lt hi
  obtain ⟨y, hy, hy0, hy1⟩ := F64.ofRat_fin_of_le (i : ℚ) (Nat.cast_nonneg i)
    (by linarith [show (2 : ℚ) ^ 63 ≤ 2 ^ 70 by norm_num])
  obtain ⟨u, hu, hu0, hu1⟩ := F64.ofRat_fin_of_le (0.2 : ℚ) (by norm_num) (by norm_num)
  have hone : F64.ofRat (1.0 : ℚ) = F64.fin 1 := by
    have := F64.ofRat_natCast 1 (by norm_num)
    have e : (1.0 : ℚ) = ((1 : Nat) : ℚ) := by norm_num
    rw [e, this]
    norm_num
  have hyu0 : 0 ≤ y * u := mul_nonneg hy0 hu0
  have hu2 : u ≤ 2 := by norm_num at hu1; linarith
  have hyu1 : y * u ≤ 2 ^ 66 := by
    have h1 : y ≤ 2 ^ 65 := by
      have : (2 : ℚ) * 2 ^ 63 + 1 ≤ 2 ^ 65 := by norm_num
      linarith
    calc y * u ≤ 2 ^ 65 * 2 := mul_le_mul h1 hu2 hu0 (by positivity)
      _ = 2 ^ 66 := by norm_num
  obtain ⟨z, hz, hz0, hz1⟩ := F64.ofRat_fin_of_le (y * u) hyu0
    (by linarith [show (2 : ℚ) ^ 66 ≤ 2 ^ 70 by norm_num])
  obtain ⟨m, hm, _, _⟩ := F64.ofRat_fin_of_le (1 + z) (by linarith)
    (by
      have : (1 : ℚ) + (2 * 2 ^ 66 + 1) ≤ 2 ^ 70 := by norm_num
      linarith)
  have hmul : F64.mul (F64.fin y) (F64.fin u) = F64.fin z := by
    simp only [F64.mul]
    exact hz
  have hadd : F64.add (F64.fin 1) (F64.fin z) = F64.fin m := by
    simp only [F64.add]
    exact hm
  have hlt : F64.lt (F64.fin (c : ℚ)) (F64.fin 0) = false := by
    simp [F64.lt]
  unfold forecastStepF
  simp only
  rw [binary64_ofRat, binary64_add, binary64_sub, binary64_mul, binary64_lt,
    hy, hu, hone, F64.ofRat_zero, F64.mul_zero_fin, F64.add_zero_natCast c hc, hmul, hadd,
    F64.mul_zero_fin, F64.sub_zero_natCast c hc, F64.add_zero_natCast c hc, hlt]
  simp

/-- The closed form of `MovingAverageForecastF` on a non-empty series whose `make` call
succeeds: the echoed observations followed by the projected points. -/
theorem MovingAverageForecastF_eq {F : Type} (ops : FloatOps F)
    (historical : List F) (periodsAhead windowSize : Int) (hne : historical ≠ [])
    (hcap : 0 ≤ (historical.length : Int) + periodsAhead) :
    MovingAverageForecastF ops historical periodsAhead windowSize =
      some (historical.map echoPoint ++
        (List.range' 1 periodsAhead.toNat).map
          (forecastStepF ops (historical.getD (historical.length - 1) (ops.ofRat 0))
            (calculateTrendF ops historical (clampWindow historical.length windowSize))
            (calculateStdDevF ops historical (clampWindow historical.length windowSize)))) := by
  have hlen : historical.length ≠ 0 := by
    intro h; exact hne (List.length_eq_zero.mp h)
  have hw : (if (if windowSize > (historical.length : Int) then (historical.length : Int)
      else windowSize) < 2 then 2
      else (if windowSize > (historical.length : Int) then (historical.length : Int)
      else windowSize)) = clampWindow historical.length windowSize := by
    unfold clampWindow
    split_ifs <;> omega
  unfold MovingAverageForecastF
  simp only [hlen, if_false, not_lt.mpr hcap, hw, foldl_append_singleton]
  rfl

theorem calculateTrendF_small_window {F : Type} (ops : FloatOps F) (data : List F)
    (windowSize : Int) (h : min windowSize (data.length : Int) < 2) :
    calculateTrendF ops data windowSize = ops.ofRat 0 := by
  have heff : (if (data.length : Int) < windowSize then (data.length : Int) else windowSize) < 2 := by
    split_ifs <;> omega
  unfold calculateTrendF
  simp only [heff, if_true]

theorem calculateStdDevF_small_window {F : Type} (ops : FloatOps F) (data : List F)
    (windowSize : Int) (h : min windowSize (data.length : Int) < 2) :
    calculateStdDevF ops data windowSize = ops.ofRat 0 := by
  have heff : (if (data.length : Int) < windowSize then (data.length : Int) else windowSize) < 2 := by
    split_ifs <;> omega
  unfold calculateStdDevF
  simp only [heff, if_true]

theorem mem_drop_of_le {β : Type} (l : List β) (a b : Nat) (hab : b ≤ a) (v : β)
    (hv : v ∈ l.drop a) : v ∈ l.drop b := by
  have e : l.drop a = (l.drop b).drop (a - b) := by
    rw [List.drop_drop]
    congr 1
    omega
  rw [e] at hv
  exact List.mem_of_mem_drop hv

/-- In binary64, a trailing window of equal whole numbers `c` gives trend `0` and dispersion
`0` exactly, when `(c + 1) * n ^ 4 < 2 ^ 53` for a bound `n` on the window length: every sum
of the two functions is then a whole number below `2 ^ 53`, which binary64 holds exactly. -/
theorem calculateF_const (data : List F64) (windowSize : Int) (n c : Nat)
    (hn : min windowSize (data.length : Int) ≤ (n : Int))
    (hconst : ∀ v ∈ data.drop (data.length - (min windowSize (data.length : Int)).toNat),
      v = F64.fin (c : ℚ))
    (hB : (c + 1) * n ^ 4 < 2 ^ 53) :
    calculateTrendF binary64 data windowSize = F64.fin 0 ∧
    calculateStdDevF binary64 data windowSize = F64.fin 0 := by
  by_cases hsmall : min windowSize (data.length : Int) < 2
  · rw [calculateTrendF_small_window binary64 data windowSize hsmall,
      calculateStdDevF_small_window binary64 data windowSize hsmall, binary64_ofRat,
      F64.ofRat_zero]
    exact ⟨rfl, rfl⟩
  · obtain ⟨m, hm⟩ := Int.eq_ofNat_of_zero_le
      (show 0 ≤ min windowSize (data.length : Int) by omega)
    rw [hm] at hconst hn
    simp only [Int.toNat_ofNat] at hconst
    have hmn : m ≤ n := by omega
    have hle : m ≤ data.length := by omega
    have hwin : data.drop (data.length - m) = List.replicate m (F64.fin (c : ℚ)) :=
      List.eq_replicate_iff.mpr ⟨by rw [List.length_drop]; omega, hconst⟩
    have hBm : (c + 1) * m ^ 4 < 2 ^ 53 :=
      lt_of_le_of_lt (Nat.mul_le_mul_left _ (Nat.pow_le_pow_left hmn 4)) hB
    exact ⟨calculateTrendF_const data windowSize m c (by omega) hm.symm hwin hBm,
      calculateStdDevF_const data windowSize m c (by omega) hm.symm hwin hBm⟩

/-- C7 (amended): in binary64, on a non-empty series whose trailing window (the last
`max(2, min(windowSize, len))` observations, the whole series when it is shorter) holds one
whole number `c` with `(c + 1) * n ^ 4 < 2 ^ 53` for the clamped window size
`n = max(2, min(windowSize, len))`, and with `periodsAhead` in the range of `int`,
`calculateTrend` and `calculateStdDev` return `0` (called with the clamped window as
`MovingAverageForecast` does, and with `windowSize` itself), the forecaster returns, and every
projected point has predicted = lower = upper = the last observed value `c`. -/
theorem MovingAverageForecastF_constant_window (historical : List F64)
    (periodsAhead windowSize : Int) (hne : historical ≠ []) (c : Nat)
    (hconst : ∀ v ∈ historical.drop
      (historical.length - (max 2 (min windowSize (historical.length : Int))).toNat),
      v = F64.fin (c : ℚ))
    (hsize : (c + 1) * (max 2 (min windowSize (historical.length : Int))).toNat ^ 4 < 2 ^ 53)
    (hp : periodsAhead < 2 ^ 63) :
    calculateTrendF binary64 historical (max 2 (min windowSize (historical.length : Int))) =
      F64.fin 0 ∧
    calculateStdDevF binary64 historical (max 2 (min windowSize (historical.length : Int))) =
      F64.fin 0 ∧
    calculateTrendF binary64 historical windowSize = F64.fin 0 ∧
    calculateStdDevF binary64 historical windowSize = F64.fin 0 ∧
    historical.getLast hne = F64.fin (c : ℚ) ∧
    (0 ≤ (historical.length : Int) + periodsAhead →
      ∃ results, MovingAverageForecastF binary64 historical periodsAhead windowSize =
        some results) ∧
    ∀ results, MovingAverageForecastF binary64 historical periodsAhead windowSize =
        some results →
      ∀ r ∈ results, r.Historical = false →
        r.Predicted = historical.getLast hne ∧ r.LowerBound = historical.getLast hne ∧
          r.UpperBound = historical.getLast hne := by
  have hpos : 0 < historical.length := List.length_pos.mpr hne
  obtain ⟨w, hw⟩ := Int.eq_ofNat_of_zero_le
    (show 0 ≤ max 2 (min windowSize (historical.length : Int)) by omega)
  have hw2 : 2 ≤ w := by omega
  rw [hw] at hconst hsize
  simp only [Int.toNat_ofNat] at hconst hsize
  obtain ⟨_, hc, _, _, _, _, _, _⟩ := window_bounds c w (by omega) hsize
  have hclamp : ∀ v ∈ historical.drop (historical.length -
      (min (max 2 (min windowSize (historical.length : Int))) (historical.length : Int)).toNat),
      v = F64.fin (c : ℚ) := fun v hv =>
    hconst v (mem_drop_of_le historical _ _ (by omega) v hv)
  have hW := calculateF_const historical (max 2 (min windowSize (historical.length : Int))) w c
    (by omega) hclamp hsize
  have hplain : ∀ v ∈ historical.drop (historical.length -
      (min windowSize (historical.length : Int)).toNat), v = F64.fin (c : ℚ) := fun v hv =>
    hconst v (mem_drop_of_le historical _ _ (by omega) v hv)
  have hV := calculateF_const historical windowSize w c (by omega) hplain hsize
  have hlast : historical.getLast hne = F64.fin (c : ℚ) := by
    have hne' : historical.drop (historical.length - w) ≠ [] := by
      intro h
      have := congrArg List.length h
      rw [List.length_drop] at this
      simp at this
      omega
    have h := hconst _ (List.getLast_mem hne')
    rw [List.getLast_drop] at h
    exact h
  refine ⟨hW.1, hW.2, hV.1, hV.2, hlast, ?_, ?_⟩
  · intro hcap
    exact ⟨_, MovingAverageForecastF_eq binary64 historical periodsAhead windowSize hne hcap⟩
  · intro results hres r hr hflag
    by_cases hcap : 0 ≤ (historical.length : Int) + periodsAhead
    · rw [MovingAverageForecastF_eq binary64 historical periodsAhead windowSize hne hcap] at hres
      simp only [Option.some.injEq] at hres
      subst hres
      rcases List.mem_append.mp hr with h | h
      · obtain ⟨v, _, rfl⟩ := List.mem_map.mp h
        simp [echoPoint] at hflag
      · obtain ⟨j, hj, rfl⟩ := List.mem_map.mp h
        have hj' := List.mem_range'_1.mp hj
        have hj63 : j < 2 ^ 63 := by omega
        simp only [clampWindow]
        rw [hW.1, hW.2, getD_last_eq_getLast historical _ hne, hlast,
          forecastStepF_const c j hc hj63]
        exact ⟨rfl, rfl, rfl⟩
    · have hlen : historical.length ≠ 0 := by omega
      simp [MovingAverageForecastF, hlen, not_le.mp hcap] at hres

theorem MovingAverageForecastF_constant_window_witness :
    calculateTrendF binary64 [F64.fin 1, F64.fin 7, F64.fin 7, F64.fin 7]
      (max 2 (min 3 (([F64.fin 1, F64.fin 7, F64.fin 7, F64.fin 7] : List F64).length : Int))) =
      F64.fin 0 ∧
    calculateStdDevF binary64 [F64.fin 1, F64.fin 7, F64.fin 7, F64.fin 7]
      (max 2 (min 3 (([F64.fin 1, F64.fin 7, F64.fin 7, F64.fin 7] : List F64).length : Int))) =
      F64.fin 0 ∧
    calculateTrendF binary64 [F64.fin 1, F64.fin 7, F64.fin 7, F64.fin 7] 3 = F64.fin 0 ∧
    calculateStdDevF binary64 [F64.fin 1, F64.fin 7, F64.fin 7, F64.fin 7] 3 = F64.fin 0 ∧
    ([F64.fin 1, F64.fin 7, F64.fin 7, F64.fin 7] : List F64).getLast (by simp) =
      F64.fin ((7 : Nat) : ℚ) ∧
    ((0 : Int) ≤ (([F64.fin 1, F64.fin 7, F64.fin 7, F64.fin 7] : List F64).length : Int) + 2 →
      ∃ results, MovingAverageForecastF binary64
        [F64.fin 1, F64.fin 7, F64.fin 7, F64.fin 7] 2 3 = some results) ∧
    ∀ results, MovingAverageForecastF binary64
        [F64.fin 1, F64.fin 7, F64.fin 7, F64.fin 7] 2 3 = some results →
      ∀ r ∈ results, r.Historical = false →
        r.Predicted = ([F64.fin 1, F64.fin 7, F64.fin 7, F64.fin 7] : List F64).getLast (by simp) ∧
        r.LowerBound = ([F64.fin 1, F64.fin 7, F64.fin 7, F64.fin 7] : List F64).getLast (by simp) ∧
        r.UpperBound = ([F64.fin 1, F64.fin 7, F64.fin 7, F64.fin 7] : List F64).getLast (by simp) :=
  MovingAverageForecastF_constant_window [F64.fin 1, F64.fin 7, F64.fin 7, F64.fin 7] 2 3
    (by simp) 7
    (by intro v hv; simp at hv; rw [hv]; simp)
    (by decide) (by norm_num)

/-! ## The clamps in binary64 -/

/-- The clamp `if x < 0 { x = 0 }` in binary64 leaves a number that is `≥ 0`, or a NaN. -/
theorem F64.clamp_nan_or_nonneg (x : F64) :
    (if F64.lt x (F64.ofRat 0) then F64.ofRat 0 else x) = F64.nan ∨
      F64.le (F64.ofRat 0) (if F64.lt x (F64.ofRat 0) then F64.ofRat 0 else x) = true := by
  rw [F64.ofRat_zero]
  cases x with
  | fin q =>
    right
    by_cases hq : q < 0
    · simp [F64.lt, F64.le, F64.beq, hq]
    · have h0 : 0 ≤ q := not_lt.mp hq
      rcases eq_or_lt_of_le h0 with h | h
      · simp [F64.lt, F64.le, F64.beq, ← h]
      · simp [F64.lt, F64.le, F64.beq, hq, h]
  | inf s =>
    right
    cases s <;> simp [F64.lt, F64.le, F64.beq]
  | nan =>
    left
    simp [F64.lt]

/-- In binary64 the clamps miss the NaN case only: every projected point returned by
`MovingAverageForecast` has a prediction that is `≥ 0` or NaN and a lower bound that is `≥ 0`
or NaN. -/
theorem MovingAverageForecastF_clamped_or_nan (historical : List F64)
    (periodsAhead windowSize : Int) (results : List (ForecastResult F64))
    (hres : MovingAverageForecastF binary64 historical periodsAhead windowSize = some results) :
    ∀ r ∈ results, r.Historical = false →
      (r.Predicted = F64.nan ∨ F64.le (F64.ofRat 0) r.Predicted = true) ∧
      (r.LowerBound = F64.nan ∨ F64.le (F64.ofRat 0) r.LowerBound = true) := by
  intro r hr hflag
  by_cases hne : historical = []
  · subst hne
    simp [MovingAverageForecastF] at hres
    subst hres
    simp at hr
  · have hlen : historical.length ≠ 0 := fun h => hne (List.length_eq_zero.mp h)
    by_cases hcap : 0 ≤ (historical.length : Int) + periodsAhead
    · rw [MovingAverageForecastF_eq binary64 historical periodsAhead windowSize hne hcap] at hres
      simp only [Option.some.injEq] at hres
      subst hres
      rcases List.mem_append.mp hr with h | h
      · obtain ⟨v, _, rfl⟩ := List.mem_map.mp h
        simp [echoPoint] at hflag
      · obtain ⟨j, _, rfl⟩ := List.mem_map.mp h
        unfold forecastStepF
        simp only
        rw [binary64_ofRat, binary64_lt]
        exact ⟨F64.clamp_nan_or_nonneg _, F64.clamp_nan_or_nonneg _⟩
    · simp [MovingAverageForecastF, hlen, not_le.mp hcap] at hres

theorem MovingAverageForecastF_clamped_or_nan_witness :
    ∀ r ∈ [({ Period := "", Predicted := F64.ofRat 0, LowerBound := F64.ofRat 0,
              UpperBound := F64.ofRat 0, Historical := true } : ForecastResult F64),
            { Period := "", Predicted := F64.ofRat (17 * 10 ^ 307),
              LowerBound := F64.ofRat (17 * 10 ^ 307),
              UpperBound := F64.ofRat (17 * 10 ^ 307), Historical := true },
            { Period := "", Predicted := F64.inf false, LowerBound := F64.nan,
              UpperBound := F64.inf false, Historical := false }],
      r.Historical = false →
      (r.Predicted = F64.nan ∨ F64.le (F64.ofRat 0) r.Predicted = true) ∧
      (r.LowerBound = F64.nan ∨ F64.le (F64.ofRat 0) r.LowerBound = true) :=
  MovingAverageForecastF_clamped_or_nan [F64.ofRat 0, F64.ofRat (17 * 10 ^ 307)] 1 2 _
    (by decide!)

end Forecast
